import Mathlib

/-!
# The Adventure of Floppy: verification of the game-state update loop

A shallow embedding of `tugas.cpp`.

Modelling conventions.
* The program is read twice. Part 1 first reads every statement in exact arithmetic:
  `float` fields (positions, rectangle geometry, scroll speed) are rationals and `int` fields
  (`score`, `hiScore`, `radius`, ledger entries) are integers, with no rounding and no
  wrap-around. The section "Machine arithmetic" then reads the same statements with the
  arithmetic of the compiled program: every `float` result is rounded to the nearest
  binary32 value (`f32`) and `score += 100` wraps to 32 bits (`i32`). Its definitions carry
  the suffix `32`; the two readings agree as long as no result is rounded and the score
  stays in the range of `int`.
* Properties of the ledger, the flags, the modes, the scoring flags and the floor are
  properties of the control flow and are stated over the exact reading. Properties that
  depend on the value a `float` operation returns or on the range of `int` (the player
  formula, monotone scores, the spacing of the field, ledger updates per tick, pairs per
  tick) are stated over the machine reading, `Reachable32` and `Game.Update32`.
* The fixed-size arrays `tubes[MAX_TUBES * 2]` and `tubesPos[MAX_TUBES]` are functions on
  `Nat`; only the cells below 200 (respectively 100) are array cells, and no loop of the
  program touches any other index.
* Textures, colours and drawing calls carry no game state and are left out.
* The library call `CheckCollisionCircleRec` is a parameter `coll` of the update function.
* `GetRandomValue(0, 120)` is an input: a value in `Fin 121` for each call.
-/

namespace Tugas

/-! ## Part 1: the program

### Constants -/

def MAX_TUBES : Nat := 100
def FLOPPY_RADIUS : Int := 20
def TUBES_WIDTH : ℚ := 80
/-- The constant `GRAVITY` read as the decimal 0.9; the `float` that the literal `0.9f`
denotes is `GRAVITY32` below. -/
def GRAVITY : ℚ := 9 / 10
def screenWidth : Int := 800
def screenHeight : Int := 450

/-! ### Data model -/

/-- The raylib pair of coordinates. -/
structure Vector2 where
  x : ℚ
  y : ℚ
deriving DecidableEq

/-- The raylib axis-aligned rectangle: top-left corner, width and height. -/
structure Rectangle where
  x : ℚ
  y : ℚ
  width : ℚ
  height : ℚ
deriving DecidableEq

/-- Class `Floppy` without its texture. -/
structure Floppy where
  position : Vector2
  radius : Int
deriving DecidableEq

/-- Class `Tube` without its colour; the field `rec` of the source is `rect` here. -/
structure Tube where
  rect : Rectangle
  active : Bool
deriving DecidableEq

/-- Class `Game` without its textures. -/
structure Game where
  gameOver : Bool
  pause : Bool
  score : Int
  hiScore : Int
  gameStarted : Bool
  floppy : Floppy
  tubes : Nat → Tube
  tubesPos : Nat → Vector2
  tubesSpeedX : ℚ
  superfx : Bool
  highScores : List Int

/-- What one frame reads from the outside world: the key states and the values the calls of
`GetRandomValue(0, 120)` return, in call order. -/
structure Input where
  keyP : Bool
  keyEnter : Bool
  keyW : Bool
  keyS : Bool
  keyA : Bool
  keyD : Bool
  rnd : Nat → Fin 121

/-- The type of `CheckCollisionCircleRec(center, radius, rec)`. -/
abbrev Collision := Vector2 → ℚ → Rectangle → Bool

/-! ### High-score ledger -/

/-- The effect of `std::sort(begin, end, std::greater<int>())`. -/
def sortGreater (l : List Int) : List Int :=
  l.insertionSort (fun a b => a ≥ b)

/-- The loop `while (highScores.size() > 5) highScores.pop_back();`. -/
def popWhileOver5 (l : List Int) : List Int :=
  if 5 < l.length then popWhileOver5 l.dropLast else l
termination_by l.length
decreasing_by
  simp only [List.length_dropLast]
  omega

/-- The integers `file >> score` yields before it fails; an absent file yields none. -/
def readScores : Option (List Int) → List Int
  | none => []
  | some l => l

/-- Method `Game::LoadHighScores`: clear, push back every integer read, sort, pop while the
size is over 5. -/
def Game.LoadHighScores (g : Game) (file : Option (List Int)) : Game :=
  let hs : List Int := []
  let hs := (readScores file).foldl (fun acc v => acc ++ [v]) hs
  let hs := sortGreater hs
  { g with highScores := popWhileOver5 hs }

/-- Method `Game::UpdateHighScores`. -/
def Game.UpdateHighScores (g : Game) : Game :=
  let hs := g.highScores ++ [g.score]
  let hs := sortGreater hs
  let hs := if 5 < hs.length then hs.dropLast else hs
  let g := { g with highScores := hs }
  if g.score > g.hiScore then { g with hiScore := g.score } else g

/-! ### Player -/

/-- Method `Floppy::Init` (the texture apart): `position = {80, screenHeight / 2 - radius}`,
the division being that of `int`. -/
def Floppy.Init (f : Floppy) : Floppy :=
  { f with position := ⟨80, ((screenHeight / 2 - f.radius : Int) : ℚ)⟩ }

/-- Method `Floppy::Update`: gravity, the four keys, then the floor. The sums are exact
here; `Floppy.Update32` below rounds each of them to `float`. -/
def Floppy.Update (f : Floppy) (inp : Input) : Floppy :=
  let y := f.position.y + GRAVITY
  let x := f.position.x
  let y := if inp.keyW then y - 3 else y
  let y := if inp.keyS then y + 3 else y
  let x := if inp.keyA then x - 3 else x
  let x := if inp.keyD then x + 3 else x
  let y := if y ≥ ((screenHeight - f.radius : Int) : ℚ)
    then ((screenHeight - f.radius : Int) : ℚ) else y
  { f with position := ⟨x, y⟩ }

/-! ### Obstacles -/

/-- Method `Tube::Init`. -/
def Tube.Init (_t : Tube) (x y : ℚ) : Tube :=
  { rect := ⟨x, y, TUBES_WIDTH, 255⟩, active := true }

/-- The loop counter values of `for (int i = 0; i < MAX_TUBES * 2; i += 2)`. -/
def evenIndices : List Nat :=
  (List.range MAX_TUBES).map (fun k => 2 * k)

/-! ### Game -/

/-- The constructor `Game::Game`, here `Game.ctor`. The members it leaves uninitialised (the
player position, the rectangles, the gap positions) keep whatever the memory `mem` held. -/
def Game.ctor (mem : Game) (file : Option (List Int)) : Game :=
  Game.LoadHighScores
    { gameOver := false
      pause := false
      score := 0
      hiScore := 0
      gameStarted := false
      floppy := { position := mem.floppy.position, radius := FLOPPY_RADIUS }
      tubes := fun i => { rect := (mem.tubes i).rect, active := true }
      tubesPos := mem.tubesPos
      tubesSpeedX := 2
      superfx := false
      highScores := [] }
    file

/-- The first loop of `Game::Init`: `tubesPos[i] = {400 + 280 * i, -GetRandomValue(0, 120)}`;
`rnd i` is what `GetRandomValue(0, 120)` returns in iteration `i`. -/
def Game.initPositions (g : Game) (rnd : Nat → Fin 121) : Game :=
  (List.range MAX_TUBES).foldl
    (fun g i =>
      let p : Vector2 := ⟨((400 + 280 * i : Nat) : ℚ), -(((rnd i).val : Int) : ℚ)⟩
      { g with tubesPos := Function.update g.tubesPos i p }) g

/-- The second loop of `Game::Init`: the top and the bottom rectangle of every pair. -/
def Game.initTubes (g : Game) : Game :=
  evenIndices.foldl
    (fun g i =>
      let t := (g.tubes i).Init (g.tubesPos (i / 2)).x (g.tubesPos (i / 2)).y
      let g := { g with tubes := Function.update g.tubes i t }
      let t := (g.tubes (i + 1)).Init (g.tubesPos (i / 2)).x (600 + (g.tubesPos (i / 2)).y - 255)
      { g with tubes := Function.update g.tubes (i + 1) t }) g

/-- Method `Game::Init` (textures and frame rate apart). -/
def Game.Init (g : Game) (rnd : Nat → Fin 121) : Game :=
  let g := { g with floppy := g.floppy.Init }
  let g := g.initPositions rnd
  let g := g.initTubes
  { g with
    gameOver := false
    pause := false
    score := 0
    tubesSpeedX := 2
    superfx := false
    gameStarted := false }

/-- The speed ramp inside the scoring branch of `Game::Update`, with its three branches in
source order. -/
def speedRamp (score : Int) (speed : ℚ) : ℚ :=
  if score ≥ 2500 ∧ score < 4500 then 7 / 2
  else if score ≥ 4500 then 4
  else if score ≥ 5500 then 6
  else speed

/-- The body of the loop `for (int i = 0; i < MAX_TUBES * 2; i++)` of `Game::Update`. The
sum `score + 100` is that of the integers here; `Game.checkStep32` below wraps it to the 32
bits of `int`. -/
def Game.checkStep (coll : Collision) (g : Game) (i : Nat) : Game :=
  if coll g.floppy.position (g.floppy.radius : ℚ) (g.tubes i).rect then
    Game.UpdateHighScores { g with gameOver := true, pause := false }
  else if (g.tubesPos (i / 2)).x < g.floppy.position.x ∧ (g.tubes (i / 2)).active = true
      ∧ g.gameOver = false then
    let g : Game := { g with score := g.score + 100 }
    let t : Tube := { g.tubes (i / 2) with active := false }
    let g : Game := { g with tubes := Function.update g.tubes (i / 2) t }
    let g : Game := { g with superfx := true }
    let g : Game := if g.score > g.hiScore then { g with hiScore := g.score } else g
    { g with tubesSpeedX := speedRamp g.score g.tubesSpeedX }
  else g

/-- The first loop of the unpaused branch: `tubesPos[i].x -= tubesSpeedX`. The difference is
exact here; `Game.advance32` below rounds it to `float`. -/
def Game.advance (g : Game) : Game :=
  (List.range MAX_TUBES).foldl
    (fun g i =>
      let p : Vector2 := { g.tubesPos i with x := (g.tubesPos i).x - g.tubesSpeedX }
      { g with tubesPos := Function.update g.tubesPos i p }) g

/-- The second loop of the unpaused branch: both rectangles of a pair take the gap's x. -/
def Game.syncTubes (g : Game) : Game :=
  evenIndices.foldl
    (fun g i =>
      let t : Tube :=
        { g.tubes i with rect := { (g.tubes i).rect with x := (g.tubesPos (i / 2)).x } }
      let g := { g with tubes := Function.update g.tubes i t }
      let t : Tube :=
        { g.tubes (i + 1) with
          rect := { (g.tubes (i + 1)).rect with x := (g.tubesPos (i / 2)).x } }
      { g with tubes := Function.update g.tubes (i + 1) t }) g

/-- The third loop of the unpaused branch: collision and scoring over all 200 rectangles. -/
def Game.checkAll (coll : Collision) (g : Game) : Game :=
  (List.range (MAX_TUBES * 2)).foldl (Game.checkStep coll) g

/-- Method `Game::Update`. -/
def Game.Update (coll : Collision) (g : Game) (inp : Input) : Game :=
  if g.gameOver = false ∧ g.gameStarted = true then
    let g := if inp.keyP then { g with pause := !g.pause } else g
    if g.pause = false then
      let g := g.advance
      let g := g.syncTubes
      let g := { g with floppy := g.floppy.Update inp }
      g.checkAll coll
    else g
  else
    if inp.keyEnter then
      let g := g.Init inp.rnd
      let g := { g with gameOver := false }
      { g with gameStarted := true }
    else g

/-- What `Game::Draw` does to the state: it clears `superfx` when it draws the flash. -/
def Game.Draw (g : Game) : Game :=
  if g.gameStarted = true ∧ g.gameOver = false ∧ g.superfx = true then
    { g with superfx := false }
  else g

/-- The states of the program `main`: the constructor, `Init`, then frames of `Update` and
`Draw`. -/
inductive Reachable (coll : Collision) : Game → Prop
  | start (mem : Game) (file : Option (List Int)) (rnd : Nat → Fin 121) :
      Reachable coll ((Game.ctor mem file).Init rnd)
  | update {g : Game} (inp : Input) : Reachable coll g → Reachable coll (g.Update coll inp)
  | draw {g : Game} : Reachable coll g → Reachable coll g.Draw

/-! ### Machine arithmetic

The program once more, with the arithmetic the compiled code performs: every `float` result
is rounded to the nearest `float`, and `int` results wrap to 32 bits. The definitions above
read the same statements in exact arithmetic; the two agree as long as no result is rounded
and the score stays in the range of `int`. Each operation on `float` operands is rounded
once, to `float` (no wider intermediate format). Results of magnitude 2^128 and more, which
overflow to infinity, are outside this model. -/

/-- Rounding to the nearest integer, a tie going to the even neighbour. -/
def roundEven (q : ℚ) : Int :=
  if q - ⌊q⌋ < 1 / 2 then ⌊q⌋
  else if 1 / 2 < q - ⌊q⌋ then ⌊q⌋ + 1
  else if ⌊q⌋ % 2 = 0 then ⌊q⌋ else ⌊q⌋ + 1

/-- The binary exponent of the unit in the last place of the `float` nearest to `q`: 24
significant bits, and the fixed exponent -149 of the subnormal range below 2^-126. -/
def ulpExp (q : ℚ) : Int := max (Int.log 2 |q|) (-126) - 23

/-- The value of type `float` (IEEE 754 binary32) that a real result `q` is rounded to, under
the default rounding mode (to nearest, ties to even). -/
def f32 (q : ℚ) : ℚ := (roundEven (q / 2 ^ ulpExp q) : ℚ) * 2 ^ ulpExp q

/-- The value of type `int` (32 bits, two's complement) that an integer result wraps to. -/
def i32 (n : Int) : Int := (n + 2 ^ 31) % 2 ^ 32 - 2 ^ 31

/-- `GRAVITY`, the `float` literal `0.9f`. -/
def GRAVITY32 : ℚ := f32 (9 / 10)

/-- Method `Floppy::Init` in machine arithmetic: the `int` value `screenHeight / 2 - radius`
is converted to `float`. -/
def Floppy.Init32 (f : Floppy) : Floppy :=
  { f with position := ⟨80, f32 ((i32 (screenHeight / 2 - f.radius) : Int) : ℚ)⟩ }

/-- Method `Floppy::Update` in machine arithmetic: each `+=` and `-=` rounds its result, and
the floor `screenHeight - radius` is an `int` converted to `float`. -/
def Floppy.Update32 (f : Floppy) (inp : Input) : Floppy :=
  let y := f32 (f.position.y + GRAVITY32)
  let x := f.position.x
  let y := if inp.keyW then f32 (y - 3) else y
  let y := if inp.keyS then f32 (y + 3) else y
  let x := if inp.keyA then f32 (x - 3) else x
  let x := if inp.keyD then f32 (x + 3) else x
  let y := if y ≥ f32 ((i32 (screenHeight - f.radius) : Int) : ℚ)
    then f32 ((i32 (screenHeight - f.radius) : Int) : ℚ) else y
  { f with position := ⟨x, y⟩ }

/-- The second loop of `Game::Init` in machine arithmetic: `600 + y - 255` is two `float`
operations. -/
def Game.initTubes32 (g : Game) : Game :=
  evenIndices.foldl
    (fun g i =>
      let t := (g.tubes i).Init (g.tubesPos (i / 2)).x (g.tubesPos (i / 2)).y
      let g := { g with tubes := Function.update g.tubes i t }
      let t := (g.tubes (i + 1)).Init (g.tubesPos (i / 2)).x
        (f32 (f32 (600 + (g.tubesPos (i / 2)).y) - 255))
      { g with tubes := Function.update g.tubes (i + 1) t }) g

/-- Method `Game::Init` in machine arithmetic. The first loop stores the `int` values
`400 + 280 * i` and `-GetRandomValue(0, 120)`, which are below 2^24 in magnitude and hence
converted to `float` without rounding. -/
def Game.Init32 (g : Game) (rnd : Nat → Fin 121) : Game :=
  let g := { g with floppy := g.floppy.Init32 }
  let g := g.initPositions rnd
  let g := g.initTubes32
  { g with
    gameOver := false
    pause := false
    score := 0
    tubesSpeedX := 2
    superfx := false
    gameStarted := false }

/-- The body of the check loop in machine arithmetic: `score += 100` wraps, and the `int`
radius is converted to `float` for the call of `CheckCollisionCircleRec`. The speeds `3.5f`,
`4.0f` and `6.0f` are `float` values. -/
def Game.checkStep32 (coll : Collision) (g : Game) (i : Nat) : Game :=
  if coll g.floppy.position (f32 (g.floppy.radius : ℚ)) (g.tubes i).rect then
    Game.UpdateHighScores { g with gameOver := true, pause := false }
  else if (g.tubesPos (i / 2)).x < g.floppy.position.x ∧ (g.tubes (i / 2)).active = true
      ∧ g.gameOver = false then
    let g : Game := { g with score := i32 (g.score + 100) }
    let t : Tube := { g.tubes (i / 2) with active := false }
    let g : Game := { g with tubes := Function.update g.tubes (i / 2) t }
    let g : Game := { g with superfx := true }
    let g : Game := if g.score > g.hiScore then { g with hiScore := g.score } else g
    { g with tubesSpeedX := speedRamp g.score g.tubesSpeedX }
  else g

/-- The first loop of the unpaused branch in machine arithmetic: `tubesPos[i].x -= tubesSpeedX`
rounds its result. -/
def Game.advance32 (g : Game) : Game :=
  (List.range MAX_TUBES).foldl
    (fun g i =>
      let p : Vector2 := { g.tubesPos i with x := f32 ((g.tubesPos i).x - g.tubesSpeedX) }
      { g with tubesPos := Function.update g.tubesPos i p }) g

/-- The third loop of the unpaused branch in machine arithmetic. -/
def Game.checkAll32 (coll : Collision) (g : Game) : Game :=
  (List.range (MAX_TUBES * 2)).foldl (Game.checkStep32 coll) g

/-- Method `Game::Update` in machine arithmetic. -/
def Game.Update32 (coll : Collision) (g : Game) (inp : Input) : Game :=
  if g.gameOver = false ∧ g.gameStarted = true then
    let g := if inp.keyP then { g with pause := !g.pause } else g
    if g.pause = false then
      let g := g.advance32
      let g := g.syncTubes
      let g := { g with floppy := g.floppy.Update32 inp }
      g.checkAll32 coll
    else g
  else
    if inp.keyEnter then
      let g := g.Init32 inp.rnd
      let g := { g with gameOver := false }
      { g with gameStarted := true }
    else g

/-- The states of the program `main` in machine arithmetic. -/
inductive Reachable32 (coll : Collision) : Game → Prop
  | start (mem : Game) (file : Option (List Int)) (rnd : Nat → Fin 121) :
      Reachable32 coll ((Game.ctor mem file).Init32 rnd)
  | update {g : Game} (inp : Input) :
      Reachable32 coll g → Reachable32 coll (g.Update32 coll inp)
  | draw {g : Game} : Reachable32 coll g → Reachable32 coll g.Draw

/-- The check loop in machine arithmetic with a counter of the calls of `UpdateHighScores`:
the counter goes up in the branch that makes the call. -/
def Game.checkStepCounted32 (coll : Collision) (s : Game × Nat) (i : Nat) : Game × Nat :=
  if coll s.1.floppy.position (f32 (s.1.floppy.radius : ℚ)) (s.1.tubes i).rect then
    (Game.UpdateHighScores { s.1 with gameOver := true, pause := false }, s.2 + 1)
  else (s.1.checkStep32 coll i, s.2)

/-- The number of calls of `UpdateHighScores` in the check loop started in `b`. -/
def updateCalls32 (coll : Collision) (b : Game) : Nat :=
  ((List.range (MAX_TUBES * 2)).foldl (Game.checkStepCounted32 coll) (b, 0)).2

/-! ## Part 2: the properties

### Predicates and functions of the specification -/

/-- The ledger operation of the specification: insert, re-sort descending, truncate to 5. -/
def specRecord (ledger : List Int) (score : Int) : List Int :=
  ((score :: ledger).mergeSort (fun a b => decide (b ≤ a))).take 5

/-- The ledger load of the specification: sort descending, keep the top 5. -/
def specLoad (persisted : List Int) : List Int :=
  (persisted.mergeSort (fun a b => decide (b ≤ a))).take 5

/-- The ledger invariant: non-increasing and at most 5 entries. -/
def LedgerInv (l : List Int) : Prop :=
  l.Sorted (fun a b => a ≥ b) ∧ l.length ≤ 5

/-- The speed tier as a function of the score alone. -/
def speedTier (score : Int) : ℚ :=
  if score < 2500 then 2 else if score < 4500 then 7 / 2 else 4

/-- The point of the rectangle closest to `c`, coordinate by coordinate (the clamp). -/
def closestPoint (c : Vector2) (r : Rectangle) : Vector2 :=
  ⟨max r.x (min c.x (r.x + r.width)), max r.y (min c.y (r.y + r.height))⟩

/-- The squared distance from `c` to the rectangle. -/
def distSq (c : Vector2) (r : Rectangle) : ℚ :=
  (c.x - (closestPoint c r).x) ^ 2 + (c.y - (closestPoint c r).y) ^ 2

/-- Modelled from the spec: `CheckCollisionCircleRec` is raylib's and is not part of the
sources; the specification describes it as "closest-point clamp then distance test" with a
strict inequality on the distance. -/
def clampCollision : Collision :=
  fun c radius r => decide (distSq c r < radius ^ 2)

/-- A collision test never reports a rectangle farther from the centre than the radius. -/
def CollisionSound (coll : Collision) : Prop :=
  ∀ c radius r, 0 ≤ radius → coll c radius r = true → distSq c r ≤ radius ^ 2

/-- The layout `Game::Init` sets up and every tick keeps: radius 20, both rectangles of pair
`j` at the gap's x with width 80 and height 255, the top one at the gap's y (between -120 and
0), the bottom one 345 lower, and consecutive gaps 280 apart. -/
def FieldInv (g : Game) : Prop :=
  g.floppy.radius = 20 ∧
  ∀ j, j < 100 →
    (g.tubes (2 * j)).rect = ⟨(g.tubesPos j).x, (g.tubesPos j).y, 80, 255⟩ ∧
    (g.tubes (2 * j + 1)).rect = ⟨(g.tubesPos j).x, 600 + (g.tubesPos j).y - 255, 80, 255⟩ ∧
    -120 ≤ (g.tubesPos j).y ∧ (g.tubesPos j).y ≤ 0 ∧
    (g.tubesPos j).x = (g.tubesPos 0).x + 280 * (j : ℚ)

/-- A tick of a running game whose pause flag is off after the P toggle. -/
def unpausedPlaying (g : Game) (inp : Input) : Prop :=
  g.gameStarted = true ∧ g.gameOver = false ∧ (if inp.keyP then !g.pause else g.pause) = false

/-- Whether a tick calls `Init`: ENTER pressed outside a running game. -/
def callsInit (g : Game) (inp : Input) : Prop :=
  ¬ (g.gameOver = false ∧ g.gameStarted = true) ∧ inp.keyEnter = true

/-- The pairs whose flag is set in `before` and cleared in `after`. -/
def newlyScored (before after : Nat → Tube) : Finset Nat :=
  (Finset.range MAX_TUBES).filter
    (fun j => (before j).active = true ∧ (after j).active = false)

/-! ### Bookkeeping for the proofs -/

instance geTotal : IsTotal Int (fun a b => a ≥ b) := ⟨fun a b => le_total b a⟩

instance geTrans : IsTrans Int (fun a b => a ≥ b) := ⟨fun _ _ _ h1 h2 => le_trans h2 h1⟩

instance geAntisymm : IsAntisymm Int (fun a b => a ≥ b) :=
  ⟨fun _ _ h1 h2 => le_antisymm h2 h1⟩

/-- The state with which a tick enters the check loop: after the advance of the field, the
synchronisation of the rectangles and `Floppy::Update`. -/
def Game.beforeChecks (g : Game) (inp : Input) : Game :=
  let g := g.advance
  let g := g.syncTubes
  { g with floppy := g.floppy.Update inp }

/-- The first `n` iterations of the check loop. -/
def Game.checkUpTo (coll : Collision) (g : Game) (n : Nat) : Game :=
  (List.range n).foldl (Game.checkStep coll) g

/-- The list `UpdateHighScores` leaves, as a function of the old list and the score. -/
def recorded (hs : List Int) (score : Int) : List Int :=
  if 5 < (sortGreater (hs ++ [score])).length then (sortGreater (hs ++ [score])).dropLast
  else sortGreater (hs ++ [score])

/-- The gap positions after the advance loop. -/
def advancedPos (pos : Nat → Vector2) (speed : ℚ) (j : Nat) : Vector2 :=
  if j < MAX_TUBES then ⟨(pos j).x - speed, (pos j).y⟩ else pos j

/-- The rectangles after the synchronisation loop. -/
def syncedTube (tubes : Nat → Tube) (pos : Nat → Vector2) (k : Nat) : Tube :=
  if k < MAX_TUBES * 2 then
    { tubes k with rect := { (tubes k).rect with x := (pos (k / 2)).x } }
  else tubes k

/-- The gap positions `Game::Init` writes. -/
def initPos (rnd : Nat → Fin 121) (j : Nat) : Vector2 :=
  ⟨((400 + 280 * j : Nat) : ℚ), -(((rnd j).val : Int) : ℚ)⟩

/-- The rectangles `Game::Init` derives from the gap positions of `g`. -/
def initTube (tubes : Nat → Tube) (pos : Nat → Vector2) (k : Nat) : Tube :=
  if k < MAX_TUBES * 2 then
    if k % 2 = 0 then ⟨⟨(pos (k / 2)).x, (pos (k / 2)).y, TUBES_WIDTH, 255⟩, true⟩
    else ⟨⟨(pos (k / 2)).x, 600 + (pos (k / 2)).y - 255, TUBES_WIDTH, 255⟩, true⟩
  else tubes k

/-- The gap positions after `Game::Init`. -/
def initPosAll (pos : Nat → Vector2) (rnd : Nat → Fin 121) (j : Nat) : Vector2 :=
  if j < MAX_TUBES then initPos rnd j else pos j

/-- The state the scoring branch of the check loop produces. -/
def scored (g : Game) (j : Nat) : Game :=
  { g with
    score := g.score + 100
    tubes := Function.update g.tubes j { g.tubes j with active := false }
    superfx := true
    hiScore := if g.score + 100 > g.hiScore then g.score + 100 else g.hiScore
    tubesSpeedX := speedRamp (g.score + 100) g.tubesSpeedX }

/-- What the check loop never changes: the player, the gap positions, the rectangles and
`gameStarted`. -/
def SameField (g t : Game) : Prop :=
  t.floppy = g.floppy ∧ t.tubesPos = g.tubesPos ∧ (∀ k, (t.tubes k).rect = (g.tubes k).rect)
    ∧ t.gameStarted = g.gameStarted

/-! ### Concrete states and inputs -/

/-- A memory image for the members the constructor leaves uninitialised. -/
def mem0 : Game :=
  { gameOver := false
    pause := false
    score := 0
    hiScore := 0
    gameStarted := false
    floppy := ⟨⟨0, 0⟩, 0⟩
    tubes := fun _ => ⟨⟨0, 0, 0, 0⟩, true⟩
    tubesPos := fun _ => ⟨0, 0⟩
    tubesSpeedX := 0
    superfx := false
    highScores := [] }

/-- The random source that always returns 0. -/
def rnd0 : Nat → Fin 121 := fun _ => 0

/-- The random source that always returns 13. -/
def rnd13 : Nat → Fin 121 := fun _ => 13

/-- No key is down. -/
def noKeys : Input := ⟨false, false, false, false, false, false, rnd0⟩

/-- Only ENTER is pressed. -/
def enterKey : Input := ⟨false, true, false, false, false, false, rnd0⟩

/-- Only D is down. -/
def rightKey : Input := ⟨false, false, false, false, false, true, rnd0⟩

/-- W and D are down. -/
def upRightKey : Input := ⟨false, false, true, false, false, true, rnd0⟩

/-- ENTER pressed, with every gap offset drawn as 13. -/
def enter13 : Input := ⟨false, true, false, false, false, false, rnd13⟩

/-- Every key but ENTER. -/
def allButEnter : Input := ⟨true, false, true, true, true, true, rnd0⟩

/-- The state in which `main` enters its loop when the file holds 1800, 3000 and 2500. -/
def game0 : Game := (Game.ctor mem0 (some [1800, 3000, 2500])).Init rnd0

/-- A game-over state: the game of `game0` ended with a score of 4600. -/
def gameOver4600 : Game :=
  { game0 with
    gameOver := true
    gameStarted := true
    score := 4600
    hiScore := 4600
    tubesSpeedX := 4
    highScores := [4600, 3000, 2500, 1800] }

/-- ENTER on the title screen, then `n` ticks with D held. -/
def approach : Nat → Game
  | 0 => game0.Update clampCollision enter13
  | n + 1 => (approach n).Update clampCollision rightKey

/-- What `approach n` is, for `n` up to 64: nothing scored, nothing hit, the player `3 n` to
the right and `0.9 n` lower, the field `2 n` to the left. -/
def approachState (n : Nat) : Game :=
  { gameOver := false
    pause := false
    score := 0
    hiScore := 0
    gameStarted := true
    floppy := ⟨⟨80 + 3 * (n : ℚ), 205 + 9 / 10 * (n : ℚ)⟩, 20⟩
    tubes := fun k =>
      if k < 200 then
        ⟨⟨400 + 280 * ((k / 2 : Nat) : ℚ) - 2 * (n : ℚ),
          if k % 2 = 0 then -13 else 332, 80, 255⟩, true⟩
      else ⟨⟨0, 0, 0, 0⟩, true⟩
    tubesPos := fun j =>
      if j < 100 then ⟨400 + 280 * (j : ℚ) - 2 * (n : ℚ), -13⟩ else ⟨0, 0⟩
    tubesSpeedX := 2
    superfx := false
    highScores := [3000, 2500, 1800] }

/-- The four modes of the game controller. -/
inductive Mode where
  | TitleScreen
  | Playing
  | Paused
  | GameOver
deriving DecidableEq

/-- The mode read off the flags the way `Update` and `Draw` branch on them: a running game
(`!gameOver && gameStarted`) is paused or playing, a started game that is over is in game
over, and a game that is not started shows the title. -/
def Game.mode (g : Game) : Mode :=
  if g.gameOver = false ∧ g.gameStarted = true then
    if g.pause = true then Mode.Paused else Mode.Playing
  else if g.gameStarted = true then Mode.GameOver
  else Mode.TitleScreen

/-- The tick, run unpaused, finds the player's circle on one of the 200 rectangles. -/
def tickCollides (coll : Collision) (g : Game) (inp : Input) : Prop :=
  ∃ i, i < 200 ∧
    coll (g.floppy.Update inp).position (g.floppy.radius : ℚ)
      ((g.beforeChecks inp).tubes i).rect = true

/-- The number of pairs `j < 100` whose flag `tubes[j].active` is cleared. -/
def scoredCount (g : Game) : Nat :=
  ((Finset.range MAX_TUBES).filter (fun j => (g.tubes j).active = false)).card

/-- Only P is pressed. -/
def pKey : Input := ⟨true, false, false, false, false, false, rnd0⟩

/-- P is pressed while W and D are down. -/
def pUpRightKey : Input := ⟨true, false, true, false, false, true, rnd0⟩

/-- Every key but P. -/
def allButP : Input := ⟨false, true, true, true, true, true, rnd0⟩

/-- The game of `approach 64`, paused by a tick with P. -/
def paused64 : Game := (approach 64).Update clampCollision pKey

/-- The best score bounds the score, and the score is not negative. -/
def ScoreInv (g : Game) : Prop :=
  0 ≤ g.score ∧ g.score ≤ g.hiScore

/-- The flags form one of the four combinations title, playing, paused, game over. -/
def FlagsInv (g : Game) : Prop :=
  (g.gameStarted = false ∧ g.gameOver = false ∧ g.pause = false) ∨
  (g.gameStarted = true ∧ g.gameOver = false ∧ g.pause = false) ∨
  (g.gameStarted = true ∧ g.gameOver = false ∧ g.pause = true) ∨
  (g.gameStarted = true ∧ g.gameOver = true ∧ g.pause = false)

/-- The layout of the obstacle field in the words of the specification: both rectangles of a
pair at the gap's x, the bottom one at `600 + top y - 255` with the top y between -120 and 0,
and consecutive gaps 280 apart. -/
def Layout (g : Game) : Prop :=
  (∀ j, j < 100 →
    (g.tubes (2 * j)).rect.x = (g.tubesPos j).x ∧
    (g.tubes (2 * j + 1)).rect.x = (g.tubesPos j).x ∧
    (g.tubes (2 * j + 1)).rect.y = 600 + (g.tubes (2 * j)).rect.y - 255 ∧
    -120 ≤ (g.tubes (2 * j)).rect.y ∧ (g.tubes (2 * j)).rect.y ≤ 0) ∧
  ∀ j, j + 1 < 100 → (g.tubesPos (j + 1)).x - (g.tubesPos j).x = 280

/-- In a running game every pair that is not yet scored lies at or to the right of the
player. -/
def AheadInv (g : Game) : Prop :=
  (g.gameOver = false ∧ g.gameStarted = true) →
    ∀ j, j < 100 → (g.tubes j).active = true → g.floppy.position.x ≤ (g.tubesPos j).x

/-! ### Bookkeeping for machine arithmetic -/

/-- The collision test as the machine check loop calls it: the radius arrives as a `float`. -/
def conv32 (coll : Collision) : Collision := fun c radius r => coll c (f32 radius) r

/-- The gap positions after the advance loop in machine arithmetic. -/
def advancedPos32 (pos : Nat → Vector2) (speed : ℚ) (j : Nat) : Vector2 :=
  if j < MAX_TUBES then ⟨f32 ((pos j).x - speed), (pos j).y⟩ else pos j

/-- The rectangles `Game::Init` derives from the gap positions in machine arithmetic. -/
def initTube32 (tubes : Nat → Tube) (pos : Nat → Vector2) (k : Nat) : Tube :=
  if k < MAX_TUBES * 2 then
    if k % 2 = 0 then ⟨⟨(pos (k / 2)).x, (pos (k / 2)).y, TUBES_WIDTH, 255⟩, true⟩
    else ⟨⟨(pos (k / 2)).x, f32 (f32 (600 + (pos (k / 2)).y) - 255), TUBES_WIDTH, 255⟩, true⟩
  else tubes k

/-- The state with which a machine tick enters the check loop. -/
def Game.beforeChecks32 (g : Game) (inp : Input) : Game :=
  let g := g.advance32
  let g := g.syncTubes
  { g with floppy := g.floppy.Update32 inp }

/-- The first `n` iterations of the machine check loop. -/
def Game.checkUpTo32 (coll : Collision) (g : Game) (n : Nat) : Game :=
  (List.range n).foldl (Game.checkStep32 coll) g

/-- The state the scoring branch of the machine check loop produces. -/
def scored32 (g : Game) (j : Nat) : Game :=
  { g with
    score := i32 (g.score + 100)
    tubes := Function.update g.tubes j { g.tubes j with active := false }
    superfx := true
    hiScore := if i32 (g.score + 100) > g.hiScore then i32 (g.score + 100) else g.hiScore
    tubesSpeedX := speedRamp (i32 (g.score + 100)) g.tubesSpeedX }

/-- The part of the layout that rounding leaves alone: radius 20, both rectangles of pair `j`
at the gap's x with width 80 and height 255, the top one at the gap's y (between -120 and 0),
the bottom one 345 lower. -/
def FieldSync (g : Game) : Prop :=
  g.floppy.radius = 20 ∧
  ∀ j, j < 100 →
    (g.tubes (2 * j)).rect = ⟨(g.tubesPos j).x, (g.tubesPos j).y, 80, 255⟩ ∧
    (g.tubes (2 * j + 1)).rect = ⟨(g.tubesPos j).x, 600 + (g.tubesPos j).y - 255, 80, 255⟩ ∧
    -120 ≤ (g.tubesPos j).y ∧ (g.tubesPos j).y ≤ 0

/-- The gaps are where exact arithmetic puts them: consecutive gaps 280 apart, the first at
a multiple of 1/2 that is at most 400. -/
def ExactField (g : Game) : Prop :=
  (∃ k : Int, (g.tubesPos 0).x = (k : ℚ) / 2) ∧ (g.tubesPos 0).x ≤ 400 ∧
  ∀ j, j < 100 → (g.tubesPos j).x = (g.tubesPos 0).x + 280 * (j : ℚ)

/-- As long as the first gap has not gone further left than -2^22 the gaps are where exact
arithmetic puts them. -/
def NearInv (g : Game) : Prop :=
  -4194304 ≤ (g.tubesPos 0).x → ExactField g

/-- What every state of the machine program satisfies. -/
def Inv32 (g : Game) : Prop :=
  LedgerInv g.highScores ∧ g.score = 100 * (scoredCount g : Int) ∧
  g.tubesSpeedX = speedTier g.score ∧ FieldSync g ∧ NearInv g ∧ AheadInv g

/-! ### Concrete runs in machine arithmetic -/

/-- Only A is down. -/
def leftKey : Input := ⟨false, false, false, false, true, false, rnd0⟩

/-- W and S are down. -/
def upDownKey : Input := ⟨false, false, true, true, false, false, rnd0⟩

/-- A running game in which nothing is scored yet: the player at `(px, py)`, gap `j` at x
`gx j`, every gap offset 13, the ledger that of `game0`. -/
def fieldState (px py : ℚ) (gx : Nat → ℚ) : Game :=
  { gameOver := false
    pause := false
    score := 0
    hiScore := 0
    gameStarted := true
    floppy := ⟨⟨px, py⟩, 20⟩
    tubes := fun k =>
      if k < 200 then ⟨⟨gx (k / 2), if k % 2 = 0 then -13 else 332, 80, 255⟩, true⟩
      else ⟨⟨0, 0, 0, 0⟩, true⟩
    tubesPos := fun j => if j < 100 then ⟨gx j, -13⟩ else ⟨0, 0⟩
    tubesSpeedX := 2
    superfx := false
    highScores := [3000, 2500, 1800] }

/-- ENTER on the title screen with every gap offset drawn as 13, then `n` machine ticks with
D held. -/
def approach32 : Nat → Game
  | 0 => game0.Update32 clampCollision enter13
  | n + 1 => (approach32 n).Update32 clampCollision rightKey

/-- The height of the player after `n` ticks of gravity alone from 205, in machine
arithmetic, as long as it stays between 128 and 430: each tick adds 29491/32768. -/
def fallY (n : Nat) : ℚ := ((6717440 + 29491 * n : Nat) : ℚ) / 32768

/-- The x of gap `j` after `n` ticks at speed 2, as long as nothing is rounded. -/
def gapX (n j : Nat) : ℚ := 400 + 280 * (j : ℚ) - 2 * (n : ℚ)

/-- ENTER on the title screen with every gap offset drawn as 13, then `n` machine ticks with
A held. -/
def retreat : Nat → Game
  | 0 => game0.Update32 clampCollision enter13
  | n + 1 => (retreat n).Update32 clampCollision leftKey

/-- The x of the player after `n` machine ticks with A held: 3 to the left per tick down to
-2^24, then 4 per tick (the sum with -3 is rounded to the nearest multiple of 4). -/
def retreatX (n : Nat) : Int :=
  if n ≤ 5592432 then 80 - 3 * (n : Int) else -16777216 - 4 * ((n : Int) - 5592432)

/-- The height of the player after `n` machine ticks of gravity alone from 205: it reaches
the floor after 251 ticks. -/
def retreatY (n : Nat) : ℚ := if n ≤ 250 then fallY n else 430

/-- The x of gap `j` after `n` machine ticks at speed 2: 2 to the left per tick down to
-2^25, where it stays. -/
def stallX (n j : Nat) : Int := max (400 + 280 * (j : Int) - 2 * (n : Int)) (-33554432)

/-- After 16800000 machine ticks with A held, `m` machine ticks with D held. -/
def comeBack : Nat → Game
  | 0 => retreat 16800000
  | m + 1 => (comeBack m).Update32 clampCollision rightKey

/-- The x of the player in `comeBack m`: 4 to the right per tick. -/
def comeBackX (m : Nat) : Int := -61607488 + 4 * (m : Int)

/-- After 16800000 machine ticks with A held and 7013194 with D held, `k` machine ticks with
W and D held. -/
def climb : Nat → Game
  | 0 => comeBack 7013194
  | k + 1 => (climb k).Update32 clampCollision upRightKey

/-- The x of the player in `climb k`. -/
def climbX (k : Nat) : Int := -33554712 + 4 * (k : Int)

/-- The height of the player in `climb k`: from the floor, 68813/32768 up per tick. -/
def climbY (k : Nat) : ℚ := ((14090240 - 68813 * (k : Int) : Int) : ℚ) / 32768

/-- A state with the score 100 short of the largest `int`: the player at (80, 240), the gaps
from x = 83 on, 280 apart at offset 60, the speed 4. -/
def wrapState : Game :=
  { gameOver := false
    pause := false
    score := 2147483600
    hiScore := 2147483600
    gameStarted := true
    floppy := ⟨⟨80, 240⟩, 20⟩
    tubes := fun k =>
      if k < 200 then
        ⟨⟨83 + 280 * ((k / 2 : Nat) : ℚ), if k % 2 = 0 then -60 else 285, 80, 255⟩, true⟩
      else ⟨⟨0, 0, 0, 0⟩, true⟩
    tubesPos := fun j => if j < 100 then ⟨83 + 280 * (j : ℚ), -60⟩ else ⟨0, 0⟩
    tubesSpeedX := 4
    superfx := false
    highScores := [] }

/-- The first part of `Layout`: both rectangles of a pair at the gap's x, the bottom one at
`600 + top y - 255` with the top y between -120 and 0. -/
def LayoutSync (g : Game) : Prop :=
  ∀ j, j < 100 →
    (g.tubes (2 * j)).rect.x = (g.tubesPos j).x ∧
    (g.tubes (2 * j + 1)).rect.x = (g.tubesPos j).x ∧
    (g.tubes (2 * j + 1)).rect.y = 600 + (g.tubes (2 * j)).rect.y - 255 ∧
    -120 ≤ (g.tubes (2 * j)).rect.y ∧ (g.tubes (2 * j)).rect.y ≤ 0

/-- The state with which the tick after `climb 70`, W and D held, enters the check loop: the
player in the gap band, 4 to the right of the 100 gaps stalled at -2^25. -/
def passState : Game := fieldState (-33554428) (climbY 71) (fun _ => -33554432)

/-- After 16800000 machine ticks with A held, 7013194 with D held and 55 with W and D held,
`j` machine ticks with D held. -/
def glide : Nat → Game
  | 0 => climb 55
  | j + 1 => (glide j).Update32 clampCollision rightKey

/-- The x of the player in `glide j`: 4 to the right per tick. -/
def glideX (j : Nat) : Int := -33554492 + 4 * (j : Int)

/-- The height of the player in `glide j`: 29491/32768 down per tick from the height of
`climb 55`. -/
def glideY (j : Nat) : ℚ := ((10305525 + 29491 * j : Nat) : ℚ) / 32768

/-- The state with which the tick after `glide 10`, D held, enters the check loop: the
player 16 to the left of the 100 pairs stalled at -2^25, its centre 7.6 above the top edge of
their bottom rectangles. -/
def hitState : Game := fieldState (-33554448) (glideY 11) (fun _ => -33554432)

/-- The ledger after `n` iterations of the check loop on `hitState`. -/
def hitLedger (n : Nat) : List Int :=
  if n < 2 then [3000, 2500, 1800]
  else if n < 4 then [3000, 2500, 1800, 0]
  else [3000, 2500, 1800, 0, 0]

/-! ## Part 3: the proofs -/

/-! ### Generic facts about loops -/

theorem foldl_range_invariant {σ : Type} (P : Nat → σ → Prop) (f : σ → Nat → σ) (s : σ)
    (n : Nat) (h0 : P 0 s) (hs : ∀ i t, i < n → P i t → P (i + 1) (f t i)) :
    P n ((List.range n).foldl f s) := by
  induction n with
  | zero => simpa using h0
  | succ k ih =>
    rw [List.range_succ, List.foldl_append]
    simp only [List.foldl_cons, List.foldl_nil]
    exact hs k _ (Nat.lt_succ_self k)
      (ih (fun i t hi hp => hs i t (Nat.lt_succ_of_lt hi) hp))

/-! ### Ledger lemmas -/

theorem sortGreater_sorted (l : List Int) : (sortGreater l).Sorted (fun a b => a ≥ b) :=
  List.sorted_insertionSort _ l

theorem sortGreater_perm (l : List Int) : (sortGreater l).Perm l :=
  List.perm_insertionSort _ l

theorem sortGreater_length (l : List Int) : (sortGreater l).length = l.length :=
  (sortGreater_perm l).length_eq

theorem sortGreater_congr {l₁ l₂ : List Int} (h : l₁.Perm l₂) :
    sortGreater l₁ = sortGreater l₂ :=
  List.eq_of_perm_of_sorted ((sortGreater_perm l₁).trans (h.trans (sortGreater_perm l₂).symm))
    (sortGreater_sorted l₁) (sortGreater_sorted l₂)

theorem mergeSort_desc_eq (l : List Int) :
    l.mergeSort (fun a b => decide (b ≤ a)) = sortGreater l := by
  refine List.eq_of_perm_of_sorted
    ((List.mergeSort_perm l _).trans (sortGreater_perm l).symm) ?_ (sortGreater_sorted l)
  have hs : (l.mergeSort (fun a b => decide (b ≤ a))).Pairwise
      (fun a b => decide (b ≤ a) = true) :=
    @List.sorted_mergeSort Int (fun a b => decide (b ≤ a))
      (fun a b c h1 h2 => decide_eq_true (le_trans (of_decide_eq_true h2) (of_decide_eq_true h1)))
      (fun a b => by
        rcases le_total a b with h | h
        · simp [h]
        · simp [h]) l
  exact hs.imp (fun h => of_decide_eq_true h)

theorem popWhileOver5_eq (l : List Int) : popWhileOver5 l = l.take 5 := by
  generalize hn : l.length = n
  induction n using Nat.strong_induction_on generalizing l with
  | _ n ih =>
    unfold popWhileOver5
    split
    · rw [ih l.dropLast.length (by simp; omega) l.dropLast rfl, List.dropLast_eq_take,
        List.take_take]
      congr 1
      omega
    · rw [List.take_of_length_le (by omega)]

theorem foldl_push_back (l acc : List Int) :
    l.foldl (fun acc v => acc ++ [v]) acc = acc ++ l := by
  induction l generalizing acc with
  | nil => simp
  | cons a t ih => simp [ih]

theorem LoadHighScores_highScores (g : Game) (file : Option (List Int)) :
    (g.LoadHighScores file).highScores = (sortGreater (readScores file)).take 5 := by
  simp [Game.LoadHighScores, foldl_push_back, popWhileOver5_eq]

theorem UpdateHighScores_highScores (g : Game) :
    g.UpdateHighScores.highScores =
      if 5 < (sortGreater (g.highScores ++ [g.score])).length
      then (sortGreater (g.highScores ++ [g.score])).dropLast
      else sortGreater (g.highScores ++ [g.score]) := by
  unfold Game.UpdateHighScores
  simp only
  split <;> rfl

theorem sorted_take {l : List Int} (h : l.Sorted (fun a b => a ≥ b)) (n : Nat) :
    (l.take n).Sorted (fun a b => a ≥ b) :=
  List.Pairwise.sublist (List.take_sublist n l) h

theorem sorted_dropLast {l : List Int} (h : l.Sorted (fun a b => a ≥ b)) :
    l.dropLast.Sorted (fun a b => a ≥ b) :=
  List.Pairwise.sublist (List.dropLast_sublist l) h

theorem LedgerInv_LoadHighScores (g : Game) (file : Option (List Int)) :
    LedgerInv (g.LoadHighScores file).highScores := by
  rw [LoadHighScores_highScores]
  exact ⟨sorted_take (sortGreater_sorted _) 5, by simp⟩

theorem LedgerInv_UpdateHighScores (g : Game) (h : LedgerInv g.highScores) :
    LedgerInv g.UpdateHighScores.highScores := by
  rw [UpdateHighScores_highScores]
  have hl : (sortGreater (g.highScores ++ [g.score])).length = g.highScores.length + 1 := by
    simp [sortGreater_length]
  have h5 := h.2
  split
  · exact ⟨sorted_dropLast (sortGreater_sorted _), by simp [hl]; omega⟩
  · exact ⟨sortGreater_sorted _, by omega⟩

/-! ### Closed forms of the simple loops -/

theorem advance_eq (g : Game) :
    g.advance = { g with tubesPos := advancedPos g.tubesPos g.tubesSpeedX } := by
  unfold Game.advance
  have key := foldl_range_invariant
    (fun n t => t = { g with tubesPos := fun j =>
      if j < n then ⟨(g.tubesPos j).x - g.tubesSpeedX, (g.tubesPos j).y⟩ else g.tubesPos j })
    (fun g i =>
      let p : Vector2 := { g.tubesPos i with x := (g.tubesPos i).x - g.tubesSpeedX }
      { g with tubesPos := Function.update g.tubesPos i p }) g MAX_TUBES (by simp)
    (by
      intro i t _ ht
      subst ht
      simp only [Game.mk.injEq, true_and, and_true]
      funext j
      by_cases hji : j = i
      · subst hji
        simp
      · have h1 : j < i + 1 ↔ j < i := by omega
        simp [Function.update_noteq hji, h1])
  rw [key]
  rfl

theorem syncTubes_eq (g : Game) :
    g.syncTubes = { g with tubes := syncedTube g.tubes g.tubesPos } := by
  unfold Game.syncTubes evenIndices
  rw [List.foldl_map]
  have key := foldl_range_invariant
    (fun n t => t = { g with tubes := fun k =>
      if k < 2 * n then syncedTube g.tubes g.tubesPos k else g.tubes k })
    (fun g k =>
      let t : Tube :=
        { g.tubes (2 * k) with
          rect := { (g.tubes (2 * k)).rect with x := (g.tubesPos (2 * k / 2)).x } }
      let g := { g with tubes := Function.update g.tubes (2 * k) t }
      let t : Tube :=
        { g.tubes (2 * k + 1) with
          rect := { (g.tubes (2 * k + 1)).rect with x := (g.tubesPos (2 * k / 2)).x } }
      { g with tubes := Function.update g.tubes (2 * k + 1) t }) g MAX_TUBES (by simp)
    (by
      intro i t hi ht
      subst ht
      simp only [Game.mk.injEq, true_and, and_true]
      funext k
      have hdiv : 2 * i / 2 = i := by omega
      have hi2 : i < 100 := hi
      by_cases h1 : k = 2 * i + 1
      · subst h1
        have hd : (2 * i + 1) / 2 = i := by omega
        have hlt : 2 * i + 1 < 100 * 2 := by omega
        have hlt2 : 2 * i + 1 < 2 * (i + 1) := by omega
        simp [hdiv, hd, syncedTube, MAX_TUBES, hlt, hlt2]
      · by_cases h0 : k = 2 * i
        · subst h0
          have hlt : 2 * i < 100 * 2 := by omega
          have hlt2 : 2 * i < 2 * (i + 1) := by omega
          simp [hdiv, syncedTube, MAX_TUBES, hlt, hlt2]
        · have hlt : k < 2 * (i + 1) ↔ k < 2 * i := by omega
          simp [Function.update_noteq h1, Function.update_noteq h0, hlt])
  rw [key]
  simp only [Game.mk.injEq, true_and, and_true]
  funext k
  by_cases hk : k < 2 * MAX_TUBES
  · simp [hk]
  · have hk2 : ¬ k < MAX_TUBES * 2 := by omega
    simp [hk, syncedTube, hk2]

theorem initPositions_eq (g : Game) (rnd : Nat → Fin 121) :
    g.initPositions rnd =
      { g with tubesPos := fun j => if j < MAX_TUBES then initPos rnd j else g.tubesPos j } := by
  unfold Game.initPositions
  have key := foldl_range_invariant
    (fun n t => t = { g with tubesPos := fun j => if j < n then initPos rnd j else g.tubesPos j })
    (fun g i =>
      let p : Vector2 := ⟨((400 + 280 * i : Nat) : ℚ), -(((rnd i).val : Int) : ℚ)⟩
      { g with tubesPos := Function.update g.tubesPos i p }) g MAX_TUBES (by simp)
    (by
      intro i t _ ht
      subst ht
      simp only [Game.mk.injEq, true_and, and_true]
      funext j
      by_cases hji : j = i
      · subst hji
        simp [initPos]
      · have h1 : j < i + 1 ↔ j < i := by omega
        simp [Function.update_noteq hji, h1])
  rw [key]

theorem initTubes_eq (g : Game) :
    g.initTubes = { g with tubes := initTube g.tubes g.tubesPos } := by
  unfold Game.initTubes evenIndices
  rw [List.foldl_map]
  have key := foldl_range_invariant
    (fun n t => t = { g with tubes := fun k =>
      if k < 2 * n then initTube g.tubes g.tubesPos k else g.tubes k })
    (fun g k =>
      let t := (g.tubes (2 * k)).Init (g.tubesPos (2 * k / 2)).x (g.tubesPos (2 * k / 2)).y
      let g := { g with tubes := Function.update g.tubes (2 * k) t }
      let t := (g.tubes (2 * k + 1)).Init (g.tubesPos (2 * k / 2)).x
        (600 + (g.tubesPos (2 * k / 2)).y - 255)
      { g with tubes := Function.update g.tubes (2 * k + 1) t }) g MAX_TUBES (by simp)
    (by
      intro i t hi ht
      subst ht
      simp only [Game.mk.injEq, true_and, and_true]
      funext k
      have hdiv : 2 * i / 2 = i := by omega
      have hi2 : i < 100 := hi
      by_cases h1 : k = 2 * i + 1
      · subst h1
        have hd : (2 * i + 1) / 2 = i := by omega
        have hm : (2 * i + 1) % 2 = 1 := by omega
        have hlt : 2 * i + 1 < 100 * 2 := by omega
        have hlt2 : 2 * i + 1 < 2 * (i + 1) := by omega
        simp [hdiv, hd, hm, initTube, Tube.Init, MAX_TUBES, hlt, hlt2]
      · by_cases h0 : k = 2 * i
        · subst h0
          have hlt : 2 * i < 100 * 2 := by omega
          have hlt2 : 2 * i < 2 * (i + 1) := by omega
          simp [hdiv, initTube, Tube.Init, MAX_TUBES, hlt, hlt2]
        · have hlt : k < 2 * (i + 1) ↔ k < 2 * i := by omega
          simp [Function.update_noteq h1, Function.update_noteq h0, hlt])
  rw [key]
  simp only [Game.mk.injEq, true_and, and_true]
  funext k
  by_cases hk : k < 2 * MAX_TUBES
  · simp [hk]
  · have hk2 : ¬ k < MAX_TUBES * 2 := by omega
    simp [hk, initTube, hk2]

theorem Init_eq (g : Game) (rnd : Nat → Fin 121) :
    g.Init rnd =
      { gameOver := false
        pause := false
        score := 0
        hiScore := g.hiScore
        gameStarted := false
        floppy := g.floppy.Init
        tubes := initTube g.tubes (initPosAll g.tubesPos rnd)
        tubesPos := initPosAll g.tubesPos rnd
        tubesSpeedX := 2
        superfx := false
        highScores := g.highScores } := by
  simp only [Game.Init, initPositions_eq, initTubes_eq]
  simp only [Game.mk.injEq, true_and, and_true]
  refine ⟨?_, ?_⟩
  · funext k
    simp [initTube, initPosAll]
  · funext j
    simp [initPosAll]

/-! ### The check loop -/

theorem checkStep_hit (coll : Collision) (g : Game) (i : Nat)
    (h : coll g.floppy.position (g.floppy.radius : ℚ) (g.tubes i).rect = true) :
    g.checkStep coll i = Game.UpdateHighScores { g with gameOver := true, pause := false } := by
  simp [Game.checkStep, h]

theorem checkStep_idle (coll : Collision) (g : Game) (i : Nat)
    (h : coll g.floppy.position (g.floppy.radius : ℚ) (g.tubes i).rect = false)
    (hc : ¬ ((g.tubesPos (i / 2)).x < g.floppy.position.x ∧ (g.tubes (i / 2)).active = true
      ∧ g.gameOver = false)) :
    g.checkStep coll i = g := by
  unfold Game.checkStep
  rw [if_neg (by simp [h]), if_neg hc]

theorem checkStep_score (coll : Collision) (g : Game) (i : Nat)
    (h : coll g.floppy.position (g.floppy.radius : ℚ) (g.tubes i).rect = false)
    (hc : (g.tubesPos (i / 2)).x < g.floppy.position.x ∧ (g.tubes (i / 2)).active = true
      ∧ g.gameOver = false) :
    g.checkStep coll i = scored g (i / 2) := by
  unfold Game.checkStep
  rw [if_neg (by simp [h]), if_pos hc]
  simp only [scored]
  split <;> rfl

/-- The three ways one iteration of the check loop can go. -/
theorem checkStep_cases (coll : Collision) (g : Game) (i : Nat) :
    (coll g.floppy.position (g.floppy.radius : ℚ) (g.tubes i).rect = true ∧
      g.checkStep coll i = Game.UpdateHighScores { g with gameOver := true, pause := false }) ∨
    (coll g.floppy.position (g.floppy.radius : ℚ) (g.tubes i).rect = false ∧
      ((g.tubesPos (i / 2)).x < g.floppy.position.x ∧ (g.tubes (i / 2)).active = true
        ∧ g.gameOver = false) ∧ g.checkStep coll i = scored g (i / 2)) ∨
    (coll g.floppy.position (g.floppy.radius : ℚ) (g.tubes i).rect = false ∧
      ¬ ((g.tubesPos (i / 2)).x < g.floppy.position.x ∧ (g.tubes (i / 2)).active = true
        ∧ g.gameOver = false) ∧ g.checkStep coll i = g) := by
  cases h : coll g.floppy.position (g.floppy.radius : ℚ) (g.tubes i).rect with
  | true => exact Or.inl ⟨rfl, checkStep_hit coll g i h⟩
  | false =>
    by_cases hc : (g.tubesPos (i / 2)).x < g.floppy.position.x ∧ (g.tubes (i / 2)).active = true
        ∧ g.gameOver = false
    · exact Or.inr (Or.inl ⟨rfl, hc, checkStep_score coll g i h hc⟩)
    · exact Or.inr (Or.inr ⟨rfl, hc, checkStep_idle coll g i h hc⟩)

theorem SameField.refl (g : Game) : SameField g g := ⟨rfl, rfl, fun _ => rfl, rfl⟩

theorem SameField.trans {a b c : Game} (h1 : SameField a b) (h2 : SameField b c) :
    SameField a c :=
  ⟨h2.1.trans h1.1, h2.2.1.trans h1.2.1, fun k => (h2.2.2.1 k).trans (h1.2.2.1 k),
    h2.2.2.2.trans h1.2.2.2⟩

theorem UpdateHighScores_frame (g : Game) :
    g.UpdateHighScores.gameOver = g.gameOver ∧ g.UpdateHighScores.pause = g.pause ∧
    g.UpdateHighScores.score = g.score ∧ g.UpdateHighScores.gameStarted = g.gameStarted ∧
    g.UpdateHighScores.floppy = g.floppy ∧ g.UpdateHighScores.tubes = g.tubes ∧
    g.UpdateHighScores.tubesPos = g.tubesPos ∧ g.UpdateHighScores.tubesSpeedX = g.tubesSpeedX ∧
    g.UpdateHighScores.superfx = g.superfx := by
  unfold Game.UpdateHighScores
  simp only
  split <;> simp

theorem UpdateHighScores_hiScore (g : Game) :
    g.UpdateHighScores.hiScore = if g.score > g.hiScore then g.score else g.hiScore := by
  unfold Game.UpdateHighScores
  simp only
  split <;> rfl

theorem scored_sameField (g : Game) (j : Nat) : SameField g (scored g j) := by
  refine ⟨rfl, rfl, fun k => ?_, rfl⟩
  by_cases hk : k = j
  · subst hk
    simp [scored]
  · simp [scored, Function.update_noteq hk]

theorem checkStep_sameField (coll : Collision) (g : Game) (i : Nat) :
    SameField g (g.checkStep coll i) := by
  rcases checkStep_cases coll g i with ⟨-, h⟩ | ⟨-, -, h⟩ | ⟨-, -, h⟩
  · rw [h]
    have hf := UpdateHighScores_frame { g with gameOver := true, pause := false }
    exact ⟨hf.2.2.2.2.1, hf.2.2.2.2.2.2.1, fun k => by rw [hf.2.2.2.2.2.1], hf.2.2.2.1⟩
  · rw [h]
    exact scored_sameField g (i / 2)
  · rw [h]
    exact SameField.refl g

theorem checkUpTo_succ (coll : Collision) (g : Game) (n : Nat) :
    g.checkUpTo coll (n + 1) = (g.checkUpTo coll n).checkStep coll n := by
  simp [Game.checkUpTo, List.range_succ, List.foldl_append]

theorem checkUpTo_zero (coll : Collision) (g : Game) : g.checkUpTo coll 0 = g := rfl

theorem checkAll_eq (coll : Collision) (g : Game) :
    g.checkAll coll = g.checkUpTo coll 200 := rfl

theorem beforeChecks_eq (g : Game) (inp : Input) :
    g.beforeChecks inp =
      { g with
        tubesPos := advancedPos g.tubesPos g.tubesSpeedX
        tubes := syncedTube g.tubes (advancedPos g.tubesPos g.tubesSpeedX)
        floppy := g.floppy.Update inp } := by
  simp [Game.beforeChecks, advance_eq, syncTubes_eq]

/-! From here on the loops are used through the lemmas above only. -/

attribute [irreducible] Game.advance Game.syncTubes Game.initPositions Game.initTubes
  Game.beforeChecks Game.checkUpTo Game.checkAll Game.Init

theorem checkUpTo_sameField (coll : Collision) (g : Game) (n : Nat) :
    SameField g (g.checkUpTo coll n) := by
  induction n with
  | zero =>
    rw [checkUpTo_zero]
    exact SameField.refl g
  | succ k ih =>
    rw [checkUpTo_succ]
    exact ih.trans (checkStep_sameField coll _ k)

theorem checkUpTo_gameOver (coll : Collision) (g : Game) (n : Nat) :
    (g.checkUpTo coll n).gameOver = true ↔
      (g.gameOver = true ∨
        ∃ i, i < n ∧ coll g.floppy.position (g.floppy.radius : ℚ) (g.tubes i).rect = true) := by
  induction n with
  | zero => simp [checkUpTo_zero]
  | succ k ih =>
    rw [checkUpTo_succ]
    have hsf := checkUpTo_sameField coll g k
    have hpos : (g.checkUpTo coll k).floppy = g.floppy := hsf.1
    have hrect : ((g.checkUpTo coll k).tubes k).rect = (g.tubes k).rect := hsf.2.2.1 k
    have hsplit : (∃ i, i < k + 1 ∧
        coll g.floppy.position (g.floppy.radius : ℚ) (g.tubes i).rect = true) ↔
        ((∃ i, i < k ∧ coll g.floppy.position (g.floppy.radius : ℚ) (g.tubes i).rect = true) ∨
          coll g.floppy.position (g.floppy.radius : ℚ) (g.tubes k).rect = true) := by
      constructor
      · rintro ⟨i, hi, hc⟩
        rcases Nat.lt_succ_iff_lt_or_eq.mp hi with h | h
        · exact Or.inl ⟨i, h, hc⟩
        · exact Or.inr (h ▸ hc)
      · rintro (⟨i, hi, hc⟩ | hc)
        · exact ⟨i, Nat.lt_succ_of_lt hi, hc⟩
        · exact ⟨k, Nat.lt_succ_self k, hc⟩
    rw [hsplit]
    rcases checkStep_cases coll (g.checkUpTo coll k) k with ⟨hc, h⟩ | ⟨hc, -, h⟩ | ⟨hc, -, h⟩
    · rw [h, (UpdateHighScores_frame _).1]
      rw [hpos, hrect] at hc
      simp [hc]
    · rw [hpos, hrect] at hc
      rw [h]
      have : (scored (g.checkUpTo coll k) (k / 2)).gameOver = (g.checkUpTo coll k).gameOver := rfl
      rw [this, ih]
      simp [hc]
    · rw [hpos, hrect] at hc
      rw [h, ih]
      simp [hc]

theorem checkUpTo_noHit (coll : Collision) (g : Game) (n : Nat)
    (h : ∀ i, i < n → coll g.floppy.position (g.floppy.radius : ℚ) (g.tubes i).rect = false) :
    (g.checkUpTo coll n).pause = g.pause ∧ (g.checkUpTo coll n).gameOver = g.gameOver ∧
      (g.checkUpTo coll n).highScores = g.highScores := by
  induction n with
  | zero => simp [checkUpTo_zero]
  | succ k ih =>
    rw [checkUpTo_succ]
    have ih2 := ih (fun i hi => h i (Nat.lt_succ_of_lt hi))
    have hsf := checkUpTo_sameField coll g k
    have hk := h k (Nat.lt_succ_self k)
    rcases checkStep_cases coll (g.checkUpTo coll k) k with ⟨hc, -⟩ | ⟨-, -, h2⟩ | ⟨-, -, h2⟩
    · rw [hsf.1, hsf.2.2.1 k, hk] at hc
      exact absurd hc (by simp)
    · rw [h2]
      exact ih2
    · rw [h2]
      exact ih2

theorem checkUpTo_running (coll : Collision) (g : Game) (n : Nat)
    (hs : g.gameStarted = true) (ho : g.gameOver = false) (hp : g.pause = false)
    (h : ∀ i, i < n → coll g.floppy.position (g.floppy.radius : ℚ) (g.tubes i).rect = false) :
    (g.checkUpTo coll n).gameStarted = true ∧ (g.checkUpTo coll n).gameOver = false ∧
      (g.checkUpTo coll n).pause = false := by
  have h1 := checkUpTo_noHit coll g n h
  have h2 := (checkUpTo_sameField coll g n).2.2.2
  exact ⟨h2.trans hs, h1.2.1.trans ho, h1.1.trans hp⟩

theorem checkStep_ledger (coll : Collision) (g : Game) (i : Nat) (h : LedgerInv g.highScores) :
    LedgerInv (g.checkStep coll i).highScores := by
  rcases checkStep_cases coll g i with ⟨-, h2⟩ | ⟨-, -, h2⟩ | ⟨-, -, h2⟩
  · rw [h2]
    exact LedgerInv_UpdateHighScores _ h
  · rw [h2]
    exact h
  · rw [h2]
    exact h

theorem checkUpTo_ledger (coll : Collision) (g : Game) (n : Nat) (h : LedgerInv g.highScores) :
    LedgerInv (g.checkUpTo coll n).highScores := by
  induction n with
  | zero =>
    rw [checkUpTo_zero]
    exact h
  | succ k ih =>
    rw [checkUpTo_succ]
    exact checkStep_ledger coll _ k ih

/-! ### Unfolding one tick -/

theorem Update_unpaused (coll : Collision) (g : Game) (inp : Input)
    (h : unpausedPlaying g inp) :
    g.Update coll inp = (Game.beforeChecks { g with pause := false } inp).checkAll coll := by
  obtain ⟨hs, ho, hp⟩ := h
  unfold Game.Update
  rw [if_pos ⟨ho, hs⟩]
  cases hk : inp.keyP with
  | true =>
    rw [hk] at hp
    simp only [if_true] at hp ⊢
    simp only [hp, if_true, Game.beforeChecks]
  | false =>
    rw [hk] at hp
    simp only [Bool.false_eq_true, if_false] at hp ⊢
    rw [if_pos hp]
    have hg : { g with pause := false } = g := by
      cases g
      simp only [Game.mk.injEq, true_and, and_true] at hp ⊢
      exact hp.symm
    rw [hg]
    simp only [Game.beforeChecks]

theorem Update_paused (coll : Collision) (g : Game) (inp : Input)
    (hs : g.gameStarted = true) (ho : g.gameOver = false)
    (hp : (if inp.keyP then !g.pause else g.pause) = true) :
    g.Update coll inp = { g with pause := true } := by
  unfold Game.Update
  rw [if_pos ⟨ho, hs⟩]
  cases hk : inp.keyP with
  | true =>
    rw [hk] at hp
    simp only [if_true] at hp ⊢
    simp [hp]
  | false =>
    rw [hk] at hp
    simp only [Bool.false_eq_true, if_false] at hp ⊢
    rw [if_neg (by simp [hp])]
    cases g
    simp only [Game.mk.injEq, true_and, and_true] at hp ⊢
    exact hp

theorem Update_idle (coll : Collision) (g : Game) (inp : Input)
    (h : ¬ (g.gameOver = false ∧ g.gameStarted = true)) (he : inp.keyEnter = false) :
    g.Update coll inp = g := by
  unfold Game.Update
  rw [if_neg h]
  simp [he]

theorem Update_restart (coll : Collision) (g : Game) (inp : Input)
    (h : ¬ (g.gameOver = false ∧ g.gameStarted = true)) (he : inp.keyEnter = true) :
    g.Update coll inp = { g.Init inp.rnd with gameOver := false, gameStarted := true } := by
  unfold Game.Update
  rw [if_neg h]
  simp [he]

theorem Update_ledger (coll : Collision) (g : Game) (inp : Input) (h : LedgerInv g.highScores) :
    LedgerInv (g.Update coll inp).highScores := by
  by_cases hrun : g.gameOver = false ∧ g.gameStarted = true
  · cases hp : (if inp.keyP then !g.pause else g.pause) with
    | true =>
      rw [Update_paused coll g inp hrun.2 hrun.1 hp]
      exact h
    | false =>
      rw [Update_unpaused coll g inp ⟨hrun.2, hrun.1, hp⟩, checkAll_eq]
      apply checkUpTo_ledger
      rw [beforeChecks_eq]
      exact h
  · cases he : inp.keyEnter with
    | true =>
      rw [Update_restart coll g inp hrun he, Init_eq]
      exact h
    | false =>
      rw [Update_idle coll g inp hrun he]
      exact h

theorem Draw_highScores (g : Game) : g.Draw.highScores = g.highScores := by
  unfold Game.Draw
  split <;> rfl

theorem Init_highScores (g : Game) (rnd : Nat → Fin 121) :
    (g.Init rnd).highScores = g.highScores := by
  rw [Init_eq]

theorem ctor_highScores (mem : Game) (file : Option (List Int)) :
    (Game.ctor mem file).highScores = (sortGreater (readScores file)).take 5 :=
  LoadHighScores_highScores _ file

theorem Reachable_ledger (coll : Collision) (g : Game) (h : Reachable coll g) :
    LedgerInv g.highScores := by
  induction h with
  | start mem file rnd =>
    rw [Init_highScores, ctor_highScores]
    exact ⟨sorted_take (sortGreater_sorted _) 5, by simp⟩
  | update inp _ ih => exact Update_ledger coll _ inp ih
  | draw _ ih =>
    rw [Draw_highScores]
    exact ih

theorem game0_reachable (coll : Collision) : Reachable coll game0 :=
  Reachable.start mem0 (some [1800, 3000, 2500]) rnd0

/-! ### Ledger and collision -/

/-- C1: in every state reachable from the constructor by `Update` (and `Draw`) frames the
high-score list is sorted in non-increasing order and has at most 5 entries, and every call of
`UpdateHighScores` preserves this. -/
theorem C1_ledger_sorted_at_most_five (coll : Collision) (g : Game) (h : Reachable coll g) :
    LedgerInv g.highScores ∧
      ∀ t : Game, LedgerInv t.highScores → LedgerInv t.UpdateHighScores.highScores :=
  ⟨Reachable_ledger coll g h, fun t ht => LedgerInv_UpdateHighScores t ht⟩

theorem C1_witness :
    Reachable clampCollision game0 ∧ LedgerInv game0.highScores ∧
      LedgerInv game0.UpdateHighScores.highScores :=
  ⟨game0_reachable clampCollision,
    (C1_ledger_sorted_at_most_five clampCollision game0 (game0_reachable clampCollision)).1,
    (C1_ledger_sorted_at_most_five clampCollision game0 (game0_reachable clampCollision)).2
      game0 (Reachable_ledger clampCollision game0 (game0_reachable clampCollision))⟩

/-- C2: on a ledger (at most 5 entries) `UpdateHighScores` leaves the first 5 elements of the
descending sort of the old entries together with the score; from the empty ledger, recording
2500, 1800 and 3000 yields `[3000, 2500, 1800]`. -/
theorem C2_record_inserts_sorts_truncates (g : Game) (h : g.highScores.length ≤ 5) :
    g.UpdateHighScores.highScores = specRecord g.highScores g.score ∧
      (Game.UpdateHighScores
        { Game.UpdateHighScores
            { Game.UpdateHighScores { g with highScores := [], score := 2500 } with
              score := 1800 } with
          score := 3000 }).highScores = [3000, 2500, 1800] := by
  constructor
  · rw [UpdateHighScores_highScores, specRecord, mergeSort_desc_eq]
    have hperm : (g.highScores ++ [g.score]).Perm (g.score :: g.highScores) :=
      List.perm_append_singleton g.score g.highScores
    rw [sortGreater_congr hperm]
    have hl : (sortGreater (g.score :: g.highScores)).length = g.highScores.length + 1 := by
      simp [sortGreater_length]
    split
    · rw [List.dropLast_eq_take]
      congr 1
      omega
    · rw [List.take_of_length_le (by omega)]
  · simp [UpdateHighScores_highScores, sortGreater]

theorem C2_witness :
    game0.highScores.length ≤ 5 ∧
      (game0.UpdateHighScores.highScores = specRecord game0.highScores game0.score ∧
      (Game.UpdateHighScores
        { Game.UpdateHighScores
            { Game.UpdateHighScores { game0 with highScores := [], score := 2500 } with
              score := 1800 } with
          score := 3000 }).highScores = [3000, 2500, 1800]) :=
  ⟨(Reachable_ledger clampCollision game0 (game0_reachable clampCollision)).2,
    C2_record_inserts_sorts_truncates game0
      (Reachable_ledger clampCollision game0 (game0_reachable clampCollision)).2⟩

/-- C3: whatever integers the persisted file yields, `LoadHighScores` sets the ledger to the
first 5 elements of their descending sort (all of them when there are at most 5), whatever the
ledger held before; an absent or an empty file gives the empty ledger. -/
theorem C3_load_sorts_keeps_top_five (g : Game) (file : Option (List Int)) :
    (g.LoadHighScores file).highScores = specLoad (readScores file) ∧
      (g.LoadHighScores file).highScores.length = min 5 (readScores file).length ∧
      (∀ t : Game, (t.LoadHighScores file).highScores = (g.LoadHighScores file).highScores) ∧
      (g.LoadHighScores none).highScores = [] ∧
      (g.LoadHighScores (some [])).highScores = [] := by
  refine ⟨?_, ?_, ?_, ?_, ?_⟩
  · rw [LoadHighScores_highScores, specLoad, mergeSort_desc_eq]
  · rw [LoadHighScores_highScores, List.length_take, sortGreater_length]
  · intro t
    rw [LoadHighScores_highScores, LoadHighScores_highScores]
  · simp [LoadHighScores_highScores, readScores, sortGreater]
  · simp [LoadHighScores_highScores, readScores, sortGreater]

/-- C4: in a tick of a running game that is not paused after the P toggle, `gameOver` holds at
the end of the tick exactly when the player's circle (position after `Floppy::Update`, radius
20) collides with one of the 200 rectangles as they are after the advance; without such a
collision the game is still running, unpaused. -/
theorem C4_gameOver_iff_collision (coll : Collision) (g : Game) (inp : Input)
    (h : unpausedPlaying g inp) (hr : g.floppy.radius = 20) :
    ((g.Update coll inp).gameOver = true ↔
      ∃ i, i < 200 ∧
        coll (g.floppy.Update inp).position 20 ((g.beforeChecks inp).tubes i).rect = true) ∧
    ((∀ i, i < 200 →
        coll (g.floppy.Update inp).position 20 ((g.beforeChecks inp).tubes i).rect = false) →
      (g.Update coll inp).gameStarted = true ∧ (g.Update coll inp).gameOver = false ∧
        (g.Update coll inp).pause = false) := by
  rw [Update_unpaused coll g inp h, checkAll_eq]
  have hb : Game.beforeChecks { g with pause := false } inp =
      { g.beforeChecks inp with pause := false } := by
    simp [beforeChecks_eq]
  have hfl : (g.beforeChecks inp).floppy = g.floppy.Update inp := by
    rw [beforeChecks_eq]
  have hrad : (((g.floppy.Update inp).radius : Int) : ℚ) = 20 := by
    have : (g.floppy.Update inp).radius = g.floppy.radius := rfl
    rw [this, hr]
    norm_num
  have hgo : (g.beforeChecks inp).gameOver = false := by
    rw [beforeChecks_eq]
    exact h.2.1
  have hgs : (g.beforeChecks inp).gameStarted = true := by
    rw [beforeChecks_eq]
    exact h.1
  rw [hb]
  generalize g.beforeChecks inp = b at hfl hgo hgs
  constructor
  · rw [checkUpTo_gameOver]
    simp only [hfl, hrad, hgo, Bool.false_eq_true, false_or]
  · intro hno
    exact checkUpTo_running coll { b with pause := false } 200 hgs hgo rfl
      (by
        intro i hi
        simp only [hfl, hrad]
        exact hno i hi)

theorem game0_flags : game0.gameOver = false ∧ game0.gameStarted = false := by
  unfold game0
  rw [Init_eq]
  exact ⟨rfl, rfl⟩

/-! ### Speed tiers -/

theorem speedRamp_tier (score : Int) :
    speedRamp (score + 100) (speedTier score) = speedTier (score + 100) := by
  unfold speedRamp speedTier
  by_cases h1 : score + 100 < 2500
  · have h2 : score < 2500 := by omega
    have h3 : ¬ (score + 100 ≥ 2500 ∧ score + 100 < 4500) := by omega
    have h4 : ¬ score + 100 ≥ 4500 := by omega
    have h5 : ¬ score + 100 ≥ 5500 := by omega
    rw [if_neg h3, if_neg h4, if_neg h5, if_pos h2, if_pos h1]
  · by_cases h2 : score + 100 < 4500
    · have h3 : score + 100 ≥ 2500 ∧ score + 100 < 4500 := by omega
      rw [if_pos h3, if_neg h1, if_pos h2]
    · have h3 : ¬ (score + 100 ≥ 2500 ∧ score + 100 < 4500) := by omega
      have h4 : score + 100 ≥ 4500 := by omega
      rw [if_neg h3, if_pos h4, if_neg h1, if_neg h2]

theorem checkStep_speed (coll : Collision) (g : Game) (i : Nat)
    (h : g.tubesSpeedX = speedTier g.score) :
    (g.checkStep coll i).tubesSpeedX = speedTier (g.checkStep coll i).score := by
  rcases checkStep_cases coll g i with ⟨-, h2⟩ | ⟨-, -, h2⟩ | ⟨-, -, h2⟩
  · rw [h2, (UpdateHighScores_frame _).2.2.1, (UpdateHighScores_frame _).2.2.2.2.2.2.2.1]
    exact h
  · rw [h2]
    show speedRamp (g.score + 100) g.tubesSpeedX = speedTier (g.score + 100)
    rw [h]
    exact speedRamp_tier g.score
  · rw [h2]
    exact h

theorem checkUpTo_speed (coll : Collision) (g : Game) (n : Nat)
    (h : g.tubesSpeedX = speedTier g.score) :
    (g.checkUpTo coll n).tubesSpeedX = speedTier (g.checkUpTo coll n).score := by
  induction n with
  | zero =>
    rw [checkUpTo_zero]
    exact h
  | succ k ih =>
    rw [checkUpTo_succ]
    exact checkStep_speed coll _ k ih

theorem Update_speed (coll : Collision) (g : Game) (inp : Input)
    (h : g.tubesSpeedX = speedTier g.score) :
    (g.Update coll inp).tubesSpeedX = speedTier (g.Update coll inp).score := by
  by_cases hrun : g.gameOver = false ∧ g.gameStarted = true
  · cases hp : (if inp.keyP then !g.pause else g.pause) with
    | true =>
      rw [Update_paused coll g inp hrun.2 hrun.1 hp]
      exact h
    | false =>
      rw [Update_unpaused coll g inp ⟨hrun.2, hrun.1, hp⟩, checkAll_eq]
      apply checkUpTo_speed
      rw [beforeChecks_eq]
      exact h
  · cases he : inp.keyEnter with
    | true =>
      rw [Update_restart coll g inp hrun he, Init_eq]
      simp [speedTier]
    | false =>
      rw [Update_idle coll g inp hrun he]
      exact h

theorem Reachable_speed (coll : Collision) (g : Game) (h : Reachable coll g) :
    g.tubesSpeedX = speedTier g.score := by
  induction h with
  | start mem file rnd =>
    rw [Init_eq]
    simp [speedTier]
  | update inp _ ih => exact Update_speed coll _ inp ih
  | draw _ ih =>
    unfold Game.Draw
    split
    · exact ih
    · exact ih

/-- C7: in every reachable state the scroll speed is determined by the score: 2 below 2500,
3.5 from 2500 up to 4499, 4 from 4500 on; a score of exactly 2500 selects 3.5; the branch
`score >= 5500` of the ramp is never taken, whatever the score, and the speed is never 6. -/
theorem C7_speed_is_tier_of_score (coll : Collision) (g : Game) (h : Reachable coll g) :
    g.tubesSpeedX = speedTier g.score ∧
      (g.score = 2500 → g.tubesSpeedX = 7 / 2) ∧
      g.tubesSpeedX ≠ 6 ∧
      (∀ speed : ℚ, speedRamp 2500 speed = 7 / 2) ∧
      (∀ score : Int, ¬ (¬ (score ≥ 2500 ∧ score < 4500) ∧ ¬ score ≥ 4500 ∧ score ≥ 5500)) ∧
      (∀ (score : Int) (speed : ℚ), speed ≠ 6 → speedRamp score speed ≠ 6) := by
  have hinv := Reachable_speed coll g h
  refine ⟨hinv, ?_, ?_, ?_, ?_, ?_⟩
  · intro hs
    rw [hinv, hs]
    simp [speedTier]
  · rw [hinv]
    unfold speedTier
    split
    · norm_num
    · split <;> norm_num
  · intro speed
    simp [speedRamp]
  · intro score
    omega
  · intro score speed hne
    unfold speedRamp
    split
    · norm_num
    · split
      · norm_num
      · rename_i h1 h2
        have h3 : ¬ score ≥ 5500 := by omega
        rw [if_neg h3]
        exact hne

/-! ### Game over: idle frames and restart -/

/-- C9: from a state with `gameOver` set, a tick without ENTER leaves the whole state as it
is, whatever the other keys; in particular the ledger, `hiScore` and `score` stay. -/
theorem C9_gameOver_idle_tick (coll : Collision) (g : Game) (inp : Input)
    (ho : g.gameOver = true) (he : inp.keyEnter = false) :
    g.Update coll inp = g :=
  Update_idle coll g inp (by simp [ho]) he

theorem C9_witness :
    gameOver4600.gameOver = true ∧ allButEnter.keyEnter = false ∧
      gameOver4600.Update clampCollision allButEnter = gameOver4600 :=
  ⟨rfl, rfl, C9_gameOver_idle_tick clampCollision gameOver4600 allButEnter rfl rfl⟩

theorem Floppy_Init_position (f : Floppy) (hr : f.radius = 20) :
    f.Init.position = ⟨80, 205⟩ := by
  simp [Floppy.Init, hr, screenHeight]

theorem game0_radius : game0.floppy.radius = 20 := by
  simp [game0, Init_eq, Game.ctor, Game.LoadHighScores, Floppy.Init, FLOPPY_RADIUS]

/-- C10: from a state with `gameOver` set, a tick with ENTER pressed gives a running, unpaused
game with score 0, speed 2, the player at (80, 205), every rectangle flag set again (every pair
unscored), pair `i` at x = 400 + 280 i together with both its rectangles, and the ledger and
`hiScore` as they were. -/
theorem C10_restart_from_gameOver (coll : Collision) (g : Game) (inp : Input)
    (ho : g.gameOver = true) (he : inp.keyEnter = true) (hr : g.floppy.radius = 20) :
    (g.Update coll inp).gameStarted = true ∧ (g.Update coll inp).gameOver = false ∧
    (g.Update coll inp).pause = false ∧ (g.Update coll inp).score = 0 ∧
    (g.Update coll inp).tubesSpeedX = 2 ∧ (g.Update coll inp).floppy.position = ⟨80, 205⟩ ∧
    (∀ k, k < 200 → ((g.Update coll inp).tubes k).active = true) ∧
    (∀ i, i < 100 → ((g.Update coll inp).tubesPos i).x = 400 + 280 * (i : ℚ) ∧
      ((g.Update coll inp).tubes (2 * i)).rect.x = 400 + 280 * (i : ℚ) ∧
      ((g.Update coll inp).tubes (2 * i + 1)).rect.x = 400 + 280 * (i : ℚ)) ∧
    (g.Update coll inp).highScores = g.highScores ∧ (g.Update coll inp).hiScore = g.hiScore := by
  rw [Update_restart coll g inp (by simp [ho]) he, Init_eq]
  refine ⟨rfl, rfl, rfl, rfl, rfl, Floppy_Init_position g.floppy hr, ?_, ?_, rfl, rfl⟩
  · intro k hk
    have hk2 : k < MAX_TUBES * 2 := hk
    simp only [initTube, hk2, if_true]
    split <;> rfl
  · intro i hi
    have hi1 : i < MAX_TUBES := hi
    have h0 : 2 * i < MAX_TUBES * 2 := by unfold MAX_TUBES; omega
    have h1 : 2 * i + 1 < MAX_TUBES * 2 := by unfold MAX_TUBES; omega
    have hd0 : 2 * i / 2 = i := by omega
    have hd1 : (2 * i + 1) / 2 = i := by omega
    have hm0 : 2 * i % 2 = 0 := by omega
    have hm1 : ¬ (2 * i + 1) % 2 = 0 := by omega
    simp only [initTube, initPosAll, initPos, h0, h1, hd0, hd1, hm0, hm1, hi1, if_true,
      if_false]
    push_cast
    exact ⟨rfl, rfl, rfl⟩

theorem C10_witness :
    gameOver4600.gameOver = true ∧ enterKey.keyEnter = true ∧
    gameOver4600.floppy.radius = 20 ∧
    ((gameOver4600.Update clampCollision enterKey).gameStarted = true ∧
    (gameOver4600.Update clampCollision enterKey).gameOver = false ∧
    (gameOver4600.Update clampCollision enterKey).pause = false ∧
    (gameOver4600.Update clampCollision enterKey).score = 0 ∧
    (gameOver4600.Update clampCollision enterKey).tubesSpeedX = 2 ∧
    (gameOver4600.Update clampCollision enterKey).floppy.position = ⟨80, 205⟩ ∧
    (∀ k, k < 200 → ((gameOver4600.Update clampCollision enterKey).tubes k).active = true) ∧
    (∀ i, i < 100 →
      ((gameOver4600.Update clampCollision enterKey).tubesPos i).x = 400 + 280 * (i : ℚ) ∧
      ((gameOver4600.Update clampCollision enterKey).tubes (2 * i)).rect.x
        = 400 + 280 * (i : ℚ) ∧
      ((gameOver4600.Update clampCollision enterKey).tubes (2 * i + 1)).rect.x
        = 400 + 280 * (i : ℚ)) ∧
    (gameOver4600.Update clampCollision enterKey).highScores = gameOver4600.highScores ∧
    (gameOver4600.Update clampCollision enterKey).hiScore = gameOver4600.hiScore) :=
  ⟨rfl, rfl, game0_radius,
    C10_restart_from_gameOver clampCollision gameOver4600 enterKey rfl rfl game0_radius⟩

/-! ### Scoring flags -/

theorem newlyScored_self (t : Nat → Tube) : newlyScored t t = ∅ := by
  unfold newlyScored
  apply Finset.filter_false_of_mem
  intro j _ h
  rw [h.1] at h
  exact absurd h.2 (by simp)

theorem scored_active (g : Game) (j0 j : Nat) :
    ((scored g j0).tubes j).active = if j = j0 then false else (g.tubes j).active := by
  by_cases h : j = j0
  · subst h
    simp [scored]
  · simp [scored, Function.update_noteq h, h]

theorem checkStep_active_false (coll : Collision) (g : Game) (i j : Nat)
    (h : (g.tubes j).active = false) : ((g.checkStep coll i).tubes j).active = false := by
  rcases checkStep_cases coll g i with ⟨-, h2⟩ | ⟨-, -, h2⟩ | ⟨-, -, h2⟩
  · rw [h2, (UpdateHighScores_frame _).2.2.2.2.2.1]
    exact h
  · rw [h2, scored_active]
    split
    · rfl
    · exact h
  · rw [h2]
    exact h

theorem checkUpTo_active_false (coll : Collision) (g : Game) (n j : Nat)
    (h : (g.tubes j).active = false) : ((g.checkUpTo coll n).tubes j).active = false := by
  induction n with
  | zero =>
    rw [checkUpTo_zero]
    exact h
  | succ k ih =>
    rw [checkUpTo_succ]
    exact checkStep_active_false coll _ k j ih

theorem checkStep_flip (coll : Collision) (g : Game) (i j : Nat)
    (h1 : (g.tubes j).active = true) (h2 : ((g.checkStep coll i).tubes j).active = false) :
    j = i / 2 ∧ (g.tubesPos j).x < g.floppy.position.x ∧ g.gameOver = false ∧
      coll g.floppy.position (g.floppy.radius : ℚ) (g.tubes i).rect = false := by
  rcases checkStep_cases coll g i with ⟨-, h3⟩ | ⟨hc, hcond, h3⟩ | ⟨-, -, h3⟩
  · rw [h3, (UpdateHighScores_frame _).2.2.2.2.2.1] at h2
    rw [h1] at h2
    exact absurd h2 (by simp)
  · rw [h3, scored_active] at h2
    by_cases hj : j = i / 2
    · subst hj
      exact ⟨rfl, hcond.1, hcond.2.2, hc⟩
    · rw [if_neg hj, h1] at h2
      exact absurd h2 (by simp)
  · rw [h3, h1] at h2
    exact absurd h2 (by simp)

theorem checkUpTo_flip (coll : Collision) (g : Game) (n j : Nat)
    (h1 : (g.tubes j).active = true) (h2 : ((g.checkUpTo coll n).tubes j).active = false) :
    2 * j < n ∧ (g.tubesPos j).x < g.floppy.position.x ∧
      ∀ i, i ≤ 2 * j → coll g.floppy.position (g.floppy.radius : ℚ) (g.tubes i).rect = false := by
  induction n with
  | zero =>
    rw [checkUpTo_zero, h1] at h2
    exact absurd h2 (by simp)
  | succ k ih =>
    cases hk : ((g.checkUpTo coll k).tubes j).active with
    | false =>
      have := ih hk
      exact ⟨by omega, this.2⟩
    | true =>
      rw [checkUpTo_succ] at h2
      have hf := checkStep_flip coll _ k j hk h2
      have hsf := checkUpTo_sameField coll g k
      rw [hsf.2.1, hsf.1] at hf
      refine ⟨by omega, hf.2.1, ?_⟩
      intro i hi
      cases hc : coll g.floppy.position (g.floppy.radius : ℚ) (g.tubes i).rect with
      | false => rfl
      | true =>
        exfalso
        by_cases hik : i < k
        · have hov := (checkUpTo_gameOver coll g k).mpr (Or.inr ⟨i, hik, hc⟩)
          rw [hf.2.2.1] at hov
          exact absurd hov (by simp)
        · have hik2 : i = k := by omega
          subst hik2
          have hno := hf.2.2.2
          rw [hsf.2.2.1 i, hc] at hno
          exact absurd hno (by simp)

theorem checkUpTo_active_false_le (coll : Collision) (g : Game) (n m j : Nat) (hnm : n ≤ m)
    (h : ((g.checkUpTo coll n).tubes j).active = false) :
    ((g.checkUpTo coll m).tubes j).active = false := by
  induction m, hnm using Nat.le_induction with
  | base => exact h
  | succ k _ ih =>
    rw [checkUpTo_succ]
    exact checkStep_active_false coll _ k j ih

theorem checkUpTo_scores (coll : Collision) (g : Game) (n j : Nat) (hn : 2 * j < n)
    (ho : g.gameOver = false) (hx : (g.tubesPos j).x < g.floppy.position.x)
    (hno : ∀ i, i ≤ 2 * j →
      coll g.floppy.position (g.floppy.radius : ℚ) (g.tubes i).rect = false) :
    ((g.checkUpTo coll n).tubes j).active = false := by
  apply checkUpTo_active_false_le coll g (2 * j + 1) n j hn
  rw [checkUpTo_succ]
  cases hk : ((g.checkUpTo coll (2 * j)).tubes j).active with
  | false => exact checkStep_active_false coll _ _ j hk
  | true =>
    have hsf := checkUpTo_sameField coll g (2 * j)
    have hgo : (g.checkUpTo coll (2 * j)).gameOver = false := by
      cases hv : (g.checkUpTo coll (2 * j)).gameOver with
      | false => rfl
      | true =>
        rcases (checkUpTo_gameOver coll g (2 * j)).mp hv with h | ⟨i, hi, hc⟩
        · rw [ho] at h
          exact absurd h (by simp)
        · rw [hno i (le_of_lt hi)] at hc
          exact absurd hc (by simp)
    have hdiv : 2 * j / 2 = j := by omega
    rw [checkStep_score coll _ (2 * j)
      (by rw [hsf.1, hsf.2.2.1]; exact hno (2 * j) le_rfl)
      (by rw [hdiv, hsf.2.1, hsf.1]; exact ⟨hx, hk, hgo⟩), hdiv, scored_active]
    simp

theorem newlyScored_scored (before : Nat → Tube) (t : Game) (j0 : Nat) (hj : j0 < MAX_TUBES)
    (hb : (before j0).active = true) (ht : (t.tubes j0).active = true) :
    (newlyScored before (scored t j0).tubes).card = (newlyScored before t.tubes).card + 1 := by
  have hins : newlyScored before (scored t j0).tubes = insert j0 (newlyScored before t.tubes) := by
    ext j
    simp only [newlyScored, Finset.mem_filter, Finset.mem_range, Finset.mem_insert,
      scored_active]
    by_cases h : j = j0
    · subst h
      simp [hj, hb]
    · simp [h]
  rw [hins, Finset.card_insert_of_not_mem]
  simp [newlyScored, ht]

theorem checkUpTo_score (coll : Collision) (g : Game) (n : Nat) (hn : n ≤ 200) :
    (g.checkUpTo coll n).score =
      g.score + 100 * ((newlyScored g.tubes (g.checkUpTo coll n).tubes).card : Int) := by
  induction n with
  | zero => simp [checkUpTo_zero, newlyScored_self]
  | succ k ih =>
    have ihk := ih (by omega)
    rw [checkUpTo_succ]
    rcases checkStep_cases coll (g.checkUpTo coll k) k with ⟨-, h2⟩ | ⟨-, hc, h2⟩ | ⟨-, -, h2⟩
    · rw [h2, (UpdateHighScores_frame _).2.2.1, (UpdateHighScores_frame _).2.2.2.2.2.1]
      exact ihk
    · rw [h2]
      have hj : k / 2 < MAX_TUBES := by unfold MAX_TUBES; omega
      have hb : (g.tubes (k / 2)).active = true := by
        cases hv : (g.tubes (k / 2)).active with
        | true => rfl
        | false =>
          have := checkUpTo_active_false coll g k (k / 2) hv
          rw [hc.2.1] at this
          exact absurd this (by simp)
      rw [newlyScored_scored g.tubes _ (k / 2) hj hb hc.2.1]
      show (g.checkUpTo coll k).score + 100 = _
      rw [ihk]
      push_cast
      ring
    · rw [h2]
      exact ihk

/-- The flags `active` and the score are not touched before the check loop. -/
theorem beforeChecks_active (g : Game) (inp : Input) (k : Nat) :
    ((g.beforeChecks inp).tubes k).active = (g.tubes k).active := by
  rw [beforeChecks_eq]
  simp only [syncedTube]
  split <;> rfl

theorem newlyScored_congr (b1 b2 a1 a2 : Nat → Tube) (hb : ∀ k, (b1 k).active = (b2 k).active)
    (ha : ∀ k, (a1 k).active = (a2 k).active) : newlyScored b1 a1 = newlyScored b2 a2 := by
  unfold newlyScored
  apply Finset.filter_congr
  intro j _
  rw [hb j, ha j]

/-- A tick that does not call `Init` is a paused or unpaused tick of a running game, or does
nothing. -/
theorem Update_noInit_cases (coll : Collision) (g : Game) (inp : Input)
    (h : ¬ callsInit g inp) :
    (unpausedPlaying g inp ∧
      g.Update coll inp = (Game.beforeChecks { g with pause := false } inp).checkUpTo coll 200) ∨
    (¬ unpausedPlaying g inp ∧ (g.Update coll inp).tubes = g.tubes ∧
      (g.Update coll inp).score = g.score ∧ (g.Update coll inp).hiScore = g.hiScore) := by
  by_cases hrun : g.gameOver = false ∧ g.gameStarted = true
  · cases hp : (if inp.keyP then !g.pause else g.pause) with
    | true =>
      right
      rw [Update_paused coll g inp hrun.2 hrun.1 hp]
      refine ⟨?_, rfl, rfl, rfl⟩
      intro hu
      rw [hu.2.2] at hp
      exact absurd hp (by simp)
    | false =>
      left
      refine ⟨⟨hrun.2, hrun.1, hp⟩, ?_⟩
      rw [← checkAll_eq]
      exact Update_unpaused coll g inp ⟨hrun.2, hrun.1, hp⟩
  · right
    have he : inp.keyEnter = false := by
      cases hv : inp.keyEnter with
      | false => rfl
      | true => exact absurd ⟨hrun, hv⟩ h
    rw [Update_idle coll g inp hrun he]
    exact ⟨fun hu => hrun ⟨hu.2.1, hu.1⟩, rfl, rfl, rfl⟩

theorem Floppy_Update_radius (f : Floppy) (inp : Input) : (f.Update inp).radius = f.radius :=
  rfl

theorem beforeChecks_pause (g : Game) (inp : Input) :
    Game.beforeChecks { g with pause := false } inp =
      { g.beforeChecks inp with pause := false } := by
  simp [beforeChecks_eq]

theorem beforeChecks_fields (g : Game) (inp : Input) :
    (g.beforeChecks inp).floppy = g.floppy.Update inp ∧
    (g.beforeChecks inp).score = g.score ∧ (g.beforeChecks inp).hiScore = g.hiScore ∧
    (g.beforeChecks inp).gameOver = g.gameOver ∧
    (g.beforeChecks inp).gameStarted = g.gameStarted ∧
    (g.beforeChecks inp).highScores = g.highScores ∧
    (g.beforeChecks inp).tubesSpeedX = g.tubesSpeedX := by
  rw [beforeChecks_eq]
  exact ⟨rfl, rfl, rfl, rfl, rfl, rfl, rfl⟩

theorem Update_active_false (coll : Collision) (g : Game) (inp : Input) (j : Nat)
    (h : ¬ callsInit g inp) (hf : (g.tubes j).active = false) :
    ((g.Update coll inp).tubes j).active = false := by
  rcases Update_noInit_cases coll g inp h with ⟨-, h2⟩ | ⟨-, h2, -⟩
  · rw [h2, beforeChecks_pause]
    apply checkUpTo_active_false
    show ((g.beforeChecks inp).tubes j).active = false
    rw [beforeChecks_active]
    exact hf
  · rw [h2]
    exact hf

theorem Update_score (coll : Collision) (g : Game) (inp : Input) (h : ¬ callsInit g inp) :
    (g.Update coll inp).score =
      g.score + 100 * ((newlyScored g.tubes (g.Update coll inp).tubes).card : Int) := by
  rcases Update_noInit_cases coll g inp h with ⟨-, h2⟩ | ⟨-, h2, h3, -⟩
  · rw [h2, beforeChecks_pause, checkUpTo_score coll _ 200 le_rfl]
    have hs : ({ g.beforeChecks inp with pause := false } : Game).score = g.score :=
      (beforeChecks_fields g inp).2.1
    rw [hs, newlyScored_congr _ g.tubes _ _ (fun k => beforeChecks_active g inp k)
      (fun _ => rfl)]
  · rw [h2, h3, newlyScored_self]
    simp

theorem FieldInv_Init (g : Game) (rnd : Nat → Fin 121) (hr : g.floppy.radius = 20) :
    FieldInv (g.Init rnd) := by
  rw [Init_eq]
  refine ⟨hr, ?_⟩
  intro j hj
  have hj1 : j < MAX_TUBES := hj
  have h00 : 0 < MAX_TUBES := by unfold MAX_TUBES; omega
  have h0 : 2 * j < MAX_TUBES * 2 := by unfold MAX_TUBES; omega
  have h1 : 2 * j + 1 < MAX_TUBES * 2 := by unfold MAX_TUBES; omega
  have hd0 : 2 * j / 2 = j := by omega
  have hd1 : (2 * j + 1) / 2 = j := by omega
  have hm0 : 2 * j % 2 = 0 := by omega
  have hm1 : ¬ (2 * j + 1) % 2 = 0 := by omega
  have hrnd : (rnd j).val ≤ 120 := by
    have := (rnd j).isLt
    omega
  have hrq : (((rnd j).val : Int) : ℚ) ≤ 120 := by exact_mod_cast hrnd
  have hrq0 : (0 : ℚ) ≤ (((rnd j).val : Int) : ℚ) := by positivity
  simp only [initTube, initPosAll, initPos, h0, h1, hd0, hd1, hm0, hm1, hj1, h00, if_true,
    if_false, TUBES_WIDTH]
  refine ⟨trivial, trivial, by linarith, by linarith, ?_⟩
  push_cast
  ring

theorem FieldInv_beforeChecks (g : Game) (inp : Input) (h : FieldInv g) :
    FieldInv (g.beforeChecks inp) := by
  rw [beforeChecks_eq]
  refine ⟨h.1, ?_⟩
  intro j hj
  have hj1 : j < MAX_TUBES := hj
  have h00 : 0 < MAX_TUBES := by unfold MAX_TUBES; omega
  have h0 : 2 * j < MAX_TUBES * 2 := by unfold MAX_TUBES; omega
  have h1 : 2 * j + 1 < MAX_TUBES * 2 := by unfold MAX_TUBES; omega
  have hd0 : 2 * j / 2 = j := by omega
  have hd1 : (2 * j + 1) / 2 = j := by omega
  obtain ⟨ha, hb, hc, hd, he⟩ := h.2 j hj
  simp only [syncedTube, advancedPos, h0, h1, hd0, hd1, hj1, h00, if_true, ha, hb]
  refine ⟨trivial, trivial, hc, hd, ?_⟩
  rw [he]
  ring

theorem FieldInv_of_sameField (g t : Game) (hs : SameField g t) (h : FieldInv g) :
    FieldInv t := by
  obtain ⟨hf, hp, hr, -⟩ := hs
  refine ⟨by rw [hf]; exact h.1, ?_⟩
  intro j hj
  rw [hr, hr, hp]
  exact h.2 j hj

theorem FieldInv_pause (g : Game) (p : Bool) (h : FieldInv g) :
    FieldInv { g with pause := p } := h

theorem FieldInv_Update (coll : Collision) (g : Game) (inp : Input) (h : FieldInv g) :
    FieldInv (g.Update coll inp) := by
  by_cases hrun : g.gameOver = false ∧ g.gameStarted = true
  · cases hp : (if inp.keyP then !g.pause else g.pause) with
    | true =>
      rw [Update_paused coll g inp hrun.2 hrun.1 hp]
      exact h
    | false =>
      rw [Update_unpaused coll g inp ⟨hrun.2, hrun.1, hp⟩, checkAll_eq]
      apply FieldInv_of_sameField _ _ (checkUpTo_sameField coll _ 200)
      rw [beforeChecks_pause]
      exact FieldInv_beforeChecks g inp h
  · cases he : inp.keyEnter with
    | true =>
      rw [Update_restart coll g inp hrun he]
      exact FieldInv_Init g inp.rnd h.1
    | false =>
      rw [Update_idle coll g inp hrun he]
      exact h

theorem ctor_radius (mem : Game) (file : Option (List Int)) :
    (Game.ctor mem file).floppy.radius = 20 := by
  simp [Game.ctor, Game.LoadHighScores, FLOPPY_RADIUS]

theorem Reachable_fieldInv (coll : Collision) (g : Game) (h : Reachable coll g) :
    FieldInv g := by
  induction h with
  | start mem file rnd => exact FieldInv_Init _ rnd (ctor_radius mem file)
  | update inp _ ih => exact FieldInv_Update coll _ inp ih
  | draw _ ih =>
    unfold Game.Draw
    split
    · exact ih
    · exact ih

theorem closestPoint_bounds (c : Vector2) (r : Rectangle) (hw : 0 ≤ r.width)
    (hh : 0 ≤ r.height) :
    r.x ≤ (closestPoint c r).x ∧ (closestPoint c r).x ≤ r.x + r.width ∧
    r.y ≤ (closestPoint c r).y ∧ (closestPoint c r).y ≤ r.y + r.height := by
  unfold closestPoint
  refine ⟨le_max_left _ _, max_le (by linarith) (min_le_right _ _), le_max_left _ _,
    max_le (by linarith) (min_le_right _ _)⟩

theorem near_of_distSq (c : Vector2) (r : Rectangle) (d : ℚ) (hd : 0 ≤ d)
    (hw : 0 ≤ r.width) (hh : 0 ≤ r.height) (h : distSq c r ≤ d ^ 2) :
    r.x - d ≤ c.x ∧ c.x ≤ r.x + r.width + d ∧ r.y - d ≤ c.y ∧ c.y ≤ r.y + r.height + d := by
  obtain ⟨hx1, hx2, hy1, hy2⟩ := closestPoint_bounds c r hw hh
  unfold distSq at h
  have hsx : (c.x - (closestPoint c r).x) ^ 2 ≤ d ^ 2 := by
    nlinarith [sq_nonneg (c.y - (closestPoint c r).y)]
  have hsy : (c.y - (closestPoint c r).y) ^ 2 ≤ d ^ 2 := by
    nlinarith [sq_nonneg (c.x - (closestPoint c r).x)]
  have hax := abs_le_of_sq_le_sq' hsx hd
  have hay := abs_le_of_sq_le_sq' hsy hd
  refine ⟨by linarith [hax.2], by linarith [hax.1], by linarith [hay.2], by linarith [hay.1]⟩

theorem FieldInv_rect (g : Game) (h : FieldInv g) (i : Nat) (hi : i < 200) :
    (g.tubes i).rect.x = (g.tubesPos 0).x + 280 * ((i / 2 : Nat) : ℚ) ∧
    (g.tubes i).rect.width = 80 ∧ (g.tubes i).rect.height = 255 ∧
    ((i % 2 = 0 ∧ (g.tubes i).rect.y = (g.tubesPos (i / 2)).y) ∨
      (i % 2 = 1 ∧ (g.tubes i).rect.y = (g.tubesPos (i / 2)).y + 345)) ∧
    -120 ≤ (g.tubesPos (i / 2)).y ∧ (g.tubesPos (i / 2)).y ≤ 0 := by
  obtain ⟨ha, hb, hc, hd, he⟩ := h.2 (i / 2) (by omega)
  rcases Nat.mod_two_eq_zero_or_one i with hm | hm
  · have hi2 : 2 * (i / 2) = i := by omega
    rw [hi2] at ha
    rw [ha]
    exact ⟨he, rfl, rfl, Or.inl ⟨hm, rfl⟩, hc, hd⟩
  · have hi2 : 2 * (i / 2) + 1 = i := by omega
    rw [hi2] at hb
    rw [hb]
    refine ⟨he, rfl, rfl, Or.inr ⟨hm, ?_⟩, hc, hd⟩
    show 600 + (g.tubesPos (i / 2)).y - 255 = (g.tubesPos (i / 2)).y + 345
    ring

/-- With the layout of the field, a circle of radius 20 is within reach of at most one of
the 200 rectangles. -/
theorem collision_unique (coll : Collision) (hs : CollisionSound coll) (g : Game)
    (h : FieldInv g) (i k : Nat) (hi : i < 200) (hk : k < 200)
    (hci : coll g.floppy.position (g.floppy.radius : ℚ) (g.tubes i).rect = true)
    (hck : coll g.floppy.position (g.floppy.radius : ℚ) (g.tubes k).rect = true) :
    i = k := by
  have hrad : ((g.floppy.radius : Int) : ℚ) = 20 := by
    rw [h.1]
    norm_num
  rw [hrad] at hci hck
  obtain ⟨xi, wi, hti, yi, -, -⟩ := FieldInv_rect g h i hi
  obtain ⟨xk, wk, htk, yk, -, -⟩ := FieldInv_rect g h k hk
  have hni := near_of_distSq g.floppy.position (g.tubes i).rect 20 (by norm_num)
    (by rw [wi]; norm_num) (by rw [hti]; norm_num) (hs _ _ _ (by norm_num) hci)
  have hnk := near_of_distSq g.floppy.position (g.tubes k).rect 20 (by norm_num)
    (by rw [wk]; norm_num) (by rw [htk]; norm_num) (hs _ _ _ (by norm_num) hck)
  rw [xi, wi, hti] at hni
  rw [xk, wk, htk] at hnk
  have hpair : i / 2 = k / 2 := by
    rcases Nat.lt_trichotomy (i / 2) (k / 2) with hlt | heq | hgt
    · exfalso
      have hq : ((i / 2 : Nat) : ℚ) + 1 ≤ ((k / 2 : Nat) : ℚ) := by exact_mod_cast hlt
      linarith [hni.2.1, hnk.1]
    · exact heq
    · exfalso
      have hq : ((k / 2 : Nat) : ℚ) + 1 ≤ ((i / 2 : Nat) : ℚ) := by exact_mod_cast hgt
      linarith [hnk.2.1, hni.1]
  rw [hpair] at yi
  rcases yi with ⟨mi, yi⟩ | ⟨mi, yi⟩ <;> rcases yk with ⟨mk, yk⟩ | ⟨mk, yk⟩
  · omega
  · exfalso
    rw [yi] at hni
    rw [yk] at hnk
    linarith [hni.2.2.2, hnk.2.2.1]
  · exfalso
    rw [yi] at hni
    rw [yk] at hnk
    linarith [hnk.2.2.2, hni.2.2.1]
  · omega

theorem clampCollision_sound : CollisionSound clampCollision := by
  intro c radius r _ h
  unfold clampCollision at h
  exact le_of_lt (of_decide_eq_true h)

/-! ### Ledger updates within one tick -/

theorem UpdateHighScores_recorded (g : Game) :
    g.UpdateHighScores.highScores = recorded g.highScores g.score :=
  UpdateHighScores_highScores g

theorem recorded_eq_specRecord (hs : List Int) (score : Int) (h : hs.length ≤ 5) :
    recorded hs score = specRecord hs score := by
  rw [recorded, specRecord, mergeSort_desc_eq]
  have hperm : (hs ++ [score]).Perm (score :: hs) := List.perm_append_singleton score hs
  rw [sortGreater_congr hperm]
  have hl : (sortGreater (score :: hs)).length = hs.length + 1 := by
    simp [sortGreater_length]
  split
  · rw [List.dropLast_eq_take]
    congr 1
    omega
  · rw [List.take_of_length_le (by omega)]

theorem checkUpTo_stable (coll : Collision) (b : Game) (n m : Nat) (hnm : n ≤ m)
    (h : (b.checkUpTo coll n).gameOver = true)
    (hno : ∀ i, n ≤ i → i < m →
      coll b.floppy.position (b.floppy.radius : ℚ) (b.tubes i).rect = false) :
    b.checkUpTo coll m = b.checkUpTo coll n := by
  induction m, hnm using Nat.le_induction with
  | base => rfl
  | succ k hk ih =>
    have ihk := ih (fun i h1 h2 => hno i h1 (Nat.lt_succ_of_lt h2))
    rw [checkUpTo_succ, ihk]
    have hsf := checkUpTo_sameField coll b n
    apply checkStep_idle
    · rw [hsf.1, hsf.2.2.1 k]
      exact hno k hk (Nat.lt_succ_self k)
    · rw [h]
      simp

/-- The check loop when exactly one rectangle, number `i0`, collides. -/
theorem checkUpTo_single_hit (coll : Collision) (b : Game) (n i0 : Nat) (hi0 : i0 < n)
    (hc : coll b.floppy.position (b.floppy.radius : ℚ) (b.tubes i0).rect = true)
    (huniq : ∀ i, i < n → i ≠ i0 →
      coll b.floppy.position (b.floppy.radius : ℚ) (b.tubes i).rect = false) :
    (b.checkUpTo coll n).gameOver = true ∧
    (b.checkUpTo coll n).highScores = recorded b.highScores (b.checkUpTo coll n).score ∧
    (b.checkUpTo coll n).score = (b.checkUpTo coll i0).score := by
  have hbefore := checkUpTo_noHit coll b i0
    (fun i hi => huniq i (lt_trans hi hi0) (Nat.ne_of_lt hi))
  have hsf := checkUpTo_sameField coll b i0
  have hstep : b.checkUpTo coll (i0 + 1) =
      Game.UpdateHighScores { b.checkUpTo coll i0 with gameOver := true, pause := false } := by
    rw [checkUpTo_succ]
    apply checkStep_hit
    rw [hsf.1, hsf.2.2.1 i0]
    exact hc
  have hover : (b.checkUpTo coll (i0 + 1)).gameOver = true := by
    rw [hstep, (UpdateHighScores_frame _).1]
  have hfinal := checkUpTo_stable coll b (i0 + 1) n hi0 hover
    (fun i h1 h2 => huniq i h2 (by omega))
  rw [hfinal]
  refine ⟨hover, ?_, ?_⟩
  · rw [hstep, UpdateHighScores_recorded, (UpdateHighScores_frame _).2.2.1]
    show recorded (b.checkUpTo coll i0).highScores (b.checkUpTo coll i0).score = _
    rw [hbefore.2.2]
  · rw [hstep, (UpdateHighScores_frame _).2.2.1]

/-! ### A concrete approach to the first pair -/

theorem checkUpTo_quiet (coll : Collision) (b : Game) (n : Nat)
    (hno : ∀ i, i < n → coll b.floppy.position (b.floppy.radius : ℚ) (b.tubes i).rect = false)
    (hpass : ∀ i, i < n → ¬ (b.tubesPos (i / 2)).x < b.floppy.position.x) :
    b.checkUpTo coll n = b := by
  induction n with
  | zero => exact checkUpTo_zero coll b
  | succ k ih =>
    rw [checkUpTo_succ, ih (fun i hi => hno i (Nat.lt_succ_of_lt hi))
      (fun i hi => hpass i (Nat.lt_succ_of_lt hi))]
    apply checkStep_idle coll b k (hno k (Nat.lt_succ_self k))
    intro hc
    exact hpass k (Nat.lt_succ_self k) hc.1

theorem game0_eq :
    game0 =
      { gameOver := false
        pause := false
        score := 0
        hiScore := 0
        gameStarted := false
        floppy := ⟨⟨80, 205⟩, 20⟩
        tubes := initTube (fun _ => ⟨⟨0, 0, 0, 0⟩, true⟩)
          (initPosAll (fun _ => ⟨0, 0⟩) rnd0)
        tubesPos := initPosAll (fun _ => ⟨0, 0⟩) rnd0
        tubesSpeedX := 2
        superfx := false
        highScores := [3000, 2500, 1800] } := by
  unfold game0
  rw [Init_eq]
  simp [Game.ctor, Game.LoadHighScores, mem0, Floppy.Init, FLOPPY_RADIUS, screenHeight,
    readScores, foldl_push_back, popWhileOver5_eq, sortGreater]

theorem rnd13_val (i : Nat) : ((rnd13 i).val : ℚ) = 13 := by
  have h : (rnd13 i).val = 13 := rfl
  rw [h]
  norm_num

theorem approach_zero : approach 0 = approachState 0 := by
  unfold approach
  rw [Update_restart clampCollision game0 enter13 (by simp [game0_flags.2]) rfl, Init_eq,
    game0_eq]
  simp only [approachState, Game.mk.injEq, true_and, and_true, enter13]
  refine ⟨?_, ?_, ?_⟩
  · simp [Floppy.Init, screenHeight]
  · funext k
    by_cases hk : k < 200
    · have hk2 : k < MAX_TUBES * 2 := hk
      have hj : k / 2 < MAX_TUBES := by unfold MAX_TUBES; omega
      by_cases hm : k % 2 = 0
      · simp [initTube, initPosAll, initPos, rnd13_val, hk, hk2, hj, hm, TUBES_WIDTH]
      · simp [initTube, initPosAll, initPos, rnd13_val, hk, hk2, hj, hm, TUBES_WIDTH]
        norm_num
    · have hk2 : ¬ k < MAX_TUBES * 2 := hk
      simp [initTube, hk, hk2]
  · funext j
    by_cases hj : j < 100
    · have hj2 : j < MAX_TUBES := hj
      simp [initPosAll, initPos, rnd13_val, hj, hj2]
    · have hj2 : ¬ j < MAX_TUBES := hj
      simp [initPosAll, hj, hj2]

theorem distSq_ge_of_left (c : Vector2) (r : Rectangle) (d : ℚ) (hd : 0 ≤ d)
    (hw : 0 ≤ r.width) (hh : 0 ≤ r.height) (h : c.x + d ≤ r.x) : d ^ 2 ≤ distSq c r := by
  have hb := (closestPoint_bounds c r hw hh).1
  unfold distSq
  nlinarith [sq_nonneg (c.y - (closestPoint c r).y)]

theorem distSq_ge_of_above (c : Vector2) (r : Rectangle) (d : ℚ) (hd : 0 ≤ d)
    (hw : 0 ≤ r.width) (hh : 0 ≤ r.height) (h : c.y + d ≤ r.y) : d ^ 2 ≤ distSq c r := by
  have hb := (closestPoint_bounds c r hw hh).2.2.1
  unfold distSq
  nlinarith [sq_nonneg (c.x - (closestPoint c r).x)]

theorem clampCollision_false (c : Vector2) (r : Rectangle) (d : ℚ)
    (h : d ^ 2 ≤ distSq c r) : clampCollision c d r = false := by
  unfold clampCollision
  exact decide_eq_false (not_lt.mpr h)

theorem approachState_tube (m k : Nat) (hk : k < 200) :
    ((approachState m).tubes k).rect =
      ⟨400 + 280 * ((k / 2 : Nat) : ℚ) - 2 * (m : ℚ), if k % 2 = 0 then -13 else 332, 80, 255⟩
      ∧ ((approachState m).tubes k).active = true := by
  simp [approachState, hk]

theorem approachState_noPass (m i : Nat) (hm : m ≤ 64) (hi : i < 200) :
    ¬ ((approachState m).tubesPos (i / 2)).x < (approachState m).floppy.position.x := by
  have hi2 : i / 2 < 100 := by omega
  simp only [approachState, hi2, if_true, not_lt]
  have h1 : (m : ℚ) ≤ 64 := by exact_mod_cast hm
  have h2 : (0 : ℚ) ≤ ((i / 2 : Nat) : ℚ) := by positivity
  linarith

theorem approachState_noHit (m k : Nat) (hm : m ≤ 64) (hk : k < 200) :
    clampCollision (approachState m).floppy.position
      (((approachState m).floppy.radius : Int) : ℚ) ((approachState m).tubes k).rect = false := by
  have hrad : (((approachState m).floppy.radius : Int) : ℚ) = 20 := by
    simp [approachState]
  have hpos : (approachState m).floppy.position = ⟨80 + 3 * (m : ℚ), 205 + 9 / 10 * (m : ℚ)⟩ := rfl
  rw [hrad, hpos, (approachState_tube m k hk).1]
  apply clampCollision_false
  have h1 : (m : ℚ) ≤ 64 := by exact_mod_cast hm
  have h0 : (0 : ℚ) ≤ (m : ℚ) := by positivity
  by_cases hpair : 1 ≤ k / 2
  · have h2 : (1 : ℚ) ≤ ((k / 2 : Nat) : ℚ) := by exact_mod_cast hpair
    apply distSq_ge_of_left _ _ 20 (by norm_num) (by norm_num) (by norm_num)
    show 80 + 3 * (m : ℚ) + 20 ≤ 400 + 280 * ((k / 2 : Nat) : ℚ) - 2 * (m : ℚ)
    linarith
  · have hk01 : k = 0 ∨ k = 1 := by omega
    rcases hk01 with rfl | rfl
    · by_cases hm60 : m ≤ 60
      · have h3 : (m : ℚ) ≤ 60 := by exact_mod_cast hm60
        apply distSq_ge_of_left _ _ 20 (by norm_num) (by norm_num) (by norm_num)
        show 80 + 3 * (m : ℚ) + 20 ≤ 400 + 280 * ((0 / 2 : Nat) : ℚ) - 2 * (m : ℚ)
        norm_num
        linarith
      · have hcases : m = 61 ∨ m = 62 ∨ m = 63 ∨ m = 64 := by omega
        rcases hcases with rfl | rfl | rfl | rfl <;>
          norm_num [distSq, closestPoint, max_def, min_def]
    · apply distSq_ge_of_above _ _ 20 (by norm_num) (by norm_num) (by norm_num)
      show 205 + 9 / 10 * (m : ℚ) + 20 ≤ 332
      linarith

theorem approachState_unpaused (n : Nat) (inp : Input) (hp : inp.keyP = false) :
    unpausedPlaying (approachState n) inp := by
  simp [unpausedPlaying, approachState, hp]

theorem approachState_before (n : Nat) (hn : n ≤ 64) :
    Game.beforeChecks { approachState n with pause := false } rightKey
      = approachState (n + 1) := by
  have h1 : (n : ℚ) ≤ 64 := by exact_mod_cast hn
  rw [beforeChecks_eq]
  simp only [approachState, Game.mk.injEq, true_and, and_true]
  refine ⟨?_, ?_, ?_⟩
  · simp only [Floppy.Update, rightKey, GRAVITY, screenHeight, Bool.false_eq_true, if_false,
      if_true, Floppy.mk.injEq, Vector2.mk.injEq, and_true]
    norm_num
    rw [if_neg (by rw [not_le]; linarith)]
    constructor <;> ring
  · funext k
    by_cases hk : k < 200
    · have hk2 : k < MAX_TUBES * 2 := hk
      have hj : k / 2 < 100 := by omega
      simp only [syncedTube, advancedPos, hk, hk2, hj, if_true, MAX_TUBES, Tube.mk.injEq,
        Rectangle.mk.injEq, and_true]
      push_cast
      ring
    · have hk2 : ¬ k < MAX_TUBES * 2 := hk
      simp only [syncedTube, hk, hk2, if_false]
  · funext j
    by_cases hj : j < 100
    · have hj2 : j < MAX_TUBES := hj
      simp only [advancedPos, hj, hj2, if_true, Vector2.mk.injEq, and_true]
      push_cast
      ring
    · have hj2 : ¬ j < MAX_TUBES := hj
      simp only [advancedPos, hj, hj2, if_false]

theorem approach_eq (n : Nat) (hn : n ≤ 64) : approach n = approachState n := by
  induction n with
  | zero => exact approach_zero
  | succ k ih =>
    have hk : k ≤ 64 := by omega
    show (approach k).Update clampCollision rightKey = approachState (k + 1)
    rw [ih hk, Update_unpaused clampCollision _ rightKey (approachState_unpaused k rightKey rfl),
      checkAll_eq, approachState_before k hk]
    exact checkUpTo_quiet clampCollision _ 200
      (fun i hi => approachState_noHit (k + 1) i hn hi)
      (fun i hi => approachState_noPass (k + 1) i hn hi)

theorem approach_reachable (n : Nat) : Reachable clampCollision (approach n) := by
  induction n with
  | zero => exact Reachable.update enter13 (game0_reachable clampCollision)
  | succ k ih => exact Reachable.update rightKey ih

theorem approach0_before : (approach 0).beforeChecks rightKey = approachState 1 := by
  rw [approach_eq 0 (by decide)]
  exact approachState_before 0 (by decide)

theorem approach0_noHit (i : Nat) (hi : i < 200) :
    clampCollision ((approach 0).floppy.Update rightKey).position 20
      (((approach 0).beforeChecks rightKey).tubes i).rect = false := by
  have h := approachState_noHit 1 i (by decide) hi
  have hrad : (((approachState 1).floppy.radius : Int) : ℚ) = 20 := by
    simp [approachState]
  rw [hrad] at h
  rw [← (beforeChecks_fields (approach 0) rightKey).1, approach0_before]
  exact h

theorem approach0_unpaused : unpausedPlaying (approach 0) rightKey := by
  rw [approach_eq 0 (by decide)]
  exact approachState_unpaused 0 rightKey rfl

theorem approach0_radius : (approach 0).floppy.radius = 20 :=
  (Reachable_fieldInv clampCollision _ (approach_reachable 0)).1

theorem C4_witness :
    unpausedPlaying (approach 0) rightKey ∧ (approach 0).floppy.radius = 20 ∧
    (((approach 0).Update clampCollision rightKey).gameOver = true ↔
      ∃ i, i < 200 ∧ clampCollision ((approach 0).floppy.Update rightKey).position 20
        (((approach 0).beforeChecks rightKey).tubes i).rect = true) ∧
    ((approach 0).Update clampCollision rightKey).gameStarted = true ∧
    ((approach 0).Update clampCollision rightKey).gameOver = false ∧
    ((approach 0).Update clampCollision rightKey).pause = false :=
  ⟨approach0_unpaused, approach0_radius,
    (C4_gameOver_iff_collision clampCollision (approach 0) rightKey approach0_unpaused
      approach0_radius).1,
    (C4_gameOver_iff_collision clampCollision (approach 0) rightKey approach0_unpaused
      approach0_radius).2 approach0_noHit⟩

/-! ### The tick that clips the top rectangle of the first pair -/

theorem approach64_before :
    (((approach 64).beforeChecks upRightKey).tubes 0).rect = ⟨270, -13, 80, 255⟩ ∧
    (((approach 64).beforeChecks upRightKey).tubesPos 0).x = 270 ∧
    ((approach 64).floppy.Update upRightKey).position = ⟨275, 521 / 2⟩ ∧
    ((approach 64).tubes 0).active = true := by
  rw [approach_eq 64 le_rfl, beforeChecks_eq]
  refine ⟨?_, ?_, ?_, ?_⟩
  · simp [approachState, syncedTube, advancedPos, MAX_TUBES]
    norm_num
  · simp [approachState, advancedPos, MAX_TUBES]
    norm_num
  · simp [approachState, Floppy.Update, upRightKey, GRAVITY, screenHeight]
    norm_num
  · simp [approachState]

theorem approach64_hit :
    clampCollision ((approach 64).floppy.Update upRightKey).position 20
      (((approach 64).beforeChecks upRightKey).tubes 0).rect = true := by
  rw [approach64_before.1, approach64_before.2.2.1]
  unfold clampCollision
  apply decide_eq_true
  norm_num [distSq, closestPoint, max_def, min_def]

theorem distSq_ge_of_below (c : Vector2) (r : Rectangle) (d : ℚ) (hd : 0 ≤ d)
    (hw : 0 ≤ r.width) (hh : 0 ≤ r.height) (h : r.y + r.height + d ≤ c.y) :
    d ^ 2 ≤ distSq c r := by
  have hb := (closestPoint_bounds c r hw hh).2.2.2
  unfold distSq
  nlinarith [sq_nonneg (c.x - (closestPoint c r).x)]

theorem approachState_paused (n : Nat) :
    (approachState n).Update clampCollision pKey = { approachState n with pause := true } :=
  Update_paused clampCollision (approachState n) pKey rfl rfl rfl

theorem paused64_eq : paused64 = { approachState 64 with pause := true } := by
  unfold paused64
  rw [approach_eq 64 le_rfl]
  exact approachState_paused 64

theorem paused64_reachable : Reachable clampCollision paused64 :=
  Reachable.update pKey (approach_reachable 64)

theorem paused64_flags :
    paused64.gameStarted = true ∧ paused64.gameOver = false ∧ paused64.pause = true := by
  rw [paused64_eq]
  exact ⟨rfl, rfl, rfl⟩

/-- C11: from a paused state (`gameStarted`, not `gameOver`, `pause`), a tick in which P is
not pressed leaves the whole game state as it is, whatever the other keys. -/
theorem C11_paused_tick_is_idle (coll : Collision) (g : Game) (inp : Input)
    (hs : g.gameStarted = true) (ho : g.gameOver = false) (hp : g.pause = true)
    (hk : inp.keyP = false) :
    g.Update coll inp = g := by
  rw [Update_paused coll g inp hs ho (by rw [hk]; simpa using hp)]
  cases g
  simp only [Game.mk.injEq, true_and, and_true] at hp ⊢
  exact hp.symm

theorem C11_witness :
    paused64.gameStarted = true ∧ paused64.gameOver = false ∧ paused64.pause = true ∧
    allButP.keyP = false ∧ paused64.Update clampCollision allButP = paused64 :=
  ⟨paused64_flags.1, paused64_flags.2.1, paused64_flags.2.2, rfl,
    C11_paused_tick_is_idle clampCollision paused64 allButP paused64_flags.1
      paused64_flags.2.1 paused64_flags.2.2 rfl⟩

/-! ### Player physics -/

theorem Floppy_Update_formula (f : Floppy) (inp : Input) (hr : f.radius = 20) :
    (f.Update inp).position.x =
      f.position.x - (if inp.keyA = true then 3 else 0) + (if inp.keyD = true then 3 else 0) ∧
    (f.Update inp).position.y =
      min (f.position.y + 9 / 10 - (if inp.keyW = true then 3 else 0)
        + (if inp.keyS = true then 3 else 0)) 430 := by
  have hfloor : ((screenHeight - f.radius : Int) : ℚ) = 430 := by
    rw [hr]
    norm_num [screenHeight]
  unfold Floppy.Update
  simp only [hfloor, GRAVITY]
  constructor
  · cases inp.keyA <;> cases inp.keyD <;> simp
  · rw [min_def]
    cases inp.keyW <;> cases inp.keyS <;>
      simp only [Bool.false_eq_true, if_false, if_true, sub_zero, add_zero, ge_iff_le] <;>
      split_ifs <;> first | rfl | linarith

theorem Floppy_Update_floor (f : Floppy) (inp : Input) (hr : f.radius = 20) :
    (f.Update inp).position.y ≤ 430 := by
  rw [(Floppy_Update_formula f inp hr).2]
  exact min_le_right _ _

theorem Update_floor (coll : Collision) (g : Game) (inp : Input) (hr : g.floppy.radius = 20)
    (hy : g.floppy.position.y ≤ 430) : (g.Update coll inp).floppy.position.y ≤ 430 := by
  by_cases hrun : g.gameOver = false ∧ g.gameStarted = true
  · cases hp : (if inp.keyP then !g.pause else g.pause) with
    | true =>
      rw [Update_paused coll g inp hrun.2 hrun.1 hp]
      exact hy
    | false =>
      rw [Update_unpaused coll g inp ⟨hrun.2, hrun.1, hp⟩, checkAll_eq, beforeChecks_pause,
        (checkUpTo_sameField coll _ 200).1]
      show (g.beforeChecks inp).floppy.position.y ≤ 430
      rw [(beforeChecks_fields g inp).1]
      exact Floppy_Update_floor g.floppy inp hr
  · cases he : inp.keyEnter with
    | true =>
      rw [Update_restart coll g inp hrun he, Init_eq]
      show g.floppy.Init.position.y ≤ 430
      rw [Floppy_Init_position g.floppy hr]
      norm_num
    | false =>
      rw [Update_idle coll g inp hrun he]
      exact hy

theorem Reachable_floor (coll : Collision) (g : Game) (h : Reachable coll g) :
    g.floppy.position.y ≤ 430 := by
  induction h with
  | start mem file rnd =>
    rw [Init_eq]
    show (Game.ctor mem file).floppy.Init.position.y ≤ 430
    rw [Floppy_Init_position _ (ctor_radius mem file)]
    norm_num
  | @update g inp hg ih => exact Update_floor coll g inp (Reachable_fieldInv coll g hg).1 ih
  | draw _ ih =>
    unfold Game.Draw
    split
    · exact ih
    · exact ih

/-- C13: whatever the position and the W, A, S, D key states, after `Floppy::Update` the
player's y is at most `screenHeight - radius = 430`; hence in every reachable game state the
player's y does not exceed the floor. -/
theorem C13_player_never_below_floor (coll : Collision) (g : Game) (h : Reachable coll g) :
    g.floppy.position.y ≤ 430 ∧
    (∀ (p : Vector2) (inp : Input), ((Floppy.mk p 20).Update inp).position.y ≤ 430) ∧
    ((screenHeight - FLOPPY_RADIUS : Int) : ℚ) = 430 :=
  ⟨Reachable_floor coll g h, fun p inp => Floppy_Update_floor ⟨p, 20⟩ inp rfl,
    by norm_num [screenHeight, FLOPPY_RADIUS]⟩

theorem C13_witness :
    Reachable clampCollision (approach 64) ∧
    ((approach 64).floppy.position.y ≤ 430 ∧
    (∀ (p : Vector2) (inp : Input), ((Floppy.mk p 20).Update inp).position.y ≤ 430) ∧
    ((screenHeight - FLOPPY_RADIUS : Int) : ℚ) = 430) :=
  ⟨approach_reachable 64,
    C13_player_never_below_floor clampCollision (approach 64) (approach_reachable 64)⟩

/-! ### Score and best score -/

theorem checkStep_scoreInv (coll : Collision) (g : Game) (i : Nat) (h : ScoreInv g) :
    ScoreInv (g.checkStep coll i) := by
  obtain ⟨h0, h1⟩ := h
  rcases checkStep_cases coll g i with ⟨-, h2⟩ | ⟨-, -, h2⟩ | ⟨-, -, h2⟩
  · rw [h2]
    refine ⟨?_, ?_⟩
    · rw [(UpdateHighScores_frame _).2.2.1]
      exact h0
    · rw [(UpdateHighScores_frame _).2.2.1, UpdateHighScores_hiScore]
      show g.score ≤ if g.score > g.hiScore then g.score else g.hiScore
      split
      · exact le_rfl
      · exact h1
  · rw [h2]
    refine ⟨?_, ?_⟩
    · show 0 ≤ g.score + 100
      omega
    · show g.score + 100 ≤ if g.score + 100 > g.hiScore then g.score + 100 else g.hiScore
      split
      · exact le_rfl
      · omega
  · rw [h2]
    exact ⟨h0, h1⟩

theorem checkUpTo_scoreInv (coll : Collision) (g : Game) (n : Nat) (h : ScoreInv g) :
    ScoreInv (g.checkUpTo coll n) := by
  induction n with
  | zero =>
    rw [checkUpTo_zero]
    exact h
  | succ k ih =>
    rw [checkUpTo_succ]
    exact checkStep_scoreInv coll _ k ih

theorem Update_scoreInv (coll : Collision) (g : Game) (inp : Input) (h : ScoreInv g) :
    ScoreInv (g.Update coll inp) := by
  by_cases hrun : g.gameOver = false ∧ g.gameStarted = true
  · cases hp : (if inp.keyP then !g.pause else g.pause) with
    | true =>
      rw [Update_paused coll g inp hrun.2 hrun.1 hp]
      exact h
    | false =>
      rw [Update_unpaused coll g inp ⟨hrun.2, hrun.1, hp⟩, checkAll_eq, beforeChecks_pause]
      apply checkUpTo_scoreInv
      show 0 ≤ (g.beforeChecks inp).score ∧ (g.beforeChecks inp).score ≤ (g.beforeChecks inp).hiScore
      rw [(beforeChecks_fields g inp).2.1, (beforeChecks_fields g inp).2.2.1]
      exact h
  · cases he : inp.keyEnter with
    | true =>
      rw [Update_restart coll g inp hrun he, Init_eq]
      exact ⟨le_rfl, le_trans h.1 h.2⟩
    | false =>
      rw [Update_idle coll g inp hrun he]
      exact h

theorem Reachable_scoreInv (coll : Collision) (g : Game) (h : Reachable coll g) :
    ScoreInv g := by
  induction h with
  | start mem file rnd =>
    rw [Init_eq]
    refine ⟨le_rfl, ?_⟩
    show (0 : Int) ≤ (Game.ctor mem file).hiScore
    simp [Game.ctor, Game.LoadHighScores]
  | update inp _ ih => exact Update_scoreInv coll _ inp ih
  | draw _ ih =>
    unfold Game.Draw
    split
    · exact ih
    · exact ih

/-- C14: in every reachable state, after any sequence of frames including collisions and
restarts, `hiScore >= score`. -/
theorem C14_hiScore_bounds_score (coll : Collision) (g : Game) (h : Reachable coll g) :
    g.hiScore ≥ g.score :=
  (Reachable_scoreInv coll g h).2

/-! ### Flags -/

theorem checkStep_pause_false (coll : Collision) (g : Game) (i : Nat) (h : g.pause = false) :
    (g.checkStep coll i).pause = false := by
  rcases checkStep_cases coll g i with ⟨-, h2⟩ | ⟨-, -, h2⟩ | ⟨-, -, h2⟩
  · rw [h2, (UpdateHighScores_frame _).2.1]
  · rw [h2]
    exact h
  · rw [h2]
    exact h

theorem checkUpTo_pause_false (coll : Collision) (g : Game) (n : Nat) (h : g.pause = false) :
    (g.checkUpTo coll n).pause = false := by
  induction n with
  | zero =>
    rw [checkUpTo_zero]
    exact h
  | succ k ih =>
    rw [checkUpTo_succ]
    exact checkStep_pause_false coll _ k ih

/-- The flags after an unpaused tick of a running game: still started, not paused. -/
theorem Update_unpaused_flags (coll : Collision) (g : Game) (inp : Input)
    (h : unpausedPlaying g inp) :
    (g.Update coll inp).gameStarted = true ∧ (g.Update coll inp).pause = false := by
  rw [Update_unpaused coll g inp h, checkAll_eq, beforeChecks_pause]
  refine ⟨?_, checkUpTo_pause_false coll _ 200 rfl⟩
  rw [(checkUpTo_sameField coll _ 200).2.2.2]
  exact (beforeChecks_fields g inp).2.2.2.2.1.trans h.1

theorem Update_flagsInv (coll : Collision) (g : Game) (inp : Input) (h : FlagsInv g) :
    FlagsInv (g.Update coll inp) := by
  by_cases hrun : g.gameOver = false ∧ g.gameStarted = true
  · cases hp : (if inp.keyP then !g.pause else g.pause) with
    | true =>
      rw [Update_paused coll g inp hrun.2 hrun.1 hp]
      exact Or.inr (Or.inr (Or.inl ⟨hrun.2, hrun.1, rfl⟩))
    | false =>
      have hf := Update_unpaused_flags coll g inp ⟨hrun.2, hrun.1, hp⟩
      cases hgo : (g.Update coll inp).gameOver with
      | false => exact Or.inr (Or.inl ⟨hf.1, hgo, hf.2⟩)
      | true => exact Or.inr (Or.inr (Or.inr ⟨hf.1, hgo, hf.2⟩))
  · cases he : inp.keyEnter with
    | true =>
      rw [Update_restart coll g inp hrun he, Init_eq]
      exact Or.inr (Or.inl ⟨rfl, rfl, rfl⟩)
    | false =>
      rw [Update_idle coll g inp hrun he]
      exact h

theorem Reachable_flagsInv (coll : Collision) (g : Game) (h : Reachable coll g) :
    FlagsInv g := by
  induction h with
  | start mem file rnd =>
    rw [Init_eq]
    exact Or.inl ⟨rfl, rfl, rfl⟩
  | update inp _ ih => exact Update_flagsInv coll _ inp ih
  | draw _ ih =>
    unfold Game.Draw
    split
    · exact ih
    · exact ih

/-- C18: in every reachable state the flags (`gameStarted`, `gameOver`, `pause`) are one of
(false, false, false), (true, false, false), (true, false, true), (true, true, false); so
`pause` and `gameOver` are never both set, and `gameOver` implies `gameStarted`. -/
theorem C18_four_flag_combinations (coll : Collision) (g : Game) (h : Reachable coll g) :
    ((g.gameStarted = false ∧ g.gameOver = false ∧ g.pause = false) ∨
      (g.gameStarted = true ∧ g.gameOver = false ∧ g.pause = false) ∨
      (g.gameStarted = true ∧ g.gameOver = false ∧ g.pause = true) ∨
      (g.gameStarted = true ∧ g.gameOver = true ∧ g.pause = false)) ∧
    ¬ (g.pause = true ∧ g.gameOver = true) ∧
    (g.gameOver = true → g.gameStarted = true) := by
  have hinv : FlagsInv g := Reachable_flagsInv coll g h
  refine ⟨hinv, ?_, ?_⟩
  · rintro ⟨hp, ho⟩
    rcases hinv with ⟨-, h1, -⟩ | ⟨-, h1, -⟩ | ⟨-, h1, -⟩ | ⟨-, -, h1⟩
    · rw [ho] at h1
      exact absurd h1 (by simp)
    · rw [ho] at h1
      exact absurd h1 (by simp)
    · rw [ho] at h1
      exact absurd h1 (by simp)
    · rw [hp] at h1
      exact absurd h1 (by simp)
  · intro ho
    rcases hinv with ⟨-, h1, -⟩ | ⟨h1, -, -⟩ | ⟨h1, -, -⟩ | ⟨h1, -, -⟩
    · rw [ho] at h1
      exact absurd h1 (by simp)
    · exact h1
    · exact h1
    · exact h1

theorem C18_witness :
    Reachable clampCollision paused64 ∧
    (((paused64.gameStarted = false ∧ paused64.gameOver = false ∧ paused64.pause = false) ∨
      (paused64.gameStarted = true ∧ paused64.gameOver = false ∧ paused64.pause = false) ∨
      (paused64.gameStarted = true ∧ paused64.gameOver = false ∧ paused64.pause = true) ∨
      (paused64.gameStarted = true ∧ paused64.gameOver = true ∧ paused64.pause = false)) ∧
    ¬ (paused64.pause = true ∧ paused64.gameOver = true) ∧
    (paused64.gameOver = true → paused64.gameStarted = true)) :=
  ⟨paused64_reachable, C18_four_flag_combinations clampCollision paused64 paused64_reachable⟩

/-! ### Score and scored pairs -/

theorem scoredCount_add (g t : Game)
    (hmono : ∀ j, (g.tubes j).active = false → (t.tubes j).active = false) :
    scoredCount t = scoredCount g + (newlyScored g.tubes t.tubes).card := by
  unfold scoredCount newlyScored
  rw [← Finset.card_union_of_disjoint]
  · congr 1
    ext j
    simp only [Finset.mem_filter, Finset.mem_range, Finset.mem_union]
    constructor
    · rintro ⟨hj, ht⟩
      cases hg : (g.tubes j).active with
      | false => exact Or.inl ⟨hj, rfl⟩
      | true => exact Or.inr ⟨hj, rfl, ht⟩
    · rintro (⟨hj, hg⟩ | ⟨hj, -, ht⟩)
      · exact ⟨hj, hmono j hg⟩
      · exact ⟨hj, ht⟩
  · rw [Finset.disjoint_left]
    intro j h1 h2
    simp only [Finset.mem_filter, Finset.mem_range] at h1 h2
    rw [h1.2] at h2
    exact absurd h2.2.1 (by simp)

theorem scoredCount_le (g : Game) : scoredCount g ≤ 100 := by
  unfold scoredCount
  have h := Finset.card_filter_le (Finset.range MAX_TUBES)
    (fun j => (g.tubes j).active = false)
  rw [Finset.card_range] at h
  exact h

theorem scoredCount_Init (g : Game) (rnd : Nat → Fin 121) : scoredCount (g.Init rnd) = 0 := by
  rw [Init_eq]
  unfold scoredCount
  rw [Finset.card_eq_zero]
  apply Finset.filter_false_of_mem
  intro j hj
  rw [Finset.mem_range] at hj
  have hj2 : j < MAX_TUBES * 2 := by omega
  simp only [initTube, hj2, if_true]
  split <;> simp

theorem Update_count (coll : Collision) (g : Game) (inp : Input)
    (h : g.score = 100 * (scoredCount g : Int)) :
    (g.Update coll inp).score = 100 * (scoredCount (g.Update coll inp) : Int) := by
  by_cases hinit : callsInit g inp
  · have hs : scoredCount (g.Update coll inp) = 0 := by
      rw [Update_restart coll g inp hinit.1 hinit.2]
      exact scoredCount_Init g inp.rnd
    rw [hs, Update_restart coll g inp hinit.1 hinit.2, Init_eq]
    rfl
  · rw [Update_score coll g inp hinit,
      scoredCount_add g (g.Update coll inp)
        (fun j hj => Update_active_false coll g inp j hinit hj), h]
    push_cast
    ring

theorem Reachable_count (coll : Collision) (g : Game) (h : Reachable coll g) :
    g.score = 100 * (scoredCount g : Int) := by
  induction h with
  | start mem file rnd =>
    rw [scoredCount_Init, Init_eq]
    rfl
  | update inp _ ih => exact Update_count coll _ inp ih
  | draw _ ih =>
    unfold Game.Draw
    split
    · exact ih
    · exact ih

/-- C19: in every reachable state the score is 100 times the number of pairs `j < 100` whose
flag `tubes[j].active` is cleared; hence the score is a multiple of 100 between 0 and
10000. -/
theorem C19_score_counts_scored_pairs (coll : Collision) (g : Game) (h : Reachable coll g) :
    g.score = 100 * (scoredCount g : Int) ∧ 0 ≤ g.score ∧ g.score ≤ 10000 ∧
      (100 : Int) ∣ g.score := by
  have hc := Reachable_count coll g h
  have hle := scoredCount_le g
  refine ⟨hc, by omega, by omega, ?_⟩
  rw [hc]
  exact Dvd.intro _ rfl

/-! ### Layout of the field -/

theorem Layout_of_fieldInv (g : Game) (h : FieldInv g) : Layout g := by
  refine ⟨?_, ?_⟩
  · intro j hj
    obtain ⟨ha, hb, hc, hd, -⟩ := h.2 j hj
    rw [ha, hb]
    exact ⟨rfl, rfl, rfl, hc, hd⟩
  · intro j hj
    have h1 := (h.2 (j + 1) hj).2.2.2.2
    have h0 := (h.2 j (by omega)).2.2.2.2
    rw [h1, h0]
    push_cast
    ring

/-! ### Speed bound and the pairs ahead of the player -/

theorem speedTier_le (score : Int) : speedTier score ≤ 4 := by
  unfold speedTier
  split
  · norm_num
  · split <;> norm_num

theorem AheadInv_Init (g : Game) (rnd : Nat → Fin 121) :
    AheadInv { g.Init rnd with gameOver := false, gameStarted := true } := by
  rw [Init_eq]
  intro _ j hj _
  have hj2 : j < MAX_TUBES := hj
  show g.floppy.Init.position.x ≤ (initPosAll g.tubesPos rnd j).x
  simp only [initPosAll, initPos, hj2, if_true, Floppy.Init]
  push_cast
  have : (0 : ℚ) ≤ (j : ℚ) := by positivity
  linarith

/-! ### Mode transitions -/

theorem mode_running (g : Game) (h : g.gameOver = false ∧ g.gameStarted = true) :
    g.mode = if g.pause = true then Mode.Paused else Mode.Playing := by
  unfold Game.mode
  rw [if_pos h]

theorem mode_not_running (g : Game) (h : ¬ (g.gameOver = false ∧ g.gameStarted = true)) :
    g.mode = if g.gameStarted = true then Mode.GameOver else Mode.TitleScreen := by
  unfold Game.mode
  rw [if_neg h]

theorem running_of_mode (g : Game) (h : g.mode = Mode.Playing ∨ g.mode = Mode.Paused) :
    g.gameOver = false ∧ g.gameStarted = true := by
  by_contra hn
  rw [mode_not_running g hn] at h
  split at h <;> simp at h

theorem not_running_of_mode (g : Game)
    (h : g.mode = Mode.TitleScreen ∨ g.mode = Mode.GameOver) :
    ¬ (g.gameOver = false ∧ g.gameStarted = true) := by
  intro hr
  rw [mode_running g hr] at h
  split at h <;> simp at h

theorem pause_of_mode_Paused (g : Game) (h : g.mode = Mode.Paused) : g.pause = true := by
  have hr := running_of_mode g (Or.inr h)
  rw [mode_running g hr] at h
  by_contra hp
  rw [if_neg hp] at h
  simp at h

theorem pause_of_mode_Playing (g : Game) (h : g.mode = Mode.Playing) : g.pause = false := by
  have hr := running_of_mode g (Or.inl h)
  rw [mode_running g hr] at h
  cases hp : g.pause with
  | false => rfl
  | true =>
    rw [hp] at h
    simp at h

/-- The outcome of an unpaused tick of a running game: game over exactly on a collision,
playing otherwise. -/
theorem Update_unpaused_mode (coll : Collision) (g : Game) (inp : Input)
    (h : unpausedPlaying g inp) :
    ((g.Update coll inp).mode = Mode.GameOver ↔ tickCollides coll g inp) ∧
    (¬ tickCollides coll g inp → (g.Update coll inp).mode = Mode.Playing) := by
  have hf := Update_unpaused_flags coll g inp h
  have hover : (g.Update coll inp).gameOver = true ↔ tickCollides coll g inp := by
    rw [Update_unpaused coll g inp h, checkAll_eq, beforeChecks_pause, checkUpTo_gameOver]
    have hgo : ({ g.beforeChecks inp with pause := false } : Game).gameOver = false :=
      (beforeChecks_fields g inp).2.2.2.1.trans h.2.1
    rw [hgo]
    simp only [Bool.false_eq_true, false_or]
    show (∃ i, i < 200 ∧ coll (g.beforeChecks inp).floppy.position
      (((g.beforeChecks inp).floppy.radius : Int) : ℚ) ((g.beforeChecks inp).tubes i).rect = true)
      ↔ _
    rw [(beforeChecks_fields g inp).1, Floppy_Update_radius]
    rfl
  cases hgo : (g.Update coll inp).gameOver with
  | true =>
    have hm : (g.Update coll inp).mode = Mode.GameOver := by
      rw [mode_not_running _ (by rw [hgo]; simp), if_pos hf.1]
    exact ⟨⟨fun _ => hover.mp hgo, fun _ => hm⟩, fun hn => absurd (hover.mp hgo) hn⟩
  | false =>
    have hm : (g.Update coll inp).mode = Mode.Playing := by
      rw [mode_running _ ⟨hgo, hf.1⟩, hf.2]
      simp
    refine ⟨⟨fun hmo => ?_, fun hc => ?_⟩, fun _ => hm⟩
    · rw [hm] at hmo
      exact absurd hmo (by simp)
    · have := hover.mpr hc
      rw [hgo] at this
      exact absurd this (by simp)

theorem paused64_mode : paused64.mode = Mode.Paused := by
  rw [mode_running paused64 ⟨paused64_flags.2.1, paused64_flags.1⟩, paused64_flags.2.2]
  rfl

theorem paused64_unpausing : unpausedPlaying paused64 pUpRightKey := by
  refine ⟨paused64_flags.1, paused64_flags.2.1, ?_⟩
  rw [paused64_flags.2.2]
  rfl

theorem paused64_collides : tickCollides clampCollision paused64 pUpRightKey := by
  refine ⟨0, by decide, ?_⟩
  have h := approach64_hit
  rw [approach_eq 64 le_rfl, beforeChecks_eq] at h
  rw [paused64_eq, beforeChecks_eq]
  have hr : ((({ approachState 64 with pause := true } : Game).floppy.radius : Int) : ℚ) = 20 := by
    simp [approachState]
  rw [hr]
  exact h

/-- C12, the claim as stated fails: `paused64` is a reachable paused state, and the tick in
which P is pressed (with W and D held) unpauses, runs the checks in the same tick, finds the
player on the top rectangle of the first pair and ends in game over. -/
theorem C12_counterexample :
    Reachable clampCollision paused64 ∧ paused64.mode = Mode.Paused ∧
    (paused64.Update clampCollision pUpRightKey).mode = Mode.GameOver :=
  ⟨paused64_reachable, paused64_mode,
    (Update_unpaused_mode clampCollision paused64 pUpRightKey paused64_unpausing).1.mpr
      paused64_collides⟩

theorem Update_not_running_keyP (coll : Collision) (g : Game) (inp : Input) (b : Bool)
    (h : ¬ (g.gameOver = false ∧ g.gameStarted = true)) :
    g.Update coll { inp with keyP := b } = g.Update coll inp := by
  unfold Game.Update
  rw [if_neg h, if_neg h]

theorem game0_mode : game0.mode = Mode.TitleScreen := by
  rw [mode_not_running game0 (by rw [game0_flags.2]; simp), game0_flags.2]
  rfl

/-- C12, amended: one tick changes the mode only as follows. In the title screen and in game
over nothing happens without ENTER, ENTER starts a game (Playing), and P has no effect. From
Playing, P leads to Paused; without P the tick ends in GameOver exactly when it detects a
collision and in Playing otherwise. From Paused, a tick without P changes nothing; a tick with
P unpauses and runs the checks in the same tick, so it ends in GameOver exactly when it
detects a collision and in Playing otherwise. -/
theorem C12_mode_transitions (coll : Collision) (g : Game) (inp : Input) :
    ((g.mode = Mode.TitleScreen ∨ g.mode = Mode.GameOver) →
      (inp.keyEnter = false → g.Update coll inp = g) ∧
      (inp.keyEnter = true → (g.Update coll inp).mode = Mode.Playing) ∧
      (∀ b : Bool, g.Update coll { inp with keyP := b } = g.Update coll inp)) ∧
    (g.mode = Mode.Playing →
      (inp.keyP = true → (g.Update coll inp).mode = Mode.Paused) ∧
      (inp.keyP = false →
        ((g.Update coll inp).mode = Mode.GameOver ↔ tickCollides coll g inp) ∧
        (¬ tickCollides coll g inp → (g.Update coll inp).mode = Mode.Playing))) ∧
    (g.mode = Mode.Paused →
      (inp.keyP = false → g.Update coll inp = g) ∧
      (inp.keyP = true →
        ((g.Update coll inp).mode = Mode.GameOver ↔ tickCollides coll g inp) ∧
        (¬ tickCollides coll g inp → (g.Update coll inp).mode = Mode.Playing))) := by
  refine ⟨?_, ?_, ?_⟩
  · intro hm
    have hn := not_running_of_mode g hm
    refine ⟨fun he => Update_idle coll g inp hn he, fun he => ?_,
      fun b => Update_not_running_keyP coll g inp b hn⟩
    rw [Update_restart coll g inp hn he, Init_eq]
    rfl
  · intro hm
    have hr := running_of_mode g (Or.inl hm)
    have hp := pause_of_mode_Playing g hm
    refine ⟨fun hk => ?_, fun hk => ?_⟩
    · rw [Update_paused coll g inp hr.2 hr.1 (by rw [hk, hp]; rfl)]
      exact mode_running _ ⟨hr.1, hr.2⟩
    · exact Update_unpaused_mode coll g inp ⟨hr.2, hr.1, by rw [hk, hp]; rfl⟩
  · intro hm
    have hr := running_of_mode g (Or.inr hm)
    have hp := pause_of_mode_Paused g hm
    refine ⟨fun hk => ?_, fun hk => ?_⟩
    · rw [Update_paused coll g inp hr.2 hr.1 (by rw [hk, hp]; rfl)]
      cases g
      simp only [Game.mk.injEq, true_and, and_true] at hp ⊢
      exact hp.symm
    · exact Update_unpaused_mode coll g inp ⟨hr.2, hr.1, by rw [hk, hp]; rfl⟩

theorem C12_witness :
    (game0.mode = Mode.TitleScreen ∧ enterKey.keyEnter = true ∧
      (game0.Update clampCollision enterKey).mode = Mode.Playing) ∧
    (paused64.mode = Mode.Paused ∧ pUpRightKey.keyP = true ∧
      (((paused64.Update clampCollision pUpRightKey).mode = Mode.GameOver ↔
        tickCollides clampCollision paused64 pUpRightKey) ∧
      (¬ tickCollides clampCollision paused64 pUpRightKey →
        (paused64.Update clampCollision pUpRightKey).mode = Mode.Playing))) :=
  ⟨⟨game0_mode, rfl,
      ((C12_mode_transitions clampCollision game0 enterKey).1 (Or.inl game0_mode)).2.1 rfl⟩,
    ⟨paused64_mode, rfl,
      ((C12_mode_transitions clampCollision paused64 pUpRightKey).2.2 paused64_mode).2 rfl⟩⟩

/-! ### The tick that scores the first pair -/

theorem approach64_scoring_before :
    Game.beforeChecks { approach 64 with pause := false } rightKey = approachState 65 := by
  rw [approach_eq 64 (le_refl 64)]
  exact approachState_before 64 (le_refl 64)

theorem approachState65_noHit (k : Nat) (hk : k < 200) :
    clampCollision (approachState 65).floppy.position
      (((approachState 65).floppy.radius : Int) : ℚ) ((approachState 65).tubes k).rect = false := by
  have hrad : (((approachState 65).floppy.radius : Int) : ℚ) = 20 := by
    simp [approachState]
  have hpos : (approachState 65).floppy.position
      = ⟨80 + 3 * ((65 : Nat) : ℚ), 205 + 9 / 10 * ((65 : Nat) : ℚ)⟩ := rfl
  rw [hrad, hpos, (approachState_tube 65 k hk).1]
  apply clampCollision_false
  by_cases hpair : 1 ≤ k / 2
  · have h2 : (1 : ℚ) ≤ ((k / 2 : Nat) : ℚ) := by exact_mod_cast hpair
    apply distSq_ge_of_left _ _ 20 (by norm_num) (by norm_num) (by norm_num)
    show 80 + 3 * ((65 : Nat) : ℚ) + 20 ≤ 400 + 280 * ((k / 2 : Nat) : ℚ) - 2 * ((65 : Nat) : ℚ)
    push_cast
    linarith
  · have hk01 : k = 0 ∨ k = 1 := by omega
    rcases hk01 with rfl | rfl <;>
      norm_num [distSq, closestPoint, max_def, min_def]

theorem approachState65_pos (j : Nat) (hj : j < 100) :
    ((approachState 65).tubesPos j).x = 270 + 280 * (j : ℚ) ∧
      (approachState 65).floppy.position.x = 275 := by
  simp only [approachState, hj, if_true]
  constructor <;> norm_num
  ring

theorem approach64_checks (n : Nat) (h1 : 1 ≤ n) (hn : n ≤ 200) :
    (approachState 65).checkUpTo clampCollision n = scored (approachState 65) 0 := by
  induction n with
  | zero => omega
  | succ k ih =>
    rw [checkUpTo_succ]
    by_cases hk : k = 0
    · subst hk
      rw [checkUpTo_zero]
      refine checkStep_score clampCollision _ 0 (approachState65_noHit 0 (by omega)) ⟨?_, ?_, rfl⟩
      · rw [(approachState65_pos 0 (by omega)).1, (approachState65_pos 0 (by omega)).2]
        norm_num
      · exact (approachState_tube 65 0 (by omega)).2
    · have hk1 : 1 ≤ k := Nat.one_le_iff_ne_zero.mpr hk
      have hk200 : k < 200 := by omega
      rw [ih hk1 (by omega)]
      have hsf := scored_sameField (approachState 65) 0
      refine checkStep_idle clampCollision _ k ?_ ?_
      · rw [hsf.1, hsf.2.2.1 k]
        exact approachState65_noHit k hk200
      · rintro ⟨hx, ha, -⟩
        rw [hsf.1, hsf.2.1] at hx
        rw [scored_active] at ha
        have hj : k / 2 < 100 := by omega
        rw [(approachState65_pos (k / 2) hj).1, (approachState65_pos (k / 2) hj).2] at hx
        by_cases hz : k / 2 = 0
        · simp [hz] at ha
        · have h1 : 1 ≤ k / 2 := Nat.one_le_iff_ne_zero.mpr hz
          have h2 : (1 : ℚ) ≤ ((k / 2 : Nat) : ℚ) := by exact_mod_cast h1
          linarith

theorem approach64_scoring_eq :
    (approach 64).Update clampCollision rightKey = scored (approachState 65) 0 := by
  have hu : unpausedPlaying (approach 64) rightKey := by
    rw [approach_eq 64 (le_refl 64)]
    exact approachState_unpaused 64 rightKey rfl
  rw [Update_unpaused clampCollision _ rightKey hu, checkAll_eq, approach64_scoring_before]
  exact approach64_checks 200 (by omega) (le_refl 200)

theorem approach64_scoring :
    ((approach 64).tubes 0).active = true ∧
    (((approach 64).Update clampCollision rightKey).tubes 0).active = false ∧
    (approach 64).score = 0 ∧
    ((approach 64).Update clampCollision rightKey).score = 100 ∧
    ((approach 64).Update clampCollision rightKey).hiScore = 100 ∧
    ((approach 64).Update clampCollision rightKey).tubesSpeedX = 2 ∧
    scoredCount ((approach 64).Update clampCollision rightKey) = 1 ∧
    (newlyScored (approach 64).tubes
      ((approach 64).Update clampCollision rightKey).tubes).card = 1 := by
  have hact : ∀ j, ((approach 64).tubes j).active = true := by
    intro j
    rw [approach_eq 64 (le_refl 64)]
    simp only [approachState]
    split <;> rfl
  have hsc : ∀ j, (((approach 64).Update clampCollision rightKey).tubes j).active
      = if j = 0 then false else true := by
    intro j
    rw [approach64_scoring_eq, scored_active]
    by_cases hj : j = 0
    · simp [hj]
    · simp only [hj, if_false, approachState]
      split <;> rfl
  refine ⟨hact 0, by rw [hsc]; rfl, ?_, ?_, ?_, ?_, ?_, ?_⟩
  · rw [approach_eq 64 (le_refl 64)]
    rfl
  · rw [approach64_scoring_eq]
    rfl
  · rw [approach64_scoring_eq]
    simp [scored, approachState]
  · rw [approach64_scoring_eq]
    simp [scored, approachState, speedRamp]
  · have : (Finset.range MAX_TUBES).filter
        (fun j => (((approach 64).Update clampCollision rightKey).tubes j).active = false)
        = {0} := by
      ext j
      simp only [Finset.mem_filter, Finset.mem_range, Finset.mem_singleton, hsc, MAX_TUBES]
      by_cases hj : j = 0 <;> simp [hj]
    unfold scoredCount
    rw [this]
    rfl
  · have : newlyScored (approach 64).tubes
        ((approach 64).Update clampCollision rightKey).tubes = {0} := by
      ext j
      simp only [newlyScored, Finset.mem_filter, Finset.mem_range, Finset.mem_singleton, hsc,
        hact, MAX_TUBES]
      by_cases hj : j = 0 <;> simp [hj]
    rw [this]
    rfl

theorem C7_witness :
    Reachable clampCollision ((approach 64).Update clampCollision rightKey) ∧
    (approach 64).score = 0 ∧
    ((approach 64).Update clampCollision rightKey).score = 100 ∧
    ((approach 64).Update clampCollision rightKey).tubesSpeedX = 2 ∧
    (((approach 64).Update clampCollision rightKey).tubesSpeedX
        = speedTier ((approach 64).Update clampCollision rightKey).score ∧
      (((approach 64).Update clampCollision rightKey).score = 2500 →
        ((approach 64).Update clampCollision rightKey).tubesSpeedX = 7 / 2) ∧
      ((approach 64).Update clampCollision rightKey).tubesSpeedX ≠ 6 ∧
      (∀ speed : ℚ, speedRamp 2500 speed = 7 / 2) ∧
      (∀ score : Int, ¬ (¬ (score ≥ 2500 ∧ score < 4500) ∧ ¬ score ≥ 4500 ∧ score ≥ 5500)) ∧
      (∀ (score : Int) (speed : ℚ), speed ≠ 6 → speedRamp score speed ≠ 6)) :=
  ⟨Reachable.update rightKey (approach_reachable 64), approach64_scoring.2.2.1,
    approach64_scoring.2.2.2.1, approach64_scoring.2.2.2.2.2.1,
    C7_speed_is_tier_of_score clampCollision _
      (Reachable.update rightKey (approach_reachable 64))⟩

theorem C14_witness :
    Reachable clampCollision ((approach 64).Update clampCollision rightKey) ∧
    ((approach 64).Update clampCollision rightKey).score = 100 ∧
    ((approach 64).Update clampCollision rightKey).hiScore = 100 ∧
    ((approach 64).Update clampCollision rightKey).hiScore
      ≥ ((approach 64).Update clampCollision rightKey).score :=
  ⟨Reachable.update rightKey (approach_reachable 64), approach64_scoring.2.2.2.1,
    approach64_scoring.2.2.2.2.1,
    C14_hiScore_bounds_score clampCollision _
      (Reachable.update rightKey (approach_reachable 64))⟩

theorem C19_witness :
    Reachable clampCollision ((approach 64).Update clampCollision rightKey) ∧
    ((approach 64).Update clampCollision rightKey).score = 100 ∧
    scoredCount ((approach 64).Update clampCollision rightKey) = 1 ∧
    (((approach 64).Update clampCollision rightKey).score
        = 100 * (scoredCount ((approach 64).Update clampCollision rightKey) : Int) ∧
      0 ≤ ((approach 64).Update clampCollision rightKey).score ∧
      ((approach 64).Update clampCollision rightKey).score ≤ 10000 ∧
      (100 : Int) ∣ ((approach 64).Update clampCollision rightKey).score) :=
  ⟨Reachable.update rightKey (approach_reachable 64), approach64_scoring.2.2.2.1,
    approach64_scoring.2.2.2.2.2.2.1,
    C19_score_counts_scored_pairs clampCollision _
      (Reachable.update rightKey (approach_reachable 64))⟩

/-! ### Rounding to `float` and wrapping to `int` -/

theorem roundEven_intCast (n : Int) : roundEven (n : ℚ) = n := by
  simp [roundEven]

theorem roundEven_cases (q : ℚ) : roundEven q = ⌊q⌋ ∨ roundEven q = ⌊q⌋ + 1 := by
  unfold roundEven
  split_ifs <;> simp

theorem roundEven_mono {q r : ℚ} (h : q ≤ r) : roundEven q ≤ roundEven r := by
  have hf : ⌊q⌋ ≤ ⌊r⌋ := Int.floor_mono h
  rcases lt_or_eq_of_le hf with hlt | heq
  · rcases roundEven_cases q with h1 | h1 <;> rcases roundEven_cases r with h2 | h2 <;> omega
  · have hqr : q - ⌊q⌋ ≤ r - ⌊r⌋ := by
      rw [heq]
      linarith
    unfold roundEven
    rw [heq]
    rw [heq] at hqr
    split_ifs <;> first | omega | (exfalso; linarith)

theorem roundEven_neg (q : ℚ) : roundEven (-q) = -roundEven q := by
  by_cases hq : (⌊q⌋ : ℚ) = q
  · rw [← hq, ← Int.cast_neg, roundEven_intCast, roundEven_intCast]
  · have h1 : (⌊q⌋ : ℚ) < q := lt_of_le_of_ne (Int.floor_le q) hq
    have h2 : q < ⌊q⌋ + 1 := Int.lt_floor_add_one q
    have hfl : ⌊-q⌋ = -⌊q⌋ - 1 := by
      rw [Int.floor_eq_iff]
      push_cast
      constructor <;> linarith
    unfold roundEven
    rw [hfl]
    push_cast
    split_ifs <;> first | omega | (exfalso; linarith)

theorem roundEven_bounds (q : ℚ) :
    q - 1 / 2 ≤ (roundEven q : ℚ) ∧ (roundEven q : ℚ) ≤ q + 1 / 2 := by
  have h1 : (⌊q⌋ : ℚ) ≤ q := Int.floor_le q
  have h2 : q < ⌊q⌋ + 1 := Int.lt_floor_add_one q
  unfold roundEven
  split_ifs <;> push_cast <;> constructor <;> linarith

theorem two_zpow_pos (e : Int) : (0 : ℚ) < 2 ^ e := zpow_pos (by norm_num) e

theorem ulpExp_neg (q : ℚ) : ulpExp (-q) = ulpExp q := by
  simp [ulpExp]

theorem f32_neg (q : ℚ) : f32 (-q) = -f32 q := by
  unfold f32
  rw [ulpExp_neg, neg_div, roundEven_neg]
  push_cast
  ring

theorem f32_zero : f32 0 = 0 := by
  simp [f32, roundEven]

theorem log_eq_of_binade (q : ℚ) (L : Int) (hL : (2 : ℚ) ^ L ≤ |q|) (hU : |q| < 2 ^ (L + 1)) :
    Int.log 2 |q| = L := by
  have hpos : (0 : ℚ) < |q| := lt_of_lt_of_le (two_zpow_pos L) hL
  have h1 : L ≤ Int.log 2 |q| := by
    rw [← Int.zpow_le_iff_le_log (by norm_num) hpos]
    exact_mod_cast hL
  have h2 : Int.log 2 |q| < L + 1 := by
    rw [← Int.lt_zpow_iff_log_lt (by norm_num) hpos]
    exact_mod_cast hU
  omega

theorem ulpExp_of_binade (q : ℚ) (L : Int) (hmin : -126 ≤ L) (hL : (2 : ℚ) ^ L ≤ |q|)
    (hU : |q| < 2 ^ (L + 1)) : ulpExp q = L - 23 := by
  unfold ulpExp
  rw [log_eq_of_binade q L hL hU, max_eq_left hmin]

theorem f32_of_binade (q : ℚ) (L : Int) (hmin : -126 ≤ L) (hL : (2 : ℚ) ^ L ≤ |q|)
    (hU : |q| < 2 ^ (L + 1)) :
    f32 q = (roundEven (q / 2 ^ (L - 23)) : ℚ) * 2 ^ (L - 23) := by
  unfold f32
  rw [ulpExp_of_binade q L hmin hL hU]

/-- The exponent of the last place is at most `e` for a nonzero value below `2 ^ (e + 24)`. -/
theorem ulpExp_le (q : ℚ) (e : Int) (hq : q ≠ 0) (he : -149 ≤ e) (h : |q| < 2 ^ (e + 24)) :
    ulpExp q ≤ e := by
  unfold ulpExp
  have hpos : (0 : ℚ) < |q| := abs_pos.mpr hq
  have h2 : Int.log 2 |q| < e + 24 := by
    rw [← Int.lt_zpow_iff_log_lt (by norm_num) hpos]
    exact_mod_cast h
  have := max_le (show Int.log 2 |q| ≤ e + 23 by omega) (show (-126 : Int) ≤ e + 23 by omega)
  omega

/-- A value `m * 2 ^ e` with fewer than 25 significant bits and `e` at least -149 is a
`float`: rounding leaves it as it is. -/
theorem f32_exact (m e : Int) (hm : |m| < 2 ^ 24) (he : -149 ≤ e) :
    f32 ((m : ℚ) * 2 ^ e) = (m : ℚ) * 2 ^ e := by
  by_cases hm0 : m = 0
  · subst hm0
    simp [f32_zero]
  have hq : (m : ℚ) * 2 ^ e ≠ 0 :=
    mul_ne_zero (by exact_mod_cast hm0) (ne_of_gt (two_zpow_pos e))
  have hlt : |(m : ℚ) * 2 ^ e| < 2 ^ (e + 24) := by
    rw [abs_mul, abs_of_pos (two_zpow_pos e), zpow_add₀ (by norm_num : (2 : ℚ) ≠ 0), mul_comm]
    apply mul_lt_mul_of_pos_left _ (two_zpow_pos e)
    have : ((|m| : Int) : ℚ) < ((2 ^ 24 : Int) : ℚ) := by exact_mod_cast hm
    rw [Int.cast_abs] at this
    calc |(m : ℚ)| < ((2 ^ 24 : Int) : ℚ) := this
      _ = 2 ^ (24 : Int) := by norm_num
  have hE := ulpExp_le _ e hq he hlt
  unfold f32
  generalize ulpExp ((m : ℚ) * 2 ^ e) = E at hE
  obtain ⟨k, hk⟩ : ∃ k : Nat, e = E + k := ⟨(e - E).toNat, by omega⟩
  have hdiv : (m : ℚ) * 2 ^ e / 2 ^ E = ((m * 2 ^ k : Int) : ℚ) := by
    rw [hk, zpow_add₀ (by norm_num : (2 : ℚ) ≠ 0), zpow_natCast]
    push_cast
    field_simp
    ring
  rw [hdiv, roundEven_intCast, hk, zpow_add₀ (by norm_num : (2 : ℚ) ≠ 0), zpow_natCast]
  push_cast
  ring

theorem f32_intCast (n : Int) (h : |n| < 2 ^ 24) : f32 (n : ℚ) = n := by
  have := f32_exact n 0 h (by norm_num)
  simpa using this

theorem f32_nonneg {q : ℚ} (h : 0 ≤ q) : 0 ≤ f32 q := by
  unfold f32
  apply mul_nonneg _ (le_of_lt (two_zpow_pos _))
  have h1 : (0 : ℚ) ≤ q / 2 ^ ulpExp q := div_nonneg h (le_of_lt (two_zpow_pos _))
  have h2 := roundEven_mono h1
  rw [show (0 : ℚ) = ((0 : Int) : ℚ) by norm_num, roundEven_intCast] at h2
  exact_mod_cast h2

theorem ulpExp_mono {q r : ℚ} (hq : 0 < q) (h : q ≤ r) : ulpExp q ≤ ulpExp r := by
  unfold ulpExp
  have hr : 0 < r := lt_of_lt_of_le hq h
  rw [abs_of_pos hq, abs_of_pos hr]
  have := Int.log_mono_right (b := 2) hq h
  have := max_le_max this (le_refl (-126 : Int))
  omega

theorem f32_mono_pos {q r : ℚ} (hq : 0 < q) (h : q ≤ r) : f32 q ≤ f32 r := by
  have hr : 0 < r := lt_of_lt_of_le hq h
  rcases lt_or_eq_of_le (ulpExp_mono hq h) with hlt | heq
  · -- different binades: a power of two lies between the two results
    have hLr : ulpExp r = Int.log 2 |r| - 23 := by
      unfold ulpExp at hlt ⊢
      have h1 := le_max_right (Int.log 2 |q|) (-126)
      rcases max_cases (Int.log 2 |r|) (-126) with ⟨h2, -⟩ | ⟨h2, -⟩
      · rw [h2]
      · rw [h2] at hlt
        omega
    have hqlog : Int.log 2 |q| + 1 ≤ ulpExp q + 24 := by
      unfold ulpExp
      have h1 := le_max_left (Int.log 2 |q|) (-126)
      omega
    -- f32 q ≤ 2 ^ (ulpExp q + 24)
    have hqU : q < 2 ^ (ulpExp q + 24) := by
      have h1 := Int.lt_zpow_succ_log_self (b := 2) (by norm_num) |q|
      rw [abs_of_pos hq] at h1
      calc q < ((2 : Nat) : ℚ) ^ (Int.log 2 q + 1) := h1
        _ = (2 : ℚ) ^ (Int.log 2 q + 1) := by norm_num
        _ ≤ 2 ^ (ulpExp q + 24) := by
          apply zpow_le_zpow_right₀ (by norm_num)
          rw [abs_of_pos hq] at hqlog
          exact hqlog
    have h1 : f32 q ≤ 2 ^ (ulpExp q + 24) := by
      unfold f32
      have hd : q / 2 ^ ulpExp q ≤ ((2 ^ 24 : Int) : ℚ) := by
        rw [div_le_iff₀ (two_zpow_pos _)]
        have : ((2 ^ 24 : Int) : ℚ) * 2 ^ ulpExp q = 2 ^ (ulpExp q + 24) := by
          rw [zpow_add₀ (by norm_num : (2 : ℚ) ≠ 0)]
          norm_num
          ring
        rw [this]
        exact le_of_lt hqU
      have hr2 := roundEven_mono hd
      rw [roundEven_intCast] at hr2
      have hr3 : (roundEven (q / 2 ^ ulpExp q) : ℚ) ≤ ((2 ^ 24 : Int) : ℚ) := by
        exact_mod_cast hr2
      calc (roundEven (q / 2 ^ ulpExp q) : ℚ) * 2 ^ ulpExp q
          ≤ ((2 ^ 24 : Int) : ℚ) * 2 ^ ulpExp q :=
            mul_le_mul_of_nonneg_right hr3 (le_of_lt (two_zpow_pos _))
        _ = 2 ^ (ulpExp q + 24) := by
          rw [zpow_add₀ (by norm_num : (2 : ℚ) ≠ 0)]
          norm_num
          ring
    have h2 : (2 : ℚ) ^ (ulpExp r + 23) ≤ f32 r := by
      have hrL : (2 : ℚ) ^ (ulpExp r + 23) ≤ r := by
        have h3 := Int.zpow_log_le_self (b := 2) (by norm_num) hr
        rw [hLr, abs_of_pos hr]
        calc (2 : ℚ) ^ (Int.log 2 r - 23 + 23) = ((2 : Nat) : ℚ) ^ Int.log 2 r := by
              rw [sub_add_cancel]
              norm_num
          _ ≤ r := h3
      unfold f32
      have hd : ((2 ^ 23 : Int) : ℚ) ≤ r / 2 ^ ulpExp r := by
        rw [le_div_iff₀ (two_zpow_pos _)]
        have : ((2 ^ 23 : Int) : ℚ) * 2 ^ ulpExp r = 2 ^ (ulpExp r + 23) := by
          rw [zpow_add₀ (by norm_num : (2 : ℚ) ≠ 0)]
          norm_num
          ring
        rw [this]
        exact hrL
      have hr2 := roundEven_mono hd
      rw [roundEven_intCast] at hr2
      have hr3 : ((2 ^ 23 : Int) : ℚ) ≤ (roundEven (r / 2 ^ ulpExp r) : ℚ) := by
        exact_mod_cast hr2
      calc (2 : ℚ) ^ (ulpExp r + 23) = ((2 ^ 23 : Int) : ℚ) * 2 ^ ulpExp r := by
            rw [zpow_add₀ (by norm_num : (2 : ℚ) ≠ 0)]
            norm_num
            ring
        _ ≤ (roundEven (r / 2 ^ ulpExp r) : ℚ) * 2 ^ ulpExp r :=
            mul_le_mul_of_nonneg_right hr3 (le_of_lt (two_zpow_pos _))
    calc f32 q ≤ 2 ^ (ulpExp q + 24) := h1
      _ ≤ 2 ^ (ulpExp r + 23) := zpow_le_zpow_right₀ (by norm_num) (by omega)
      _ ≤ f32 r := h2
  · unfold f32
    rw [heq]
    apply mul_le_mul_of_nonneg_right _ (le_of_lt (two_zpow_pos _))
    have := roundEven_mono (div_le_div_of_nonneg_right h (le_of_lt (two_zpow_pos (ulpExp r))))
    exact_mod_cast this

/-- Rounding to `float` is monotone. -/
theorem f32_mono {q r : ℚ} (h : q ≤ r) : f32 q ≤ f32 r := by
  rcases lt_trichotomy q 0 with hq | hq | hq
  · rcases lt_or_le r 0 with hr | hr
    · have := f32_mono_pos (neg_pos.mpr hr) (neg_le_neg h)
      rw [f32_neg, f32_neg] at this
      linarith
    · have h1 := f32_nonneg (le_of_lt (neg_pos.mpr hq))
      rw [f32_neg] at h1
      have h2 := f32_nonneg hr
      linarith
  · subst hq
    rw [f32_zero]
    exact f32_nonneg h
  · exact f32_mono_pos hq h

/-- The rounding error is at most half a unit in the last place. -/
theorem f32_error (q : ℚ) : |f32 q - q| ≤ 2 ^ ulpExp q / 2 := by
  unfold f32
  have hb := roundEven_bounds (q / 2 ^ ulpExp q)
  have hp := two_zpow_pos (ulpExp q)
  have hq : q = q / 2 ^ ulpExp q * 2 ^ ulpExp q := by field_simp
  rw [abs_le]
  constructor
  · have := mul_le_mul_of_nonneg_right hb.1 (le_of_lt hp)
    nlinarith
  · have := mul_le_mul_of_nonneg_right hb.2 (le_of_lt hp)
    nlinarith

theorem i32_of_range (n : Int) (h1 : -2 ^ 31 ≤ n) (h2 : n < 2 ^ 31) : i32 n = n := by
  unfold i32
  norm_num at h1 h2 ⊢
  omega

theorem roundEven_eq_of_near (q : ℚ) (n : Int) (h1 : (n : ℚ) - 1 / 2 < q)
    (h2 : q < (n : ℚ) + 1 / 2) : roundEven q = n := by
  have hb := roundEven_bounds q
  have h3 : ((roundEven q - n : Int) : ℚ) < 1 := by
    push_cast
    linarith
  have h4 : (-1 : ℚ) < ((roundEven q - n : Int) : ℚ) := by
    push_cast
    linarith
  have h5 : roundEven q - n < 1 := by exact_mod_cast h3
  have h6 : -1 < roundEven q - n := by exact_mod_cast h4
  omega

theorem roundEven_tie (n : Int) :
    roundEven ((n : ℚ) + 1 / 2) = if n % 2 = 0 then n else n + 1 := by
  have hfl : ⌊(n : ℚ) + 1 / 2⌋ = n := by
    rw [Int.floor_eq_iff]
    constructor <;> linarith
  unfold roundEven
  rw [hfl]
  have h1 : ¬ ((n : ℚ) + 1 / 2 - n < 1 / 2) := by
    rw [not_lt]
    linarith
  have h2 : ¬ ((1 : ℚ) / 2 < (n : ℚ) + 1 / 2 - n) := by
    rw [not_lt]
    linarith
  rw [if_neg h1, if_neg h2]

/-- Evaluating `f32` at a value whose binade is known and that is strictly nearer to
`n * 2 ^ (L - 23)` than to its neighbours. -/
theorem f32_eq_near (q : ℚ) (L n : Int) (hmin : -126 ≤ L) (hL : (2 : ℚ) ^ L ≤ |q|)
    (hU : |q| < 2 ^ (L + 1)) (h1 : ((n : ℚ) - 1 / 2) * 2 ^ (L - 23) < q)
    (h2 : q < ((n : ℚ) + 1 / 2) * 2 ^ (L - 23)) : f32 q = (n : ℚ) * 2 ^ (L - 23) := by
  rw [f32_of_binade q L hmin hL hU, roundEven_eq_of_near _ n]
  · rw [lt_div_iff₀ (two_zpow_pos _)]
    exact h1
  · rw [div_lt_iff₀ (two_zpow_pos _)]
    exact h2

/-- Evaluating `f32` at a tie. -/
theorem f32_eq_tie (q : ℚ) (L n : Int) (hmin : -126 ≤ L) (hL : (2 : ℚ) ^ L ≤ |q|)
    (hU : |q| < 2 ^ (L + 1)) (h : q = ((n : ℚ) + 1 / 2) * 2 ^ (L - 23)) :
    f32 q = ((if n % 2 = 0 then n else n + 1 : Int) : ℚ) * 2 ^ (L - 23) := by
  rw [f32_of_binade q L hmin hL hU]
  have : q / 2 ^ (L - 23) = (n : ℚ) + 1 / 2 := by
    rw [h]
    field_simp
    ring
  rw [this, roundEven_tie]

theorem GRAVITY32_eq : GRAVITY32 = 7549747 / 8388608 := by
  unfold GRAVITY32
  rw [f32_eq_near (9 / 10) (-1) 15099494 (by norm_num) (by norm_num [abs_of_pos])
    (by norm_num [abs_of_pos]) (by norm_num) (by norm_num)]
  norm_num

/-! ### Values that are not rounded, and values that are -/

theorem f32_half (k : Int) (h : |k| < 2 ^ 24) : f32 ((k : ℚ) / 2) = (k : ℚ) / 2 := by
  have := f32_exact k (-1) h (by norm_num)
  have e : (k : ℚ) * 2 ^ (-1 : Int) = (k : ℚ) / 2 := by
    rw [zpow_neg_one]
    ring
  rwa [e] at this

theorem f32_grid15 (k : Int) (h : |k| < 2 ^ 24) : f32 ((k : ℚ) / 32768) = (k : ℚ) / 32768 := by
  have := f32_exact k (-15) h (by norm_num)
  have e : (k : ℚ) * 2 ^ (-15 : Int) = (k : ℚ) / 32768 := by
    norm_num
    ring
  rwa [e] at this

theorem f32_even (t : Int) (h : |t| < 2 ^ 24) : f32 ((2 * t : Int) : ℚ) = ((2 * t : Int) : ℚ) := by
  have := f32_exact t 1 h (by norm_num)
  have e : (t : ℚ) * 2 ^ (1 : Int) = ((2 * t : Int) : ℚ) := by
    push_cast
    norm_num
    ring
  rwa [e] at this

theorem f32_two_pow_25 : f32 (-33554432) = -33554432 := by
  have := f32_exact (-1) 25 (by norm_num) (by norm_num)
  norm_num at this
  exact this

/-- At -2^25 a step of 2 is absorbed: the result is half way between two `float` values and
goes to the even one, -2^25 itself. -/
theorem f32_absorb : f32 (-33554432 - 2) = -33554432 := by
  rw [f32_eq_tie (-33554432 - 2) 25 (-8388609) (by norm_num) (by norm_num [abs_of_neg])
    (by norm_num [abs_of_neg]) (by norm_num)]
  norm_num

/-- One step of a gap at an even integer `x` between -2^25 and 2^24, at speed 2. -/
theorem f32_gap_step (t : Int) (h1 : -16777216 ≤ t) (h2 : t ≤ 8388608) :
    f32 (((2 * t : Int) : ℚ) - 2) = ((max (2 * t - 2) (-33554432) : Int) : ℚ) := by
  by_cases hb : t = -16777216
  · subst hb
    have : ((2 * -16777216 : Int) : ℚ) - 2 = -33554432 - 2 := by norm_num
    rw [this, f32_absorb]
    norm_num
  · have hmax : max (2 * t - 2) (-33554432) = 2 * (t - 1) := by
      rw [max_eq_left (show (-33554432 : Int) ≤ 2 * t - 2 by omega)]
      ring
    rw [hmax]
    have : ((2 * t : Int) : ℚ) - 2 = ((2 * (t - 1) : Int) : ℚ) := by
      push_cast
      ring
    rw [this]
    by_cases hc : t = -16777215
    · subst hc
      have e : ((2 * (-16777215 - 1) : Int) : ℚ) = -33554432 := by norm_num
      rw [e]
      exact f32_two_pow_25
    · refine f32_even (t - 1) ?_
      rw [abs_lt]
      constructor <;> norm_num <;> omega

/-- A step of 3 to the left from a multiple of 4 between -2^26 and -2^24 lands 4 lower. -/
theorem f32_left_far (t : Int) (h1 : -16777216 < t) (h2 : t ≤ -4194304) :
    f32 (((4 * t : Int) : ℚ) - 3) = ((4 * t - 4 : Int) : ℚ) := by
  have c1 : (-16777216 : ℚ) < (t : ℚ) := by exact_mod_cast h1
  have c2 : (t : ℚ) ≤ -4194304 := by exact_mod_cast h2
  have hneg : ((4 * t : Int) : ℚ) - 3 < 0 := by
    push_cast
    linarith
  by_cases hb : -8388608 < t
  · have c3 : (-8388608 : ℚ) < (t : ℚ) := by exact_mod_cast hb
    have c4 : (-8388607 : ℚ) ≤ (t : ℚ) := by
      have : -8388607 ≤ t := by omega
      exact_mod_cast this
    rw [f32_eq_tie _ 24 (2 * t - 2) (by norm_num)
      (by rw [abs_of_neg hneg]; push_cast; norm_num; linarith)
      (by rw [abs_of_neg hneg]; push_cast; norm_num; linarith)
      (by push_cast; norm_num; ring)]
    have : (2 * t - 2) % 2 = 0 := by omega
    rw [if_pos this]
    push_cast
    norm_num
    ring
  · have c3 : (t : ℚ) ≤ -8388608 := by
      have : t ≤ -8388608 := by omega
      exact_mod_cast this
    have c4 : (-16777215 : ℚ) ≤ (t : ℚ) := by
      have : -16777215 ≤ t := by omega
      exact_mod_cast this
    rw [f32_eq_near _ 25 (t - 1) (by norm_num)
      (by rw [abs_of_neg hneg]; push_cast; norm_num; linarith)
      (by rw [abs_of_neg hneg]; push_cast; norm_num; linarith)
      (by push_cast; norm_num; linarith)
      (by push_cast; norm_num; linarith)]
    push_cast
    norm_num
    ring

/-- A step of 3 to the right from a multiple of 4 between -2^26 and -2^24 lands 4 higher. -/
theorem f32_right_far (t : Int) (h1 : -16777216 ≤ t) (h2 : t < -4194304) :
    f32 (((4 * t : Int) : ℚ) + 3) = ((4 * t + 4 : Int) : ℚ) := by
  have c1 : (-16777216 : ℚ) ≤ (t : ℚ) := by exact_mod_cast h1
  have c2 : (t : ℚ) ≤ -4194305 := by
    have : t ≤ -4194305 := by omega
    exact_mod_cast this
  have hneg : ((4 * t : Int) : ℚ) + 3 < 0 := by
    push_cast
    linarith
  by_cases hb : -8388608 ≤ t
  · have c3 : (-8388608 : ℚ) ≤ (t : ℚ) := by exact_mod_cast hb
    rw [f32_eq_tie _ 24 (2 * t + 1) (by norm_num)
      (by rw [abs_of_neg hneg]; push_cast; norm_num; linarith)
      (by rw [abs_of_neg hneg]; push_cast; norm_num; linarith)
      (by push_cast; norm_num; ring)]
    have : ¬ (2 * t + 1) % 2 = 0 := by omega
    rw [if_neg this]
    push_cast
    norm_num
    ring
  · have c3 : (t : ℚ) ≤ -8388609 := by
      have : t ≤ -8388609 := by omega
      exact_mod_cast this
    rw [f32_eq_near _ 25 (t + 1) (by norm_num)
      (by rw [abs_of_neg hneg]; push_cast; norm_num; linarith)
      (by rw [abs_of_neg hneg]; push_cast; norm_num; linarith)
      (by push_cast; norm_num; linarith)
      (by push_cast; norm_num; linarith)]
    push_cast
    norm_num
    ring

/-- Gravity on a height that is a multiple of 2^-15 between 128 and 512: the sum is rounded
down to the next multiple of 2^-15, so the height grows by 29491/32768 and not by 0.9. -/
theorem f32_gravity (k : Int) (h1 : 4164813 ≤ k) (h2 : k ≤ 16747724) :
    f32 ((k : ℚ) / 32768 + GRAVITY32) = ((k + 29491 : Int) : ℚ) / 32768 := by
  rw [GRAVITY32_eq]
  have c1 : (4164813 : ℚ) ≤ (k : ℚ) := by exact_mod_cast h1
  have c2 : (k : ℚ) ≤ 16747724 := by exact_mod_cast h2
  have hpos : 0 < (k : ℚ) / 32768 + 7549747 / 8388608 := by
    have : 0 < (k : ℚ) / 32768 := by positivity
    linarith
  by_cases hb : k ≤ 8359116
  · have c3 : (k : ℚ) ≤ 8359116 := by exact_mod_cast hb
    rw [f32_eq_near _ 7 (2 * k + 58982) (by norm_num)
      (by rw [abs_of_pos hpos]; norm_num; linarith)
      (by rw [abs_of_pos hpos]; norm_num; linarith)
      (by push_cast; norm_num; linarith)
      (by push_cast; norm_num; linarith)]
    push_cast
    norm_num
    ring
  · have c3 : (8359117 : ℚ) ≤ (k : ℚ) := by
      have : 8359117 ≤ k := by omega
      exact_mod_cast this
    rw [f32_eq_near _ 8 (k + 29491) (by norm_num)
      (by rw [abs_of_pos hpos]; norm_num; linarith)
      (by rw [abs_of_pos hpos]; norm_num; linarith)
      (by push_cast; norm_num; linarith)
      (by push_cast; norm_num; linarith)]
    push_cast
    norm_num
    ring

/-! ### The machine loops in closed form -/

theorem Floppy_Init32_eq (f : Floppy) (hr : f.radius = 20) : f.Init32 = f.Init := by
  unfold Floppy.Init32 Floppy.Init
  rw [hr]
  have h1 : i32 (screenHeight / 2 - 20) = 205 := by
    unfold i32 screenHeight
    norm_num
  have h2 : (screenHeight / 2 - 20 : Int) = 205 := by
    unfold screenHeight
    norm_num
  rw [h1, h2]
  have := f32_intCast 205 (by norm_num)
  rw [this]

theorem Floppy_Update32_radius (f : Floppy) (inp : Input) :
    (f.Update32 inp).radius = f.radius := rfl

theorem floor32_eq : f32 ((i32 (screenHeight - 20) : Int) : ℚ) = 430 := by
  have h1 : i32 (screenHeight - 20) = 430 := by
    unfold i32 screenHeight
    norm_num
  rw [h1]
  have := f32_intCast 430 (by norm_num)
  exact_mod_cast this

theorem initTubes32_eq (g : Game) :
    g.initTubes32 = { g with tubes := initTube32 g.tubes g.tubesPos } := by
  unfold Game.initTubes32 evenIndices
  rw [List.foldl_map]
  have key := foldl_range_invariant
    (fun n t => t = { g with tubes := fun k =>
      if k < 2 * n then initTube32 g.tubes g.tubesPos k else g.tubes k })
    (fun g k =>
      let t := (g.tubes (2 * k)).Init (g.tubesPos (2 * k / 2)).x (g.tubesPos (2 * k / 2)).y
      let g := { g with tubes := Function.update g.tubes (2 * k) t }
      let t := (g.tubes (2 * k + 1)).Init (g.tubesPos (2 * k / 2)).x
        (f32 (f32 (600 + (g.tubesPos (2 * k / 2)).y) - 255))
      { g with tubes := Function.update g.tubes (2 * k + 1) t }) g MAX_TUBES (by simp)
    (by
      intro i t hi ht
      subst ht
      simp only [Game.mk.injEq, true_and, and_true]
      funext k
      have hdiv : 2 * i / 2 = i := by omega
      have hi2 : i < 100 := hi
      by_cases h1 : k = 2 * i + 1
      · subst h1
        have hd : (2 * i + 1) / 2 = i := by omega
        have hm : (2 * i + 1) % 2 = 1 := by omega
        have hlt : 2 * i + 1 < 100 * 2 := by omega
        have hlt2 : 2 * i + 1 < 2 * (i + 1) := by omega
        simp [hdiv, hd, hm, initTube32, Tube.Init, MAX_TUBES, hlt, hlt2]
      · by_cases h0 : k = 2 * i
        · subst h0
          have hlt : 2 * i < 100 * 2 := by omega
          have hlt2 : 2 * i < 2 * (i + 1) := by omega
          simp [hdiv, initTube32, Tube.Init, MAX_TUBES, hlt, hlt2]
        · have hlt : k < 2 * (i + 1) ↔ k < 2 * i := by omega
          simp [Function.update_noteq h1, Function.update_noteq h0, hlt])
  rw [key]
  simp only [Game.mk.injEq, true_and, and_true]
  funext k
  by_cases hk : k < 2 * MAX_TUBES
  · simp [hk]
  · have hk2 : ¬ k < MAX_TUBES * 2 := by omega
    simp [hk, initTube32, hk2]

/-- The bottom rectangle's y, `600 + y - 255` in two rounded steps, is exact for the gap
offsets `Game::Init` draws. -/
theorem f32_bottom_y (r : Fin 121) :
    f32 (f32 (600 + -(((r.val : Nat) : Int) : ℚ)) - 255) = 600 + -(((r.val : Nat) : Int) : ℚ) - 255 := by
  have hr : (r.val : Int) ≤ 120 := by
    have := r.isLt
    omega
  have hr0 : (0 : Int) ≤ (r.val : Int) := by omega
  have e1 : (600 : ℚ) + -(((r.val : Nat) : Int) : ℚ) = ((600 - (r.val : Int) : Int) : ℚ) := by
    push_cast
    ring
  rw [e1, f32_intCast _ (by rw [abs_lt]; constructor <;> norm_num <;> omega)]
  have e2 : ((600 - (r.val : Int) : Int) : ℚ) - 255 = ((345 - (r.val : Int) : Int) : ℚ) := by
    push_cast
    ring
  rw [e2, f32_intCast _ (by rw [abs_lt]; constructor <;> norm_num <;> omega)]

theorem initTube32_eq (tubes : Nat → Tube) (pos : Nat → Vector2) (rnd : Nat → Fin 121) :
    initTube32 tubes (initPosAll pos rnd) = initTube tubes (initPosAll pos rnd) := by
  funext k
  unfold initTube32 initTube
  by_cases hk : k < MAX_TUBES * 2
  · have hj : k / 2 < MAX_TUBES := by
      unfold MAX_TUBES at hk ⊢
      omega
    simp only [hk, if_true, initPosAll, hj, initPos]
    split
    · rfl
    · rw [f32_bottom_y]
  · simp only [hk, if_false]

/-- `Game::Init` rounds nothing: in machine arithmetic it gives what it gives in exact
arithmetic, the radius being 20. -/
theorem Init32_eq_Init (g : Game) (rnd : Nat → Fin 121) (hr : g.floppy.radius = 20) :
    g.Init32 rnd = g.Init rnd := by
  rw [Init_eq]
  simp only [Game.Init32, initPositions_eq, initTubes32_eq, Floppy_Init32_eq _ hr]
  simp only [Game.mk.injEq, true_and, and_true]
  refine ⟨?_, ?_⟩
  · rw [← initTube32_eq]
    funext k
    simp [initTube32, initPosAll]
  · funext j
    simp [initPosAll]

theorem advance32_eq (g : Game) :
    g.advance32 = { g with tubesPos := advancedPos32 g.tubesPos g.tubesSpeedX } := by
  unfold Game.advance32
  have key := foldl_range_invariant
    (fun n t => n ≤ MAX_TUBES → t = { g with tubesPos := fun j =>
      if j < n then (advancedPos32 g.tubesPos g.tubesSpeedX j) else (g.tubesPos j) })
    (fun g i =>
      let p : Vector2 := { g.tubesPos i with x := f32 ((g.tubesPos i).x - g.tubesSpeedX) }
      { g with tubesPos := Function.update g.tubesPos i p }) g MAX_TUBES (by simp)
    (by
      intro i t hi ht _
      have ht2 := ht (le_of_lt hi)
      subst ht2
      simp only [Game.mk.injEq, true_and, and_true]
      funext j
      by_cases hji : j = i
      · subst hji
        simp [advancedPos32, hi]
      · have h1 : j < i + 1 ↔ j < i := by omega
        simp [Function.update_noteq hji, h1])
  rw [key (le_refl _)]
  simp only [Game.mk.injEq, true_and, and_true]
  funext j
  by_cases hj : j < MAX_TUBES
  · simp [hj]
  · simp [hj, advancedPos32]

theorem beforeChecks32_eq (g : Game) (inp : Input) :
    g.beforeChecks32 inp =
      { g with
        tubesPos := advancedPos32 g.tubesPos g.tubesSpeedX
        tubes := syncedTube g.tubes (advancedPos32 g.tubesPos g.tubesSpeedX)
        floppy := g.floppy.Update32 inp } := by
  simp [Game.beforeChecks32, advance32_eq, syncTubes_eq]

theorem checkUpTo32_succ (coll : Collision) (g : Game) (n : Nat) :
    g.checkUpTo32 coll (n + 1) = (g.checkUpTo32 coll n).checkStep32 coll n := by
  unfold Game.checkUpTo32
  rw [List.range_succ, List.foldl_append]
  rfl

theorem checkUpTo32_zero (coll : Collision) (g : Game) : g.checkUpTo32 coll 0 = g := rfl

theorem checkAll32_eq (coll : Collision) (g : Game) :
    g.checkAll32 coll = g.checkUpTo32 coll 200 := rfl

theorem checkStep32_hit (coll : Collision) (g : Game) (i : Nat)
    (h : coll g.floppy.position (f32 (g.floppy.radius : ℚ)) (g.tubes i).rect = true) :
    g.checkStep32 coll i = Game.UpdateHighScores { g with gameOver := true, pause := false } := by
  unfold Game.checkStep32
  rw [if_pos h]

theorem checkStep32_idle (coll : Collision) (g : Game) (i : Nat)
    (h : coll g.floppy.position (f32 (g.floppy.radius : ℚ)) (g.tubes i).rect = false)
    (hc : ¬ ((g.tubesPos (i / 2)).x < g.floppy.position.x ∧ (g.tubes (i / 2)).active = true
      ∧ g.gameOver = false)) :
    g.checkStep32 coll i = g := by
  unfold Game.checkStep32
  rw [if_neg (by simp [h]), if_neg hc]

theorem checkStep32_score (coll : Collision) (g : Game) (i : Nat)
    (h : coll g.floppy.position (f32 (g.floppy.radius : ℚ)) (g.tubes i).rect = false)
    (hc : (g.tubesPos (i / 2)).x < g.floppy.position.x ∧ (g.tubes (i / 2)).active = true
      ∧ g.gameOver = false) :
    g.checkStep32 coll i = scored32 g (i / 2) := by
  unfold Game.checkStep32
  rw [if_neg (by simp [h]), if_pos hc]
  simp only [scored32]
  split <;> rfl

/-- While the score stays in the range of `int` the machine loop body is the exact one, the
collision test taking the radius as a `float`. -/
theorem checkStep32_eq (coll : Collision) (g : Game) (i : Nat)
    (h1 : -2 ^ 31 ≤ g.score + 100) (h2 : g.score + 100 < 2 ^ 31) :
    g.checkStep32 coll i = g.checkStep (conv32 coll) i := by
  unfold Game.checkStep32 Game.checkStep conv32
  rw [i32_of_range _ h1 h2]

/-! ### One machine tick -/

theorem beforeChecks32_fields (g : Game) (inp : Input) :
    (g.beforeChecks32 inp).floppy = g.floppy.Update32 inp ∧
    (g.beforeChecks32 inp).score = g.score ∧ (g.beforeChecks32 inp).hiScore = g.hiScore ∧
    (g.beforeChecks32 inp).gameOver = g.gameOver ∧
    (g.beforeChecks32 inp).gameStarted = g.gameStarted ∧
    (g.beforeChecks32 inp).highScores = g.highScores ∧
    (g.beforeChecks32 inp).tubesSpeedX = g.tubesSpeedX ∧
    (g.beforeChecks32 inp).pause = g.pause := by
  rw [beforeChecks32_eq]
  exact ⟨rfl, rfl, rfl, rfl, rfl, rfl, rfl, rfl⟩

theorem beforeChecks32_active (g : Game) (inp : Input) (k : Nat) :
    ((g.beforeChecks32 inp).tubes k).active = (g.tubes k).active := by
  rw [beforeChecks32_eq]
  simp only [syncedTube]
  split <;> rfl

theorem beforeChecks32_pause (g : Game) (inp : Input) :
    Game.beforeChecks32 { g with pause := false } inp =
      { g.beforeChecks32 inp with pause := false } := by
  rw [beforeChecks32_eq, beforeChecks32_eq]

theorem beforeChecks32_tubesPos (g : Game) (inp : Input) (j : Nat) (hj : j < 100) :
    ((g.beforeChecks32 inp).tubesPos j).x = f32 ((g.tubesPos j).x - g.tubesSpeedX) ∧
    ((g.beforeChecks32 inp).tubesPos j).y = (g.tubesPos j).y := by
  rw [beforeChecks32_eq]
  have hj2 : j < MAX_TUBES := hj
  simp [advancedPos32, hj2]

theorem Update32_unpaused (coll : Collision) (g : Game) (inp : Input)
    (h : unpausedPlaying g inp) :
    g.Update32 coll inp = (Game.beforeChecks32 { g with pause := false } inp).checkAll32 coll := by
  obtain ⟨hs, ho, hp⟩ := h
  unfold Game.Update32
  rw [if_pos ⟨ho, hs⟩]
  cases hk : inp.keyP with
  | true =>
    rw [hk] at hp
    simp only [if_true] at hp ⊢
    simp only [hp, if_true, Game.beforeChecks32]
  | false =>
    rw [hk] at hp
    simp only [Bool.false_eq_true, if_false] at hp ⊢
    rw [if_pos hp]
    have hg : { g with pause := false } = g := by
      cases g
      simp only [Game.mk.injEq, true_and, and_true] at hp ⊢
      exact hp.symm
    rw [hg]
    simp only [Game.beforeChecks32]

theorem Update32_paused (coll : Collision) (g : Game) (inp : Input)
    (hs : g.gameStarted = true) (ho : g.gameOver = false)
    (hp : (if inp.keyP then !g.pause else g.pause) = true) :
    g.Update32 coll inp = { g with pause := true } := by
  unfold Game.Update32
  rw [if_pos ⟨ho, hs⟩]
  cases hk : inp.keyP with
  | true =>
    rw [hk] at hp
    simp only [if_true] at hp ⊢
    simp [hp]
  | false =>
    rw [hk] at hp
    simp only [Bool.false_eq_true, if_false] at hp ⊢
    rw [if_neg (by simp [hp])]
    cases g
    simp only [Game.mk.injEq, true_and, and_true] at hp ⊢
    exact hp

theorem Update32_idle (coll : Collision) (g : Game) (inp : Input)
    (h : ¬ (g.gameOver = false ∧ g.gameStarted = true)) (he : inp.keyEnter = false) :
    g.Update32 coll inp = g := by
  unfold Game.Update32
  rw [if_neg h]
  simp [he]

theorem Update32_restart (coll : Collision) (g : Game) (inp : Input)
    (h : ¬ (g.gameOver = false ∧ g.gameStarted = true)) (he : inp.keyEnter = true) :
    g.Update32 coll inp = { g.Init32 inp.rnd with gameOver := false, gameStarted := true } := by
  unfold Game.Update32
  rw [if_neg h]
  simp [he]

attribute [irreducible] Game.advance32 Game.initTubes32 Game.beforeChecks32 Game.checkUpTo32
  Game.checkAll32 Game.Init32

/-- Outside an unpaused tick of a running game nothing is computed in `float` or added to the
score: the machine tick is the exact one, the radius being 20. -/
theorem Update32_eq_Update (coll coll2 : Collision) (g : Game) (inp : Input)
    (h : ¬ unpausedPlaying g inp) (hr : g.floppy.radius = 20) :
    g.Update32 coll inp = g.Update coll2 inp := by
  by_cases hrun : g.gameOver = false ∧ g.gameStarted = true
  · cases hp : (if inp.keyP then !g.pause else g.pause) with
    | true =>
      rw [Update32_paused coll g inp hrun.2 hrun.1 hp, Update_paused coll2 g inp hrun.2 hrun.1 hp]
    | false => exact absurd ⟨hrun.2, hrun.1, hp⟩ h
  · cases he : inp.keyEnter with
    | true =>
      rw [Update32_restart coll g inp hrun he, Update_restart coll2 g inp hrun he,
        Init32_eq_Init g inp.rnd hr]
    | false =>
      rw [Update32_idle coll g inp hrun he, Update_idle coll2 g inp hrun he]

theorem newlyScored_card_le (a b : Nat → Tube) : (newlyScored a b).card ≤ 100 := by
  unfold newlyScored
  calc _ ≤ (Finset.range MAX_TUBES).card := Finset.card_filter_le _ _
    _ = 100 := by simp [MAX_TUBES]

theorem checkStep32_eq_num (coll : Collision) (g : Game) (i : Nat)
    (h1 : -2147483748 ≤ g.score) (h2 : g.score < 2147483548) :
    g.checkStep32 coll i = g.checkStep (conv32 coll) i := by
  apply checkStep32_eq
  · norm_num
    omega
  · norm_num
    omega

/-- While the score is more than 10000 away from the ends of the range of `int`, the machine
check loop is the exact one. -/
theorem checkUpTo32_eq (coll : Collision) (b : Game) (n : Nat) (hn : n ≤ 200)
    (h1 : -2147483648 ≤ b.score) (h2 : b.score ≤ 2147473547) :
    b.checkUpTo32 coll n = b.checkUpTo (conv32 coll) n := by
  induction n with
  | zero => rw [checkUpTo32_zero, checkUpTo_zero]
  | succ k ih =>
    rw [checkUpTo32_succ, ih (by omega), checkUpTo_succ]
    have hs := checkUpTo_score (conv32 coll) b k (by omega)
    have hc := newlyScored_card_le b.tubes (b.checkUpTo (conv32 coll) k).tubes
    apply checkStep32_eq_num <;> omega

theorem Update32_tick (coll : Collision) (g : Game) (inp : Input)
    (h : unpausedPlaying g inp) (h1 : -2147483648 ≤ g.score) (h2 : g.score ≤ 2147473547) :
    g.Update32 coll inp =
      Game.checkUpTo (conv32 coll) { g.beforeChecks32 inp with pause := false } 200 := by
  rw [Update32_unpaused coll g inp h, checkAll32_eq, beforeChecks32_pause,
    checkUpTo32_eq coll _ 200 le_rfl]
  · show -2147483648 ≤ (g.beforeChecks32 inp).score
    rw [(beforeChecks32_fields g inp).2.1]
    exact h1
  · show (g.beforeChecks32 inp).score ≤ 2147473547
    rw [(beforeChecks32_fields g inp).2.1]
    exact h2

theorem conv32_twenty (coll : Collision) (c : Vector2) (r : Rectangle) :
    conv32 coll c 20 r = coll c 20 r := by
  unfold conv32
  have := f32_intCast 20 (by norm_num)
  norm_num at this
  rw [this]

/-! ### Invariants of the machine program -/

theorem speedTier_cases (score : Int) :
    speedTier score = 2 ∨ speedTier score = 7 / 2 ∨ speedTier score = 4 := by
  unfold speedTier
  split
  · exact Or.inl rfl
  · split
    · exact Or.inr (Or.inl rfl)
    · exact Or.inr (Or.inr rfl)

theorem FieldInv_of_sync (g : Game) (hs : FieldSync g) (he : ExactField g) : FieldInv g :=
  ⟨hs.1, fun j hj =>
    ⟨(hs.2 j hj).1, (hs.2 j hj).2.1, (hs.2 j hj).2.2.1, (hs.2 j hj).2.2.2, he.2.2 j hj⟩⟩

theorem FieldSync_of_fieldInv (g : Game) (h : FieldInv g) : FieldSync g :=
  ⟨h.1, fun j hj => ⟨(h.2 j hj).1, (h.2 j hj).2.1, (h.2 j hj).2.2.1, (h.2 j hj).2.2.2.1⟩⟩

theorem FieldSync_of_sameField (g t : Game) (hs : SameField g t) (h : FieldSync g) :
    FieldSync t := by
  obtain ⟨hf, hp, hr, -⟩ := hs
  refine ⟨by rw [hf]; exact h.1, ?_⟩
  intro j hj
  rw [hr, hr, hp]
  exact h.2 j hj

theorem FieldSync_beforeChecks32 (g : Game) (inp : Input) (h : FieldSync g) :
    FieldSync (g.beforeChecks32 inp) := by
  rw [beforeChecks32_eq]
  refine ⟨h.1, ?_⟩
  intro j hj
  have hj1 : j < MAX_TUBES := hj
  have h0 : 2 * j < MAX_TUBES * 2 := by unfold MAX_TUBES; omega
  have h1 : 2 * j + 1 < MAX_TUBES * 2 := by unfold MAX_TUBES; omega
  have hd0 : 2 * j / 2 = j := by omega
  have hd1 : (2 * j + 1) / 2 = j := by omega
  obtain ⟨ha, hb, hc, hd⟩ := h.2 j hj
  simp only [syncedTube, advancedPos32, h0, h1, hd0, hd1, hj1, if_true, ha, hb]
  exact ⟨trivial, trivial, hc, hd⟩

/-- In the exact range the advance rounds nothing: every gap is lowered by the speed and the
gaps stay where exact arithmetic puts them. -/
theorem ExactField_beforeChecks32 (g : Game) (inp : Input) (he : ExactField g)
    (hx : -4194304 ≤ (g.tubesPos 0).x)
    (hsp : g.tubesSpeedX = 2 ∨ g.tubesSpeedX = 7 / 2 ∨ g.tubesSpeedX = 4) :
    ExactField (g.beforeChecks32 inp) ∧
    ∀ j, j < 100 → ((g.beforeChecks32 inp).tubesPos j).x = (g.tubesPos j).x - g.tubesSpeedX := by
  obtain ⟨⟨k, hk⟩, hle, hsp280⟩ := he
  have hk1 : -8388608 ≤ k := by
    have : (-8388608 : ℚ) ≤ (k : ℚ) := by
      rw [hk] at hx
      linarith
    exact_mod_cast this
  have hk2 : k ≤ 800 := by
    have : (k : ℚ) ≤ 800 := by
      rw [hk] at hle
      linarith
    exact_mod_cast this
  obtain ⟨d, hd, hd2⟩ : ∃ d : Int, g.tubesSpeedX = (d : ℚ) / 2 ∧ (d = 4 ∨ d = 7 ∨ d = 8) := by
    rcases hsp with h | h | h
    · exact ⟨4, by rw [h]; norm_num, Or.inl rfl⟩
    · exact ⟨7, by rw [h]; norm_num, Or.inr (Or.inl rfl)⟩
    · exact ⟨8, by rw [h]; norm_num, Or.inr (Or.inr rfl)⟩
  have key : ∀ j, j < 100 →
      ((g.beforeChecks32 inp).tubesPos j).x = (g.tubesPos j).x - g.tubesSpeedX := by
    intro j hj
    rw [(beforeChecks32_tubesPos g inp j hj).1, hsp280 j hj, hk, hd]
    have e : (k : ℚ) / 2 + 280 * (j : ℚ) - (d : ℚ) / 2 = ((k + 560 * (j : Int) - d : Int) : ℚ) / 2 := by
      push_cast
      ring
    rw [e]
    apply f32_half
    rw [abs_lt]
    constructor <;> norm_num <;> omega
  refine ⟨⟨⟨k - d, ?_⟩, ?_, ?_⟩, key⟩
  · rw [key 0 (by omega), hk, hd]
    push_cast
    ring
  · rw [key 0 (by omega)]
    rcases hsp with h | h | h <;> rw [h] <;> linarith
  · intro j hj
    rw [key j hj, key 0 (by omega), hsp280 j hj]
    ring

theorem NearInv_beforeChecks32 (g : Game) (inp : Input) (h : NearInv g)
    (hsp : g.tubesSpeedX = 2 ∨ g.tubesSpeedX = 7 / 2 ∨ g.tubesSpeedX = 4) :
    NearInv (g.beforeChecks32 inp) := by
  intro hnew
  by_cases hx : -4194304 ≤ (g.tubesPos 0).x
  · exact (ExactField_beforeChecks32 g inp (h hx) hx hsp).1
  · exfalso
    rw [not_le] at hx
    rw [(beforeChecks32_tubesPos g inp 0 (by omega)).1] at hnew
    have h2 : (g.tubesPos 0).x - g.tubesSpeedX ≤ ((-4194306 : Int) : ℚ) := by
      rcases hsp with h | h | h <;> rw [h] <;> push_cast <;> linarith
    have h3 := f32_mono h2
    rw [f32_intCast _ (by norm_num)] at h3
    push_cast at h3
    linarith

theorem NearInv_of_tubesPos (g t : Game) (hp : t.tubesPos = g.tubesPos) (h : NearInv g) :
    NearInv t := by
  unfold NearInv ExactField at h ⊢
  rw [hp]
  exact h

theorem scoredCount_congr (g t : Game) (h : ∀ k, (t.tubes k).active = (g.tubes k).active) :
    scoredCount t = scoredCount g := by
  unfold scoredCount
  congr 1
  apply Finset.filter_congr
  intro j _
  rw [h j]

/-- After the check loop of a tick that leaves the game running, every pair still unscored is
at or to the right of the player. -/
theorem AheadInv_checkUpTo (coll : Collision) (b : Game) (hgo : b.gameOver = false) :
    AheadInv (b.checkUpTo coll 200) := by
  intro hrun j hj hact
  have hsf := checkUpTo_sameField coll b 200
  rw [hsf.1, hsf.2.1]
  by_contra hlt
  rw [not_le] at hlt
  have hno : ∀ i, i ≤ 2 * j →
      coll b.floppy.position ((b.floppy.radius : Int) : ℚ) (b.tubes i).rect = false := by
    intro i hi
    cases hc : coll b.floppy.position ((b.floppy.radius : Int) : ℚ) (b.tubes i).rect with
    | false => rfl
    | true =>
      have hov := (checkUpTo_gameOver coll b 200).mpr (Or.inr ⟨i, by omega, hc⟩)
      rw [hrun.1] at hov
      exact absurd hov (by simp)
  have hflag := checkUpTo_scores coll b 200 j (by omega) hgo hlt hno
  rw [hact] at hflag
  exact absurd hflag (by simp)

theorem Inv32_score_range (g : Game) (h : Inv32 g) : 0 ≤ g.score ∧ g.score ≤ 10000 := by
  have h1 := h.2.1
  have h2 := scoredCount_le g
  constructor <;> omega

theorem Inv32_speed (g : Game) (h : Inv32 g) :
    g.tubesSpeedX = 2 ∨ g.tubesSpeedX = 7 / 2 ∨ g.tubesSpeedX = 4 := by
  rw [h.2.2.1]
  exact speedTier_cases g.score

theorem Inv32_Init (g : Game) (rnd : Nat → Fin 121) (hl : LedgerInv g.highScores)
    (hr : g.floppy.radius = 20) (s o : Bool) (ho : o = false) :
    Inv32 { g.Init rnd with gameOver := o, gameStarted := s } := by
  have hfi : FieldInv (g.Init rnd) := FieldInv_Init g rnd hr
  refine ⟨?_, ?_, ?_, ?_, ?_, ?_⟩
  · show LedgerInv (g.Init rnd).highScores
    rw [Init_highScores]
    exact hl
  · have hc : scoredCount ({ g.Init rnd with gameOver := o, gameStarted := s } : Game)
        = scoredCount (g.Init rnd) := scoredCount_congr _ _ (fun _ => rfl)
    rw [hc, scoredCount_Init]
    show (g.Init rnd).score = _
    rw [Init_eq]
    rfl
  · show (g.Init rnd).tubesSpeedX = speedTier (g.Init rnd).score
    rw [Init_eq]
    simp [speedTier]
  · exact FieldSync_of_fieldInv _ hfi
  · intro _
    refine ⟨⟨800, ?_⟩, ?_, fun j hj => (hfi.2 j hj).2.2.2.2⟩
    · show ((g.Init rnd).tubesPos 0).x = _
      rw [Init_eq]
      simp [initPosAll, initPos, MAX_TUBES]
      norm_num
    · show ((g.Init rnd).tubesPos 0).x ≤ 400
      rw [Init_eq]
      simp [initPosAll, initPos, MAX_TUBES]
  · subst ho
    cases s with
    | true => exact AheadInv_Init g rnd
    | false =>
      intro hrun
      exact absurd hrun.2 (by simp)

theorem Inv32_Update32 (coll : Collision) (g : Game) (inp : Input) (h : Inv32 g) :
    Inv32 (g.Update32 coll inp) := by
  obtain ⟨hled, hcnt, hspd, hsync, hnear, hahead⟩ := h
  have hrange := Inv32_score_range g ⟨hled, hcnt, hspd, hsync, hnear, hahead⟩
  have hsp := Inv32_speed g ⟨hled, hcnt, hspd, hsync, hnear, hahead⟩
  by_cases hrun : g.gameOver = false ∧ g.gameStarted = true
  · cases hp : (if inp.keyP then !g.pause else g.pause) with
    | true =>
      rw [Update32_paused coll g inp hrun.2 hrun.1 hp]
      exact ⟨hled, hcnt, hspd, hsync, hnear, hahead⟩
    | false =>
      have hu : unpausedPlaying g inp := ⟨hrun.2, hrun.1, hp⟩
      rw [Update32_tick coll g inp hu (by omega) (by omega)]
      have hf := beforeChecks32_fields g inp
      have hsf := checkUpTo_sameField (conv32 coll)
        { g.beforeChecks32 inp with pause := false } 200
      refine ⟨?_, ?_, ?_, ?_, ?_, ?_⟩
      · apply checkUpTo_ledger
        show LedgerInv (g.beforeChecks32 inp).highScores
        rw [hf.2.2.2.2.2.1]
        exact hled
      · rw [checkUpTo_score (conv32 coll) _ 200 le_rfl,
          scoredCount_add { g.beforeChecks32 inp with pause := false } _
            (fun j hj => checkUpTo_active_false (conv32 coll) _ 200 j hj),
          scoredCount_congr g { g.beforeChecks32 inp with pause := false }
            (fun k => beforeChecks32_active g inp k)]
        show (g.beforeChecks32 inp).score + _ = _
        rw [hf.2.1, hcnt]
        push_cast
        ring
      · apply checkUpTo_speed
        show (g.beforeChecks32 inp).tubesSpeedX = speedTier (g.beforeChecks32 inp).score
        rw [hf.2.2.2.2.2.2.1, hf.2.1]
        exact hspd
      · exact FieldSync_of_sameField _ _ hsf (FieldSync_beforeChecks32 g inp hsync)
      · exact NearInv_of_tubesPos { g.beforeChecks32 inp with pause := false } _ hsf.2.1
          (NearInv_beforeChecks32 g inp hnear hsp)
      · apply AheadInv_checkUpTo
        show (g.beforeChecks32 inp).gameOver = false
        rw [hf.2.2.2.1]
        exact hrun.1
  · cases he : inp.keyEnter with
    | true =>
      rw [Update32_restart coll g inp hrun he, Init32_eq_Init g inp.rnd hsync.1]
      exact Inv32_Init g inp.rnd hled hsync.1 true false rfl
    | false =>
      rw [Update32_idle coll g inp hrun he]
      exact ⟨hled, hcnt, hspd, hsync, hnear, hahead⟩

theorem Inv32_Draw (g : Game) (h : Inv32 g) : Inv32 g.Draw := by
  unfold Game.Draw
  split
  · obtain ⟨hled, hcnt, hspd, hsync, hnear, hahead⟩ := h
    exact ⟨hled, hcnt.trans (by rw [scoredCount_congr g { g with superfx := false } (fun _ => rfl)]), hspd, hsync, hnear,
      hahead⟩
  · exact h

/-- Every state of the machine program satisfies the invariants. -/
theorem Reachable32_inv (coll : Collision) (g : Game) (h : Reachable32 coll g) : Inv32 g := by
  induction h with
  | start mem file rnd =>
    rw [Init32_eq_Init _ rnd (ctor_radius mem file)]
    have hl : LedgerInv (Game.ctor mem file).highScores := by
      rw [ctor_highScores]
      exact ⟨sorted_take (sortGreater_sorted _) 5, by simp⟩
    have := Inv32_Init (Game.ctor mem file) rnd hl (ctor_radius mem file) false false rfl
    have e : ({ (Game.ctor mem file).Init rnd with gameOver := false, gameStarted := false } : Game)
        = (Game.ctor mem file).Init rnd := by
      rw [Init_eq]
    rw [e] at this
    exact this
  | update inp _ ih => exact Inv32_Update32 coll _ inp ih
  | draw _ ih => exact Inv32_Draw _ ih

/-! ### Ticks of a game in which nothing is scored yet -/

theorem fieldState_tube (px py : ℚ) (gx : Nat → ℚ) (k : Nat) (hk : k < 200) :
    ((fieldState px py gx).tubes k).rect
      = ⟨gx (k / 2), if k % 2 = 0 then -13 else 332, 80, 255⟩ ∧
    ((fieldState px py gx).tubes k).active = true := by
  simp [fieldState, hk]

theorem fieldState_active (px py : ℚ) (gx : Nat → ℚ) (k : Nat) :
    ((fieldState px py gx).tubes k).active = true := by
  simp only [fieldState]
  split <;> rfl

theorem fieldState_pos (px py : ℚ) (gx : Nat → ℚ) (j : Nat) (hj : j < 100) :
    ((fieldState px py gx).tubesPos j).x = gx j := by
  simp [fieldState, hj]

theorem fieldState_congr (px py : ℚ) (gx gx2 : Nat → ℚ) (h : ∀ j, j < 100 → gx j = gx2 j) :
    fieldState px py gx = fieldState px py gx2 := by
  simp only [fieldState, Game.mk.injEq, true_and, and_true]
  constructor
  · funext k
    by_cases hk : k < 200
    · have : k / 2 < 100 := by omega
      simp only [hk, if_true, h (k / 2) this]
    · simp only [hk, if_false]
  · funext j
    by_cases hj : j < 100
    · simp only [hj, if_true, h j hj]
    · simp only [hj, if_false]

theorem fieldState_unpaused (px py : ℚ) (gx : Nat → ℚ) (inp : Input) (hp : inp.keyP = false) :
    unpausedPlaying (fieldState px py gx) inp := by
  simp [unpausedPlaying, fieldState, hp]

/-- The state with which a tick of `fieldState` enters the check loop. -/
theorem fieldState_before (px py : ℚ) (gx : Nat → ℚ) (inp : Input) :
    (fieldState px py gx).beforeChecks32 inp =
      fieldState ((Floppy.mk ⟨px, py⟩ 20).Update32 inp).position.x
        ((Floppy.mk ⟨px, py⟩ 20).Update32 inp).position.y (fun j => f32 (gx j - 2)) := by
  rw [beforeChecks32_eq]
  simp only [fieldState, Game.mk.injEq, true_and, and_true]
  refine ⟨rfl, ?_, ?_⟩
  · funext k
    by_cases hk : k < 200
    · have hk2 : k < MAX_TUBES * 2 := hk
      have hj : k / 2 < 100 := by omega
      have hj2 : k / 2 < MAX_TUBES := hj
      simp only [syncedTube, advancedPos32, hk, hk2, hj, hj2, if_true]
    · have hk2 : ¬ k < MAX_TUBES * 2 := hk
      simp only [syncedTube, hk, hk2, if_false]
  · funext j
    by_cases hj : j < 100
    · have hj2 : j < MAX_TUBES := hj
      simp only [advancedPos32, hj, hj2, if_true]
    · have hj2 : ¬ j < MAX_TUBES := hj
      simp only [advancedPos32, hj, hj2, if_false]

/-- No rectangle of `fieldState` touches the player when every pair is either a radius to the
right of the player or has the player inside its gap band. -/
theorem fieldState_noHit (px py : ℚ) (gx : Nat → ℚ)
    (h : ∀ j, j < 100 → px + 20 ≤ gx j ∨ (262 ≤ py ∧ py ≤ 312)) (k : Nat) (hk : k < 200) :
    clampCollision (fieldState px py gx).floppy.position
      (((fieldState px py gx).floppy.radius : Int) : ℚ) ((fieldState px py gx).tubes k).rect
      = false := by
  have hrad : (((fieldState px py gx).floppy.radius : Int) : ℚ) = 20 := by
    simp [fieldState]
  have hpos : (fieldState px py gx).floppy.position = ⟨px, py⟩ := rfl
  rw [hrad, hpos, (fieldState_tube px py gx k hk).1]
  apply clampCollision_false
  rcases h (k / 2) (by omega) with hl | ⟨hb1, hb2⟩
  · exact distSq_ge_of_left _ _ 20 (by norm_num) (by norm_num) (by norm_num) hl
  · by_cases hm : k % 2 = 0
    · rw [if_pos hm]
      apply distSq_ge_of_below _ _ 20 (by norm_num) (by norm_num) (by norm_num)
      show (-13 : ℚ) + 255 + 20 ≤ py
      linarith
    · rw [if_neg hm]
      apply distSq_ge_of_above _ _ 20 (by norm_num) (by norm_num) (by norm_num)
      show py + 20 ≤ 332
      linarith

theorem fieldState_check (coll : Collision) (px py : ℚ) (gx : Nat → ℚ) (k : Nat) :
    conv32 coll (fieldState px py gx).floppy.position
      (((fieldState px py gx).floppy.radius : Int) : ℚ) ((fieldState px py gx).tubes k).rect
      = coll (fieldState px py gx).floppy.position
      (((fieldState px py gx).floppy.radius : Int) : ℚ) ((fieldState px py gx).tubes k).rect := by
  have hrad : (((fieldState px py gx).floppy.radius : Int) : ℚ) = 20 := by
    simp [fieldState]
  rw [hrad, conv32_twenty]

/-- A machine tick of `fieldState` in which the player neither touches a rectangle nor
passes a gap: only the positions change. -/
theorem fieldState_tick (px py : ℚ) (gx : Nat → ℚ) (inp : Input) (hp : inp.keyP = false)
    (px2 py2 : ℚ) (gx2 : Nat → ℚ)
    (hf : ((Floppy.mk ⟨px, py⟩ 20).Update32 inp).position = ⟨px2, py2⟩)
    (hg : ∀ j, j < 100 → f32 (gx j - 2) = gx2 j)
    (hahead : ∀ j, j < 100 → px2 ≤ gx2 j)
    (hclear : ∀ k, k < 200 →
      clampCollision (fieldState px2 py2 gx2).floppy.position
        (((fieldState px2 py2 gx2).floppy.radius : Int) : ℚ)
        ((fieldState px2 py2 gx2).tubes k).rect = false) :
    (fieldState px py gx).Update32 clampCollision inp = fieldState px2 py2 gx2 := by
  rw [Update32_tick clampCollision _ inp (fieldState_unpaused px py gx inp hp)
    (by simp [fieldState]) (by simp [fieldState])]
  have hb : ({ (fieldState px py gx).beforeChecks32 inp with pause := false } : Game)
      = fieldState px2 py2 gx2 := by
    rw [fieldState_before, hf, fieldState_congr px2 py2 _ gx2 hg]
    rfl
  rw [hb]
  apply checkUpTo_quiet
  · intro i hi
    rw [fieldState_check]
    exact hclear i hi
  · intro i hi
    rw [fieldState_pos px2 py2 gx2 (i / 2) (by omega), not_lt]
    exact hahead (i / 2) (by omega)

/-- The check loop on `fieldState` when the player has passed the first gap only and touches
nothing: the first pair is scored. -/
theorem fieldState_scoreFirst (coll : Collision) (px py : ℚ) (gx : Nat → ℚ)
    (hpass : gx 0 < px) (hahead : ∀ j, 1 ≤ j → j < 100 → px ≤ gx j)
    (hclear : ∀ k, k < 200 →
      coll (fieldState px py gx).floppy.position
        (((fieldState px py gx).floppy.radius : Int) : ℚ)
        ((fieldState px py gx).tubes k).rect = false)
    (n : Nat) (h1 : 1 ≤ n) (hn : n ≤ 200) :
    (fieldState px py gx).checkUpTo coll n = scored (fieldState px py gx) 0 := by
  induction n with
  | zero => omega
  | succ k ih =>
    rw [checkUpTo_succ]
    by_cases hk : k = 0
    · subst hk
      rw [checkUpTo_zero]
      refine checkStep_score coll _ 0 (hclear 0 (by omega)) ⟨?_, ?_, rfl⟩
      · rw [fieldState_pos px py gx (0 / 2) (by omega)]
        exact hpass
      · exact fieldState_active px py gx _
    · have hk1 : 1 ≤ k := Nat.one_le_iff_ne_zero.mpr hk
      have hk200 : k < 200 := by omega
      rw [ih hk1 (by omega)]
      have hsf := scored_sameField (fieldState px py gx) 0
      refine checkStep_idle coll _ k ?_ ?_
      · rw [hsf.1, hsf.2.2.1 k]
        exact hclear k hk200
      · rintro ⟨hx, ha, -⟩
        rw [hsf.1, hsf.2.1, fieldState_pos px py gx (k / 2) (by omega)] at hx
        rw [scored_active] at ha
        by_cases hz : k / 2 = 0
        · simp [hz] at ha
        · have h1 : 1 ≤ k / 2 := Nat.one_le_iff_ne_zero.mpr hz
          have := hahead (k / 2) h1 (by omega)
          have hx2 : gx (k / 2) < px := hx
          linarith

/-! ### The approach to the first pair in machine arithmetic -/

theorem game0_reachable32 (coll : Collision) : Reachable32 coll game0 := by
  have h := @Reachable32.start coll mem0 (some [1800, 3000, 2500]) rnd0
  rw [Init32_eq_Init _ rnd0 (ctor_radius mem0 _)] at h
  exact h

theorem approachState_zero : approachState 0 = fieldState 80 205 (gapX 0) := by
  simp [approachState, fieldState, gapX]

/-- ENTER on the title screen in machine arithmetic. -/
theorem enter32_eq : game0.Update32 clampCollision enter13 = fieldState 80 205 (gapX 0) := by
  have hnot : ¬ unpausedPlaying game0 enter13 := by
    intro h
    have := game0_flags.2
    rw [h.1] at this
    exact absurd this (by simp)
  rw [Update32_eq_Update clampCollision clampCollision game0 enter13 hnot game0_radius]
  exact approach_zero.trans approachState_zero

theorem fallY_zero : fallY 0 = 205 := by
  unfold fallY
  norm_num

/-- One tick of gravity below the floor, in machine arithmetic. -/
theorem gravity_step (n : Nat) (hn : n < 250) :
    f32 (fallY n + GRAVITY32) = fallY (n + 1) ∧ fallY (n + 1) < 430 := by
  unfold fallY
  have e : (((6717440 + 29491 * n : Nat) : ℚ)) = (((6717440 + 29491 * (n : Int) : Int)) : ℚ) := by
    push_cast
    ring
  constructor
  · rw [e, f32_gravity _ (by omega) (by omega)]
    push_cast
    ring
  · have : ((n : Nat) : ℚ) ≤ 249 := by
      have : n ≤ 249 := by omega
      exact_mod_cast this
    push_cast
    rw [div_lt_iff₀ (by norm_num)]
    linarith

/-- `Floppy::Update` in machine arithmetic with D held, the player falling at an integer x. -/
theorem Floppy_Update32_right (x : Int) (hx : |x + 3| < 2 ^ 24) (n : Nat) (hn : n < 250) :
    ((Floppy.mk ⟨(x : ℚ), fallY n⟩ 20).Update32 rightKey).position
      = ⟨((x + 3 : Int) : ℚ), fallY (n + 1)⟩ := by
  have hg := gravity_step n hn
  have hx3 : f32 ((x : ℚ) + 3) = ((x + 3 : Int) : ℚ) := by
    have := f32_intCast (x + 3) hx
    push_cast at this ⊢
    exact this
  simp only [Floppy.Update32, rightKey, Bool.false_eq_true, if_false, if_true, floor32_eq, hg.1,
    hx3]
  rw [if_neg (by rw [ge_iff_le, not_le]; exact hg.2)]

theorem gapX_step (n j : Nat) (hj : j < 100) (hn : n ≤ 1000000) :
    f32 (gapX n j - 2) = gapX (n + 1) j := by
  unfold gapX
  have e : (400 : ℚ) + 280 * (j : ℚ) - 2 * (n : ℚ) - 2
      = ((400 + 280 * (j : Int) - 2 * (n : Int) - 2 : Int) : ℚ) := by
    push_cast
    ring
  rw [e, f32_intCast _ (by rw [abs_lt]; constructor <;> norm_num <;> omega)]
  push_cast
  ring

theorem approach32_clear (n : Nat) (hn : n ≤ 65) (k : Nat) (hk : k < 200) :
    clampCollision (fieldState (80 + 3 * (n : ℚ)) (fallY n) (gapX n)).floppy.position
      (((fieldState (80 + 3 * (n : ℚ)) (fallY n) (gapX n)).floppy.radius : Int) : ℚ)
      ((fieldState (80 + 3 * (n : ℚ)) (fallY n) (gapX n)).tubes k).rect = false := by
  have hrad : (((fieldState (80 + 3 * (n : ℚ)) (fallY n) (gapX n)).floppy.radius : Int) : ℚ)
      = 20 := by
    simp [fieldState]
  have hpos : (fieldState (80 + 3 * (n : ℚ)) (fallY n) (gapX n)).floppy.position
      = ⟨80 + 3 * (n : ℚ), fallY n⟩ := rfl
  rw [hrad, hpos, (fieldState_tube _ _ _ k hk).1]
  apply clampCollision_false
  have h1 : (n : ℚ) ≤ 65 := by exact_mod_cast hn
  have h0 : (0 : ℚ) ≤ (n : ℚ) := by positivity
  by_cases hpair : 1 ≤ k / 2
  · have h2 : (1 : ℚ) ≤ ((k / 2 : Nat) : ℚ) := by exact_mod_cast hpair
    apply distSq_ge_of_left _ _ 20 (by norm_num) (by norm_num) (by norm_num)
    show 80 + 3 * (n : ℚ) + 20 ≤ gapX n (k / 2)
    unfold gapX
    linarith
  · have hk01 : k = 0 ∨ k = 1 := by omega
    rcases hk01 with rfl | rfl
    · by_cases hm60 : n ≤ 60
      · have h3 : (n : ℚ) ≤ 60 := by exact_mod_cast hm60
        apply distSq_ge_of_left _ _ 20 (by norm_num) (by norm_num) (by norm_num)
        show 80 + 3 * (n : ℚ) + 20 ≤ gapX n (0 / 2)
        unfold gapX
        norm_num
        linarith
      · have hcases : n = 61 ∨ n = 62 ∨ n = 63 ∨ n = 64 ∨ n = 65 := by omega
        rcases hcases with rfl | rfl | rfl | rfl | rfl <;>
          norm_num [distSq, closestPoint, max_def, min_def, fallY, gapX]
    · apply distSq_ge_of_above _ _ 20 (by norm_num) (by norm_num) (by norm_num)
      show fallY n + 20 ≤ 332
      unfold fallY
      push_cast
      rw [div_add' _ _ _ (by norm_num), div_le_iff₀ (by norm_num)]
      linarith

/-- The run `approach32` in closed form: after `n` ticks, for `n` up to 64, the player is
`3 n` to the right and `n * 29491/32768` lower, the field `2 n` to the left. -/
theorem approach32_eq (n : Nat) (hn : n ≤ 64) :
    approach32 n = fieldState (80 + 3 * (n : ℚ)) (fallY n) (gapX n) := by
  induction n with
  | zero =>
    show game0.Update32 clampCollision enter13 = _
    rw [enter32_eq, fallY_zero]
    norm_num
  | succ k ih =>
    show (approach32 k).Update32 clampCollision rightKey = _
    rw [ih (by omega)]
    have hk : (k : ℚ) ≤ 63 := by
      have : k ≤ 63 := by omega
      exact_mod_cast this
    have hk0 : (0 : ℚ) ≤ (k : ℚ) := by positivity
    apply fieldState_tick _ _ _ rightKey rfl
    · have := Floppy_Update32_right (80 + 3 * (k : Int))
        (by rw [abs_lt]; constructor <;> norm_num <;> omega) k (by omega)
      push_cast at this ⊢
      rw [this]
      congr 1
      ring
    · intro j hj
      exact gapX_step k j hj (by omega)
    · intro j hj
      unfold gapX
      have : (0 : ℚ) ≤ (j : ℚ) := by positivity
      push_cast
      linarith
    · intro i hi
      have := approach32_clear (k + 1) (by omega) i hi
      push_cast at this ⊢
      exact this

theorem approach32_reachable (n : Nat) : Reachable32 clampCollision (approach32 n) := by
  induction n with
  | zero => exact Reachable32.update enter13 (game0_reachable32 clampCollision)
  | succ k ih => exact Reachable32.update rightKey ih

/-! ### The machine check loop from any state -/

theorem checkStep32_cases (coll : Collision) (g : Game) (i : Nat) :
    (coll g.floppy.position (f32 (g.floppy.radius : ℚ)) (g.tubes i).rect = true ∧
      g.checkStep32 coll i = Game.UpdateHighScores { g with gameOver := true, pause := false }) ∨
    (coll g.floppy.position (f32 (g.floppy.radius : ℚ)) (g.tubes i).rect = false ∧
      ((g.tubesPos (i / 2)).x < g.floppy.position.x ∧ (g.tubes (i / 2)).active = true
        ∧ g.gameOver = false) ∧ g.checkStep32 coll i = scored32 g (i / 2)) ∨
    (coll g.floppy.position (f32 (g.floppy.radius : ℚ)) (g.tubes i).rect = false ∧
      ¬ ((g.tubesPos (i / 2)).x < g.floppy.position.x ∧ (g.tubes (i / 2)).active = true
        ∧ g.gameOver = false) ∧ g.checkStep32 coll i = g) := by
  cases h : coll g.floppy.position (f32 (g.floppy.radius : ℚ)) (g.tubes i).rect with
  | true => exact Or.inl ⟨rfl, checkStep32_hit coll g i h⟩
  | false =>
    by_cases hc : (g.tubesPos (i / 2)).x < g.floppy.position.x ∧ (g.tubes (i / 2)).active = true
        ∧ g.gameOver = false
    · exact Or.inr (Or.inl ⟨rfl, hc, checkStep32_score coll g i h hc⟩)
    · exact Or.inr (Or.inr ⟨rfl, hc, checkStep32_idle coll g i h hc⟩)

theorem scored32_sameField (g : Game) (j : Nat) : SameField g (scored32 g j) := by
  refine ⟨rfl, rfl, fun k => ?_, rfl⟩
  by_cases hk : k = j
  · subst hk
    simp [scored32]
  · simp [scored32, Function.update_noteq hk]

theorem checkStep32_sameField (coll : Collision) (g : Game) (i : Nat) :
    SameField g (g.checkStep32 coll i) := by
  rcases checkStep32_cases coll g i with ⟨-, h⟩ | ⟨-, -, h⟩ | ⟨-, -, h⟩
  · rw [h]
    have hf := UpdateHighScores_frame { g with gameOver := true, pause := false }
    exact ⟨hf.2.2.2.2.1, hf.2.2.2.2.2.2.1, fun k => by rw [hf.2.2.2.2.2.1], hf.2.2.2.1⟩
  · rw [h]
    exact scored32_sameField g (i / 2)
  · rw [h]
    exact SameField.refl g

theorem checkUpTo32_sameField (coll : Collision) (g : Game) (n : Nat) :
    SameField g (g.checkUpTo32 coll n) := by
  induction n with
  | zero =>
    rw [checkUpTo32_zero]
    exact SameField.refl g
  | succ k ih =>
    rw [checkUpTo32_succ]
    exact ih.trans (checkStep32_sameField coll _ k)

theorem checkStep32_hiScore_mono (coll : Collision) (g : Game) (i : Nat) :
    g.hiScore ≤ (g.checkStep32 coll i).hiScore := by
  rcases checkStep32_cases coll g i with ⟨-, h⟩ | ⟨-, -, h⟩ | ⟨-, -, h⟩
  · rw [h, UpdateHighScores_hiScore]
    show g.hiScore ≤ if g.score > g.hiScore then g.score else g.hiScore
    split
    · omega
    · exact le_rfl
  · rw [h]
    show g.hiScore ≤ if i32 (g.score + 100) > g.hiScore then i32 (g.score + 100) else g.hiScore
    split
    · omega
    · exact le_rfl
  · rw [h]

theorem checkUpTo32_hiScore_mono (coll : Collision) (g : Game) (n : Nat) :
    g.hiScore ≤ (g.checkUpTo32 coll n).hiScore := by
  induction n with
  | zero =>
    rw [checkUpTo32_zero]
  | succ k ih =>
    rw [checkUpTo32_succ]
    exact le_trans ih (checkStep32_hiScore_mono coll _ k)

theorem Init32_hiScore (g : Game) (rnd : Nat → Fin 121) : (g.Init32 rnd).hiScore = g.hiScore := by
  simp only [Game.Init32, initPositions_eq, initTubes32_eq]

/-- In machine arithmetic `hiScore` never goes down, whatever the state. -/
theorem Update32_hiScore_mono (coll : Collision) (g : Game) (inp : Input) :
    g.hiScore ≤ (g.Update32 coll inp).hiScore := by
  by_cases hrun : g.gameOver = false ∧ g.gameStarted = true
  · cases hp : (if inp.keyP then !g.pause else g.pause) with
    | true =>
      rw [Update32_paused coll g inp hrun.2 hrun.1 hp]
    | false =>
      rw [Update32_unpaused coll g inp ⟨hrun.2, hrun.1, hp⟩, checkAll32_eq]
      have h1 := checkUpTo32_hiScore_mono coll (Game.beforeChecks32 { g with pause := false } inp)
        200
      have h2 : (Game.beforeChecks32 { g with pause := false } inp).hiScore = g.hiScore :=
        (beforeChecks32_fields _ inp).2.2.1
      rw [h2] at h1
      exact h1
  · cases he : inp.keyEnter with
    | true =>
      rw [Update32_restart coll g inp hrun he]
      show g.hiScore ≤ (g.Init32 inp.rnd).hiScore
      rw [Init32_hiScore]
    | false =>
      rw [Update32_idle coll g inp hrun he]

/-- In a machine tick that does not call `Init`, from a score in the range of `int` and at
least 10100 below its upper end, the score grows by 100 for every flag the tick clears. -/
theorem Update32_score (coll : Collision) (g : Game) (inp : Input) (h : ¬ callsInit g inp)
    (h1 : -2147483648 ≤ g.score) (h2 : g.score ≤ 2147473547) :
    (g.Update32 coll inp).score =
      g.score + 100 * ((newlyScored g.tubes (g.Update32 coll inp).tubes).card : Int) := by
  by_cases hrun : g.gameOver = false ∧ g.gameStarted = true
  · cases hp : (if inp.keyP then !g.pause else g.pause) with
    | true =>
      rw [Update32_paused coll g inp hrun.2 hrun.1 hp]
      show g.score = g.score + 100 * ((newlyScored g.tubes g.tubes).card : Int)
      rw [newlyScored_self]
      simp
    | false =>
      rw [Update32_tick coll g inp ⟨hrun.2, hrun.1, hp⟩ h1 h2,
        checkUpTo_score (conv32 coll) _ 200 le_rfl]
      have hs : ({ g.beforeChecks32 inp with pause := false } : Game).score = g.score :=
        (beforeChecks32_fields g inp).2.1
      rw [hs, newlyScored_congr _ g.tubes _ _ (fun k => beforeChecks32_active g inp k)
        (fun _ => rfl)]
  · cases he : inp.keyEnter with
    | true => exact absurd ⟨hrun, he⟩ h
    | false =>
      rw [Update32_idle coll g inp hrun he, newlyScored_self]
      simp

/-! ### Player physics in machine arithmetic -/

theorem f32_error_small (q : ℚ) (h : |q| < 1024) : |f32 q - q| ≤ 1 / 32768 := by
  by_cases hq : q = 0
  · subst hq
    rw [f32_zero]
    norm_num
  · have hE := ulpExp_le q (-14) hq (by norm_num) (by norm_num; exact h)
    have h1 : (2 : ℚ) ^ ulpExp q ≤ 2 ^ (-14 : Int) := zpow_le_zpow_right₀ (by norm_num) hE
    have h2 := f32_error q
    have h3 : (2 : ℚ) ^ (-14 : Int) = 1 / 16384 := by norm_num
    rw [h3] at h1
    linarith

theorem f32_small_bound (q : ℚ) (b : ℚ) (h : |q| ≤ b) (hb : b < 1023) :
    |f32 q| ≤ b + 1 / 32768 := by
  have h1 := f32_error_small q (by linarith)
  have h2 := abs_le.mp h1
  have h3 := abs_le.mp h
  rw [abs_le]
  constructor <;> linarith

theorem Floppy_Update32_y (p : Vector2) (inp : Input) :
    ((Floppy.mk p 20).Update32 inp).position.y =
      min (if inp.keyS = true then
          f32 ((if inp.keyW = true then f32 (f32 (p.y + GRAVITY32) - 3)
            else f32 (p.y + GRAVITY32)) + 3)
        else if inp.keyW = true then f32 (f32 (p.y + GRAVITY32) - 3)
        else f32 (p.y + GRAVITY32)) 430 := by
  simp only [Floppy.Update32, floor32_eq]
  rw [min_def]
  cases inp.keyW <;> cases inp.keyS <;> simp only [Bool.false_eq_true, if_false, if_true] <;>
    split <;> split <;> first | rfl | (exfalso; linarith) | linarith

theorem Floppy_Update32_x (p : Vector2) (inp : Input) :
    ((Floppy.mk p 20).Update32 inp).position.x =
      if inp.keyD = true then f32 ((if inp.keyA = true then f32 (p.x - 3) else p.x) + 3)
      else if inp.keyA = true then f32 (p.x - 3) else p.x := by
  simp only [Floppy.Update32]

/-- The exact step of the player's x from an integer of magnitude at most 2^24 - 4. -/
theorem Floppy_Update32_x_int (n : Int) (y : ℚ) (inp : Input) (hn : |n| ≤ 16777212) :
    ((Floppy.mk ⟨(n : ℚ), y⟩ 20).Update32 inp).position.x =
      (n : ℚ) - (if inp.keyA = true then 3 else 0) + (if inp.keyD = true then 3 else 0) := by
  rw [Floppy_Update32_x]
  have hb := abs_le.mp hn
  have h1 : f32 ((n : ℚ) - 3) = (n : ℚ) - 3 := by
    have := f32_intCast (n - 3) (by rw [abs_lt]; constructor <;> norm_num <;> omega)
    push_cast at this
    exact this
  have h2 : f32 ((n : ℚ) + 3) = (n : ℚ) + 3 := by
    have := f32_intCast (n + 3) (by rw [abs_lt]; constructor <;> norm_num <;> omega)
    push_cast at this
    exact this
  have h3 : f32 ((n : ℚ) - 3 + 3) = (n : ℚ) - 3 + 3 := by
    have := f32_intCast n (by rw [abs_lt]; constructor <;> norm_num <;> omega)
    rw [sub_add_cancel]
    exact this
  cases inp.keyA <;> cases inp.keyD <;>
    simp only [Bool.false_eq_true, if_false, if_true, h1, h2, h3] <;> ring

/-- The player's new y is within 2^-13 of the exact formula for heights up to 1000 in
magnitude. -/
theorem Floppy_Update32_y_near (p : Vector2) (inp : Input) (hy : |p.y| ≤ 1000) :
    |((Floppy.mk p 20).Update32 inp).position.y -
      min (p.y + 9 / 10 - (if inp.keyW = true then 3 else 0)
        + (if inp.keyS = true then 3 else 0)) 430| ≤ 1 / 8192 := by
  rw [Floppy_Update32_y]
  have hG : GRAVITY32 = 7549747 / 8388608 := GRAVITY32_eq
  have hyb := abs_le.mp hy
  -- the first rounding
  have ha : |p.y + GRAVITY32| ≤ 1001 := by
    rw [hG, abs_le]
    constructor <;> linarith
  have e1 := abs_le.mp (f32_error_small (p.y + GRAVITY32) (by linarith))
  have b1 := abs_le.mp (f32_small_bound _ _ ha (by norm_num))
  -- the second rounding
  have hb : |f32 (p.y + GRAVITY32) - 3| ≤ 1005 := by
    rw [abs_le]
    constructor <;> linarith
  have e2 := abs_le.mp (f32_error_small (f32 (p.y + GRAVITY32) - 3) (by linarith))
  have b2 := abs_le.mp (f32_small_bound _ _ hb (by norm_num))
  -- the third rounding, after W or without it
  have hc : |f32 (f32 (p.y + GRAVITY32) - 3) + 3| ≤ 1009 := by
    rw [abs_le]
    constructor <;> linarith
  have e3 := abs_le.mp (f32_error_small (f32 (f32 (p.y + GRAVITY32) - 3) + 3) (by linarith))
  have hd : |f32 (p.y + GRAVITY32) + 3| ≤ 1005 := by
    rw [abs_le]
    constructor <;> linarith
  have e4 := abs_le.mp (f32_error_small (f32 (p.y + GRAVITY32) + 3) (by linarith))
  refine le_trans (abs_min_sub_min_le_max _ _ _ _) ?_
  rw [sub_self, abs_zero, max_le_iff]
  refine ⟨?_, by norm_num⟩
  rw [hG] at e1 e2 e3 e4 ⊢
  cases inp.keyW <;> cases inp.keyS <;>
    simp only [Bool.false_eq_true, if_false, if_true] <;> rw [abs_le] <;>
    constructor <;> linarith

theorem f32_gravity_205 : f32 (205 + GRAVITY32) = 6746931 / 32768 := by
  have := f32_gravity 6717440 (by norm_num) (by norm_num)
  norm_num at this ⊢
  exact this

theorem f32_GRAVITY32 : f32 (0 + GRAVITY32) = 15099494 / 16777216 := by
  rw [zero_add, GRAVITY32_eq]
  have := f32_exact 7549747 (-23) (by norm_num) (by norm_num)
  norm_num at this ⊢
  exact this

/-- From 0.9f a step of 3 up lands between two `float` values and is rounded to the even
one. -/
theorem f32_up_from_gravity : f32 (15099494 / 16777216 - 3) = -8808038 / 4194304 := by
  rw [f32_eq_tie _ 1 (-8808039) (by norm_num) (by norm_num [abs_of_neg])
    (by norm_num [abs_of_neg]) (by norm_num)]
  norm_num

theorem f32_down_again : f32 (-8808038 / 4194304 + 3) = 15099496 / 16777216 := by
  have := f32_exact 15099496 (-24) (by norm_num) (by norm_num)
  norm_num at this ⊢
  exact this

/-- At 2^24 a step of 3 to the right lands between two `float` values and is rounded to the
even one, 4 to the right. -/
theorem f32_right_at_two_pow_24 : f32 (16777216 + 3) = 16777220 := by
  rw [f32_eq_tie _ 24 8388609 (by norm_num) (by norm_num [abs_of_pos])
    (by norm_num [abs_of_pos]) (by norm_num)]
  norm_num

/-- C16, counterexample: in machine arithmetic `Floppy::Update` does not return the exact
formula. From (80, 205) with no key down the new y is 6746931/32768 = 205.899993896484375
and not 205.9; from y = 0 the new y is 15099494/2^24 with no key down but 15099496/2^24
with W and S down, so opposite keys do not cancel; from x = 2^24 with D down the new x is
2^24 + 4 and not 2^24 + 3. -/
theorem C16_counterexample :
    ((Floppy.mk ⟨80, 205⟩ 20).Update32 noKeys).position.y = 6746931 / 32768 ∧
    ((Floppy.mk ⟨80, 205⟩ 20).Update32 noKeys).position.y ≠ min (205 + 9 / 10 - 0 + 0) 430 ∧
    ((Floppy.mk ⟨80, 0⟩ 20).Update32 noKeys).position.y = 15099494 / 16777216 ∧
    ((Floppy.mk ⟨80, 0⟩ 20).Update32 upDownKey).position.y = 15099496 / 16777216 ∧
    ((Floppy.mk ⟨80, 0⟩ 20).Update32 upDownKey).position.y ≠ min (0 + 9 / 10 - 3 + 3) 430 ∧
    ((Floppy.mk ⟨16777216, 205⟩ 20).Update32 rightKey).position.x = 16777220 ∧
    ((Floppy.mk ⟨16777216, 205⟩ 20).Update32 rightKey).position.x ≠ 16777216 - 0 + 3 := by
  have h1 : ((Floppy.mk ⟨80, 205⟩ 20).Update32 noKeys).position.y = 6746931 / 32768 := by
    rw [Floppy_Update32_y]
    simp only [noKeys, Bool.false_eq_true, if_false, f32_gravity_205]
    norm_num
  have h2 : ((Floppy.mk ⟨80, 0⟩ 20).Update32 noKeys).position.y = 15099494 / 16777216 := by
    rw [Floppy_Update32_y]
    simp only [noKeys, Bool.false_eq_true, if_false, f32_GRAVITY32]
    norm_num
  have h3 : ((Floppy.mk ⟨80, 0⟩ 20).Update32 upDownKey).position.y = 15099496 / 16777216 := by
    rw [Floppy_Update32_y]
    simp only [upDownKey, if_true, f32_GRAVITY32, f32_up_from_gravity, f32_down_again]
    norm_num
  have h4 : ((Floppy.mk ⟨16777216, 205⟩ 20).Update32 rightKey).position.x = 16777220 := by
    rw [Floppy_Update32_x]
    simp only [rightKey, Bool.false_eq_true, if_false, if_true, f32_right_at_two_pow_24]
  refine ⟨h1, ?_, h2, h3, ?_, h4, ?_⟩
  · rw [h1]
    norm_num
  · rw [h3]
    norm_num
  · rw [h4]
    norm_num

/-- C16, amended: in machine arithmetic `Floppy::Update` applies gravity and the keys one
after the other, each result rounded to the nearest `float`: the new x is
`fl(fl(x - 3) + 3)` with the step of a key that is up left out, the new y is the minimum of
430 and `fl(fl(fl(y + 0.9f) - 3) + 3)` with the step of a key that is up left out, and the
radius stays 20. Only the floor is clamped. The exact formula `x - 3 [A] + 3 [D]` holds for
integer x of magnitude up to 2^24 - 4, and the new y is within 2^-13 of
`min (y + 0.9 - 3 [W] + 3 [S]) 430` for y of magnitude up to 1000. -/
theorem C16_floppy_update_rounded (p : Vector2) (inp : Input) :
    ((Floppy.mk p 20).Update32 inp).position.x =
      (if inp.keyD = true then f32 ((if inp.keyA = true then f32 (p.x - 3) else p.x) + 3)
        else if inp.keyA = true then f32 (p.x - 3) else p.x) ∧
    ((Floppy.mk p 20).Update32 inp).position.y =
      min (if inp.keyS = true then
          f32 ((if inp.keyW = true then f32 (f32 (p.y + GRAVITY32) - 3)
            else f32 (p.y + GRAVITY32)) + 3)
        else if inp.keyW = true then f32 (f32 (p.y + GRAVITY32) - 3)
        else f32 (p.y + GRAVITY32)) 430 ∧
    ((Floppy.mk p 20).Update32 inp).radius = 20 ∧
    GRAVITY32 = 7549747 / 8388608 ∧
    (∀ n : Int, p.x = (n : ℚ) → |n| ≤ 16777212 →
      ((Floppy.mk p 20).Update32 inp).position.x =
        p.x - (if inp.keyA = true then 3 else 0) + (if inp.keyD = true then 3 else 0)) ∧
    (|p.y| ≤ 1000 →
      |((Floppy.mk p 20).Update32 inp).position.y -
        min (p.y + 9 / 10 - (if inp.keyW = true then 3 else 0)
          + (if inp.keyS = true then 3 else 0)) 430| ≤ 1 / 8192) := by
  refine ⟨Floppy_Update32_x p inp, Floppy_Update32_y p inp, rfl, GRAVITY32_eq, ?_,
    Floppy_Update32_y_near p inp⟩
  intro n hn hb
  have hp : p = ⟨(n : ℚ), p.y⟩ := by
    cases p
    simp only [Vector2.mk.injEq, and_true]
    exact hn
  rw [hp]
  exact Floppy_Update32_x_int n p.y inp hb

theorem C16_witness :
    (⟨80, 205⟩ : Vector2).x = ((80 : Int) : ℚ) ∧ |(80 : Int)| ≤ 16777212 ∧
    |(⟨80, 205⟩ : Vector2).y| ≤ 1000 ∧
    ((Floppy.mk ⟨80, 205⟩ 20).Update32 upRightKey).position.x = 80 - 0 + 3 ∧
    |((Floppy.mk ⟨80, 205⟩ 20).Update32 upRightKey).position.y - min (205 + 9 / 10 - 3 + 0) 430|
      ≤ 1 / 8192 := by
  have h := C16_floppy_update_rounded ⟨80, 205⟩ upRightKey
  refine ⟨by norm_num, by norm_num, by norm_num [abs_le], ?_, ?_⟩
  · exact h.2.2.2.2.1 80 (by norm_num) (by norm_num)
  · exact h.2.2.2.2.2 (by norm_num [abs_le])

/-! ### Scoring in machine arithmetic -/

theorem scored32_active (g : Game) (j0 j : Nat) :
    ((scored32 g j0).tubes j).active = if j = j0 then false else (g.tubes j).active := by
  by_cases h : j = j0
  · subst h
    simp [scored32]
  · simp [scored32, Function.update_noteq h, h]

/-- The machine check loop when the player has passed the first gap only and touches
nothing: the first pair is scored. -/
theorem checkUpTo32_scoreFirst (coll : Collision) (b : Game) (hgo : b.gameOver = false)
    (hact : (b.tubes 0).active = true) (hpass : (b.tubesPos 0).x < b.floppy.position.x)
    (hahead : ∀ j, 1 ≤ j → j < 100 → b.floppy.position.x ≤ (b.tubesPos j).x)
    (hclear : ∀ k, k < 200 →
      coll b.floppy.position (f32 (b.floppy.radius : ℚ)) (b.tubes k).rect = false)
    (n : Nat) (h1 : 1 ≤ n) (hn : n ≤ 200) :
    b.checkUpTo32 coll n = scored32 b 0 := by
  induction n with
  | zero => omega
  | succ k ih =>
    rw [checkUpTo32_succ]
    by_cases hk : k = 0
    · subst hk
      rw [checkUpTo32_zero]
      exact checkStep32_score coll _ 0 (hclear 0 (by omega)) ⟨hpass, hact, hgo⟩
    · have hk1 : 1 ≤ k := Nat.one_le_iff_ne_zero.mpr hk
      have hk200 : k < 200 := by omega
      rw [ih hk1 (by omega)]
      have hsf := scored32_sameField b 0
      refine checkStep32_idle coll _ k ?_ ?_
      · rw [hsf.1, hsf.2.2.1 k]
        exact hclear k hk200
      · rintro ⟨hx, ha, -⟩
        rw [hsf.1, hsf.2.1] at hx
        rw [scored32_active] at ha
        by_cases hz : k / 2 = 0
        · simp [hz] at ha
        · have h1 : 1 ≤ k / 2 := Nat.one_le_iff_ne_zero.mpr hz
          have := hahead (k / 2) h1 (by omega)
          linarith

theorem wrapState_unpaused : unpausedPlaying wrapState noKeys := by
  simp [unpausedPlaying, wrapState, noKeys]

theorem wrapState_before :
    (wrapState.beforeChecks32 noKeys).floppy = ⟨⟨80, 7893811 / 32768⟩, 20⟩ ∧
    (∀ j, j < 100 → ((wrapState.beforeChecks32 noKeys).tubesPos j).x = 79 + 280 * (j : ℚ)) ∧
    (∀ k, k < 200 → ((wrapState.beforeChecks32 noKeys).tubes k).rect
      = ⟨79 + 280 * ((k / 2 : Nat) : ℚ), if k % 2 = 0 then -60 else 285, 80, 255⟩) := by
  have hstep : ∀ j : Nat, j < 100 → f32 (83 + 280 * (j : ℚ) - 4) = 79 + 280 * (j : ℚ) := by
    intro j hj
    have e : (83 : ℚ) + 280 * (j : ℚ) - 4 = ((79 + 280 * (j : Int) : Int) : ℚ) := by
      push_cast
      ring
    rw [e, f32_intCast _ (by rw [abs_lt]; constructor <;> norm_num <;> omega)]
    push_cast
    ring
  refine ⟨?_, ?_, ?_⟩
  · rw [(beforeChecks32_fields wrapState noKeys).1]
    have hy : f32 (240 + GRAVITY32) = 7893811 / 32768 := by
      have := f32_gravity 7864320 (by norm_num) (by norm_num)
      norm_num at this ⊢
      exact this
    simp only [Floppy.Update32, wrapState, noKeys, Bool.false_eq_true, if_false, floor32_eq, hy]
    rw [if_neg (by norm_num)]
  · intro j hj
    rw [(beforeChecks32_tubesPos wrapState noKeys j hj).1]
    simp only [wrapState, hj, if_true]
    exact hstep j hj
  · intro k hk
    rw [beforeChecks32_eq]
    have hk2 : k < MAX_TUBES * 2 := hk
    have hj : k / 2 < 100 := by omega
    have hj2 : k / 2 < MAX_TUBES := hj
    simp only [syncedTube, advancedPos32, wrapState, hk, hk2, hj, hj2, if_true,
      hstep (k / 2) hj]

theorem wrapState_clear (k : Nat) (hk : k < 200) :
    clampCollision (wrapState.beforeChecks32 noKeys).floppy.position
      (f32 (((wrapState.beforeChecks32 noKeys).floppy.radius : Int) : ℚ))
      ((wrapState.beforeChecks32 noKeys).tubes k).rect = false := by
  rw [wrapState_before.1, wrapState_before.2.2 k hk]
  have h20 : f32 (((20 : Int) : ℚ)) = 20 := by
    have := f32_intCast 20 (by norm_num)
    exact_mod_cast this
  rw [h20]
  apply clampCollision_false
  by_cases hpair : 1 ≤ k / 2
  · have h2 : (1 : ℚ) ≤ ((k / 2 : Nat) : ℚ) := by exact_mod_cast hpair
    apply distSq_ge_of_left _ _ 20 (by norm_num) (by norm_num) (by norm_num)
    show (80 : ℚ) + 20 ≤ 79 + 280 * ((k / 2 : Nat) : ℚ)
    linarith
  · have hk01 : k = 0 ∨ k = 1 := by omega
    rcases hk01 with rfl | rfl
    · apply distSq_ge_of_below _ _ 20 (by norm_num) (by norm_num) (by norm_num)
      norm_num
    · apply distSq_ge_of_above _ _ 20 (by norm_num) (by norm_num) (by norm_num)
      norm_num

theorem wrapState_tick :
    wrapState.Update32 clampCollision noKeys
      = scored32 { wrapState.beforeChecks32 noKeys with pause := false } 0 := by
  rw [Update32_unpaused clampCollision wrapState noKeys wrapState_unpaused, checkAll32_eq,
    beforeChecks32_pause]
  apply checkUpTo32_scoreFirst clampCollision _ _ _ _ _ _ 200 (by omega) le_rfl
  · exact (beforeChecks32_fields wrapState noKeys).2.2.2.1
  · show ((wrapState.beforeChecks32 noKeys).tubes 0).active = true
    rw [beforeChecks32_active]
    simp [wrapState]
  · show ((wrapState.beforeChecks32 noKeys).tubesPos 0).x
      < (wrapState.beforeChecks32 noKeys).floppy.position.x
    rw [wrapState_before.1, wrapState_before.2.1 0 (by omega)]
    norm_num
  · intro j h1 hj
    show (wrapState.beforeChecks32 noKeys).floppy.position.x
      ≤ ((wrapState.beforeChecks32 noKeys).tubesPos j).x
    rw [wrapState_before.1, wrapState_before.2.1 j hj]
    have : (1 : ℚ) ≤ (j : ℚ) := by exact_mod_cast h1
    show (80 : ℚ) ≤ 79 + 280 * (j : ℚ)
    linarith
  · intro k hk
    exact wrapState_clear k hk

/-- C15, counterexample: `score` is a 32-bit `int`. From a state with score 2147483600 (the
player at x = 80, an unscored gap at x = 83, speed 4) a tick without keys moves the gap to
79, scores the pair, and `score += 100` wraps to -2147483596: the score has gone down in a
tick that does not call `Init`. -/
theorem C15_counterexample :
    ¬ callsInit wrapState noKeys ∧ wrapState.score = 2147483600 ∧
    (wrapState.Update32 clampCollision noKeys).score = -2147483596 ∧
    (wrapState.Update32 clampCollision noKeys).score < wrapState.score := by
  have hs : (wrapState.Update32 clampCollision noKeys).score = -2147483596 := by
    rw [wrapState_tick]
    show i32 ((wrapState.beforeChecks32 noKeys).score + 100) = -2147483596
    rw [(beforeChecks32_fields wrapState noKeys).2.1]
    show i32 (2147483600 + 100) = -2147483596
    unfold i32
    norm_num
  refine ⟨fun h => absurd h.2 (by decide), rfl, hs, ?_⟩
  rw [hs]
  show (-2147483596 : Int) < 2147483600
  norm_num

/-- C15, amended: in machine arithmetic `hiScore` after a tick is at least `hiScore` before
it, from any state and restarts included; the score after a tick that does not call `Init`
is at least the score before it provided the score is an `int` at most 2147473547, that is
10100 below the largest `int`, a tick adding at most 100 times 100; every reachable state
has a score between 0 and 10000 and so meets the proviso. -/
theorem C15_scores_monotone_in_range (coll : Collision) (g : Game) (inp : Input) :
    (g.Update32 coll inp).hiScore ≥ g.hiScore ∧
    (¬ callsInit g inp → -2147483648 ≤ g.score → g.score ≤ 2147473547 →
      (g.Update32 coll inp).score ≥ g.score) ∧
    (Reachable32 coll g → 0 ≤ g.score ∧ g.score ≤ 10000) := by
  refine ⟨Update32_hiScore_mono coll g inp, ?_, fun h => Inv32_score_range g (Reachable32_inv coll g h)⟩
  intro hn h1 h2
  rw [Update32_score coll g inp hn h1 h2]
  have : (0 : Int) ≤ ((newlyScored g.tubes (g.Update32 coll inp).tubes).card : Int) :=
    Int.natCast_nonneg _
  omega

/-! ### Layout, ledger updates and pairs per tick in machine arithmetic -/

theorem LayoutSync_of_fieldSync (g : Game) (h : FieldSync g) : LayoutSync g := by
  intro j hj
  obtain ⟨h0, h1, hy1, hy2⟩ := h.2 j hj
  rw [h0, h1]
  exact ⟨rfl, rfl, rfl, hy1, hy2⟩

theorem ExactField_of_tubesPos (g t : Game) (hp : t.tubesPos = g.tubesPos) (h : ExactField g) :
    ExactField t := by
  unfold ExactField at h ⊢
  rw [hp]
  exact h

theorem Update32_tubesPos (coll : Collision) (g : Game) (inp : Input)
    (h : unpausedPlaying g inp) (h1 : -2147483648 ≤ g.score) (h2 : g.score ≤ 2147473547) :
    (g.Update32 coll inp).tubesPos = (g.beforeChecks32 inp).tubesPos := by
  rw [Update32_tick coll g inp h h1 h2]
  exact (checkUpTo_sameField (conv32 coll) _ 200).2.1

/-- The player's new x in machine arithmetic is at most 3 beyond any `float` value `c` that
the old x does not exceed, provided `c + 3` is a `float` too. -/
theorem Floppy_Update32_x_le (f : Floppy) (inp : Input) (c : ℚ) (hc : f32 c = c)
    (hc3 : f32 (c + 3) = c + 3) (h : f.position.x ≤ c) :
    (f.Update32 inp).position.x ≤ c + 3 := by
  have hA : (if inp.keyA = true then f32 (f.position.x - 3) else f.position.x) ≤ c := by
    split
    · have := f32_mono (show f.position.x - 3 ≤ c by linarith)
      rw [hc] at this
      exact this
    · exact h
  show (if inp.keyD = true then
      f32 ((if inp.keyA = true then f32 (f.position.x - 3) else f.position.x) + 3)
    else (if inp.keyA = true then f32 (f.position.x - 3) else f.position.x)) ≤ c + 3
  split
  · have := f32_mono (show (if inp.keyA = true then f32 (f.position.x - 3) else f.position.x) + 3
        ≤ c + 3 by linarith)
    rw [hc3] at this
    exact this
  · linarith

/-- The check loop with the counter computes the same state as the check loop, and its
counter is the number of rectangles that collide. -/
theorem countedLoop32_eq (coll : Collision) (b : Game) :
    ((List.range (MAX_TUBES * 2)).foldl (Game.checkStepCounted32 coll) (b, 0)).1
      = b.checkAll32 coll ∧
    ((List.range (MAX_TUBES * 2)).foldl (Game.checkStepCounted32 coll) (b, 0)).2
      = ((Finset.range 200).filter (fun i =>
        coll b.floppy.position (f32 (b.floppy.radius : ℚ)) (b.tubes i).rect = true)).card := by
  have key := foldl_range_invariant
    (fun n (s : Game × Nat) => s.1 = b.checkUpTo32 coll n ∧
      s.2 = ((Finset.range n).filter (fun i =>
        coll b.floppy.position (f32 (b.floppy.radius : ℚ)) (b.tubes i).rect = true)).card)
    (Game.checkStepCounted32 coll) (b, 0) (MAX_TUBES * 2)
    ⟨by rw [checkUpTo32_zero], by simp⟩
    (by
      intro i s _ hs
      obtain ⟨hs1, hs2⟩ := hs
      have hsf := checkUpTo32_sameField coll b i
      have hcond : coll s.1.floppy.position (f32 (s.1.floppy.radius : ℚ)) (s.1.tubes i).rect
          = coll b.floppy.position (f32 (b.floppy.radius : ℚ)) (b.tubes i).rect := by
        rw [hs1, hsf.1, hsf.2.2.1 i]
      rw [Finset.range_succ, Finset.filter_insert]
      unfold Game.checkStepCounted32
      rw [hcond]
      cases hc : coll b.floppy.position (f32 (b.floppy.radius : ℚ)) (b.tubes i).rect with
      | true =>
        simp only [if_true]
        refine ⟨?_, ?_⟩
        · rw [checkUpTo32_succ, ← hs1]
          exact (checkStep32_hit coll s.1 i (hcond.trans hc)).symm
        · rw [Finset.card_insert_of_not_mem (by simp), hs2]
      | false =>
        simp only [Bool.false_eq_true, if_false]
        refine ⟨?_, hs2⟩
        rw [checkUpTo32_succ, ← hs1])
  exact ⟨key.1.trans (checkAll32_eq coll b).symm, key.2⟩

/-- The counter of the instrumented check loop counts the rectangles that collide. -/
theorem updateCalls32_eq (coll : Collision) (b : Game) :
    updateCalls32 coll b = ((Finset.range 200).filter (fun i =>
      coll b.floppy.position (f32 (b.floppy.radius : ℚ)) (b.tubes i).rect = true)).card :=
  (countedLoop32_eq coll b).2

/-- C17, amended: in every state of the machine program both rectangles of a pair are at the
gap's x, the bottom one at `600 + top y - 255` with the top y between -120 and 0, and an
unpaused tick of a running game keeps this and sets every gap x to the `float` nearest to
`x - tubesSpeedX`. As long as the first gap is not further left than -2^22 nothing is
rounded: consecutive gaps are exactly 280 apart before and after the tick, and the tick
lowers every gap x by exactly the speed in force at its start. -/
theorem C17_field_layout_rounded (coll : Collision) (g : Game) (h : Reachable32 coll g) :
    LayoutSync g ∧
    (-4194304 ≤ (g.tubesPos 0).x → Layout g) ∧
    ∀ inp, unpausedPlaying g inp →
      LayoutSync (g.Update32 coll inp) ∧
      (∀ j, j < 100 →
        ((g.Update32 coll inp).tubesPos j).x = f32 ((g.tubesPos j).x - g.tubesSpeedX)) ∧
      (-4194304 ≤ (g.tubesPos 0).x →
        Layout (g.Update32 coll inp) ∧
        ∀ j, j < 100 → ((g.Update32 coll inp).tubesPos j).x = (g.tubesPos j).x - g.tubesSpeedX) := by
  have hinv := Reachable32_inv coll g h
  have hrange := Inv32_score_range g hinv
  have hsp := Inv32_speed g hinv
  obtain ⟨-, -, -, hsync, hnear, -⟩ := hinv
  refine ⟨LayoutSync_of_fieldSync g hsync,
    fun hx => Layout_of_fieldInv g (FieldInv_of_sync g hsync (hnear hx)), ?_⟩
  intro inp hu
  have hinv2 := Reachable32_inv coll _ (Reachable32.update inp h)
  have hpos := Update32_tubesPos coll g inp hu (by omega) (by omega)
  refine ⟨LayoutSync_of_fieldSync _ hinv2.2.2.2.1, ?_, ?_⟩
  · intro j hj
    rw [hpos]
    exact (beforeChecks32_tubesPos g inp j hj).1
  · intro hx
    have hex := ExactField_beforeChecks32 g inp (hnear hx) hx hsp
    refine ⟨?_, ?_⟩
    · exact Layout_of_fieldInv _ (FieldInv_of_sync _ hinv2.2.2.2.1
        (ExactField_of_tubesPos _ _ hpos hex.1))
    · intro j hj
      rw [hpos]
      exact hex.2 j hj

/-- C8, amended: in a tick of a running, unpaused game of the machine program in which a
collision is detected, `gameOver` is set, the check loop with a counter in its collision
branch computes the state of the tick, and `UpdateHighScores` runs once for every one of the
200 rectangles that collides, hence at least once. As long as the first gap is not further
left than -2^22 before the tick, exactly one rectangle collides (for any collision test that
only reports rectangles within the radius of the centre), `UpdateHighScores` runs exactly
once, and the ledger becomes the old ledger with the final score of the tick inserted. -/
theorem C8_ledger_updates_rounded (coll : Collision) (hsound : CollisionSound coll) (g : Game)
    (inp : Input) (hr : Reachable32 coll g) (hu : unpausedPlaying g inp)
    (hc : ∃ i, i < 200 ∧
      coll (g.floppy.Update32 inp).position 20 ((g.beforeChecks32 inp).tubes i).rect = true) :
    (g.Update32 coll inp).gameOver = true ∧
    ((List.range (MAX_TUBES * 2)).foldl (Game.checkStepCounted32 coll)
      (Game.beforeChecks32 { g with pause := false } inp, 0)).1 = g.Update32 coll inp ∧
    updateCalls32 coll (Game.beforeChecks32 { g with pause := false } inp)
      = ((Finset.range 200).filter (fun i =>
        coll (g.floppy.Update32 inp).position 20 ((g.beforeChecks32 inp).tubes i).rect
          = true)).card ∧
    1 ≤ updateCalls32 coll (Game.beforeChecks32 { g with pause := false } inp) ∧
    (-4194304 ≤ (g.tubesPos 0).x →
      (∃ i, i < 200 ∧ ∀ k, k < 200 →
        (coll (g.floppy.Update32 inp).position 20 ((g.beforeChecks32 inp).tubes k).rect = true
          ↔ k = i)) ∧
      updateCalls32 coll (Game.beforeChecks32 { g with pause := false } inp) = 1 ∧
      (g.Update32 coll inp).highScores
        = specRecord g.highScores (g.Update32 coll inp).score) := by
  obtain ⟨i0, hi0, hc0⟩ := hc
  have hinv := Reachable32_inv coll g hr
  have hrange := Inv32_score_range g hinv
  have hsp := Inv32_speed g hinv
  obtain ⟨hled, -, -, hsync, hnear, -⟩ := hinv
  have hf := beforeChecks32_fields g inp
  have h20 : f32 (((20 : Int) : ℚ)) = 20 := by
    have := f32_intCast 20 (by norm_num)
    exact_mod_cast this
  have hradb : (g.beforeChecks32 inp).floppy.radius = 20 := by
    rw [hf.1, Floppy_Update32_radius]
    exact hsync.1
  -- the collision test as the loop evaluates it
  have hcb : ∀ k, conv32 coll ({ g.beforeChecks32 inp with pause := false } : Game).floppy.position
      ((({ g.beforeChecks32 inp with pause := false } : Game).floppy.radius : Int) : ℚ)
      (({ g.beforeChecks32 inp with pause := false } : Game).tubes k).rect
      = coll (g.floppy.Update32 inp).position 20 ((g.beforeChecks32 inp).tubes k).rect := by
    intro k
    show conv32 coll (g.beforeChecks32 inp).floppy.position
      (((g.beforeChecks32 inp).floppy.radius : Int) : ℚ) ((g.beforeChecks32 inp).tubes k).rect = _
    rw [hradb, hf.1]
    exact conv32_twenty coll _ _
  have hcalls : updateCalls32 coll (Game.beforeChecks32 { g with pause := false } inp)
      = ((Finset.range 200).filter (fun i =>
        coll (g.floppy.Update32 inp).position 20 ((g.beforeChecks32 inp).tubes i).rect
          = true)).card := by
    rw [updateCalls32_eq, beforeChecks32_pause]
    congr 1
    apply Finset.filter_congr
    intro k _
    show coll (g.beforeChecks32 inp).floppy.position
      (f32 (((g.beforeChecks32 inp).floppy.radius : Int) : ℚ))
      ((g.beforeChecks32 inp).tubes k).rect = true ↔ _
    rw [hradb, h20, hf.1]
  have hover : (g.Update32 coll inp).gameOver = true := by
    rw [Update32_tick coll g inp hu (by omega) (by omega)]
    exact (checkUpTo_gameOver (conv32 coll) _ 200).mpr (Or.inr ⟨i0, hi0, (hcb i0).trans hc0⟩)
  refine ⟨hover, (countedLoop32_eq coll _).1.trans (Update32_unpaused coll g inp hu).symm,
    hcalls, ?_, ?_⟩
  · rw [hcalls]
    apply Finset.card_pos.mpr
    exact ⟨i0, by simp [hi0, hc0]⟩
  · intro hx
    have hex := ExactField_beforeChecks32 g inp (hnear hx) hx hsp
    have hinvb : FieldInv (g.beforeChecks32 inp) :=
      FieldInv_of_sync _ (FieldSync_beforeChecks32 g inp hsync) hex.1
    have hcoll : ∀ k, coll (g.beforeChecks32 inp).floppy.position
        (((g.beforeChecks32 inp).floppy.radius : Int) : ℚ) ((g.beforeChecks32 inp).tubes k).rect
        = coll (g.floppy.Update32 inp).position 20 ((g.beforeChecks32 inp).tubes k).rect := by
      intro k
      rw [hradb, hf.1]
      norm_num
    have huniq : ∀ k, k < 200 →
        (coll (g.floppy.Update32 inp).position 20 ((g.beforeChecks32 inp).tubes k).rect = true
          ↔ k = i0) := by
      intro k hk
      constructor
      · intro hck
        exact collision_unique coll hsound _ hinvb k i0 hk hi0
          ((hcoll k).trans hck) ((hcoll i0).trans hc0)
      · intro hk0
        rw [hk0]
        exact hc0
    have hsingle := checkUpTo_single_hit (conv32 coll)
      { g.beforeChecks32 inp with pause := false } 200 i0 hi0 ((hcb i0).trans hc0)
      (by
        intro i hi hne
        rw [hcb i]
        cases hv : coll (g.floppy.Update32 inp).position 20
            ((g.beforeChecks32 inp).tubes i).rect with
        | false => rfl
        | true => exact absurd ((huniq i hi).mp hv) hne)
    refine ⟨⟨i0, hi0, huniq⟩, ?_, ?_⟩
    · rw [hcalls, Finset.card_eq_one]
      refine ⟨i0, ?_⟩
      ext k
      simp only [Finset.mem_filter, Finset.mem_range, Finset.mem_singleton]
      constructor
      · rintro ⟨hk, hck⟩
        exact (huniq k hk).mp hck
      · intro hk0
        rw [hk0]
        exact ⟨hi0, hc0⟩
    · rw [Update32_tick coll g inp hu (by omega) (by omega), hsingle.2.1]
      generalize (Game.checkUpTo (conv32 coll) _ 200).score = sc
      show recorded (g.beforeChecks32 inp).highScores sc = _
      rw [hf.2.2.2.2.2.1]
      exact recorded_eq_specRecord g.highScores sc hled.2

/-- C20, amended: in a tick of the machine program that does not call `Init` the score
grows by 100 for every pair newly scored. As long as the first gap is not further left than
-2^22 before the tick, at most one pair is newly scored, so the score changes by 0 or by
exactly 100: in a running game every unscored pair is at or to the right of the player, the
gaps are 280 apart, the field moves left by at most 4 and the player right by at most 3. -/
theorem C20_pairs_per_tick_rounded (coll : Collision) (g : Game) (inp : Input)
    (h : Reachable32 coll g) (hn : ¬ callsInit g inp) :
    (g.Update32 coll inp).score =
      g.score + 100 * ((newlyScored g.tubes (g.Update32 coll inp).tubes).card : Int) ∧
    ((g.gameOver = false ∧ g.gameStarted = true) →
      ∀ j, j < 100 → (g.tubes j).active = true → g.floppy.position.x ≤ (g.tubesPos j).x) ∧
    g.tubesSpeedX ≤ 4 ∧
    (-4194304 ≤ (g.tubesPos 0).x →
      (newlyScored g.tubes (g.Update32 coll inp).tubes).card ≤ 1 ∧
      ((g.Update32 coll inp).score = g.score ∨ (g.Update32 coll inp).score = g.score + 100) ∧
      (∀ j, j + 1 < 100 → (g.tubesPos (j + 1)).x - (g.tubesPos j).x = 280)) := by
  have hinv := Reachable32_inv coll g h
  have hrange := Inv32_score_range g hinv
  have hsp := Inv32_speed g hinv
  obtain ⟨-, -, hspd, hsync, hnear, hahead⟩ := hinv
  have hscore := Update32_score coll g inp hn (by omega) (by omega)
  have hs4 : g.tubesSpeedX ≤ 4 := by
    rw [hspd]
    exact speedTier_le g.score
  refine ⟨hscore, hahead, hs4, ?_⟩
  intro hx
  have hexact := hnear hx
  have hcard : (newlyScored g.tubes (g.Update32 coll inp).tubes).card ≤ 1 := by
    by_cases hu : unpausedPlaying g inp
    · have hex := ExactField_beforeChecks32 g inp hexact hx hsp
      have hf := beforeChecks32_fields g inp
      obtain ⟨⟨k0, hk0⟩, hle, hsp280⟩ := hexact
      have hk1 : -8388608 ≤ k0 := by
        have : (-8388608 : ℚ) ≤ (k0 : ℚ) := by
          rw [hk0] at hx
          linarith
        exact_mod_cast this
      have hk2 : k0 ≤ 800 := by
        have : (k0 : ℚ) ≤ 800 := by
          rw [hk0] at hle
          linarith
        exact_mod_cast this
      have key : ∀ j, j ∈ newlyScored g.tubes (g.Update32 coll inp).tubes →
          j < 100 ∧ g.floppy.position.x ≤ (g.tubesPos j).x ∧
            (g.tubesPos j).x - g.tubesSpeedX < (g.floppy.Update32 inp).position.x := by
        intro j hj
        simp only [newlyScored, Finset.mem_filter, Finset.mem_range] at hj
        obtain ⟨hj100, hact, hflip⟩ := hj
        have hj1 : j < 100 := hj100
        rw [Update32_tick coll g inp hu (by omega) (by omega)] at hflip
        have hfl := checkUpTo_flip (conv32 coll) { g.beforeChecks32 inp with pause := false }
          200 j ((beforeChecks32_active g inp j).trans hact) hflip
        have hxj : ((g.beforeChecks32 inp).tubesPos j).x < (g.beforeChecks32 inp).floppy.position.x :=
          hfl.2.1
        rw [hex.2 j hj1, hf.1] at hxj
        exact ⟨hj1, hahead ⟨hu.2.1, hu.1⟩ j hj1 hact, hxj⟩
      rw [Finset.card_le_one]
      have pair : ∀ a b : Nat, a < b →
          a ∈ newlyScored g.tubes (g.Update32 coll inp).tubes →
          b ∈ newlyScored g.tubes (g.Update32 coll inp).tubes → False := by
        intro a b hab ha hb
        obtain ⟨ha1, ha2, -⟩ := key a ha
        obtain ⟨hb1, -, hb3⟩ := key b hb
        have hxa := hsp280 a ha1
        have hxb := hsp280 b hb1
        have hq : (a : ℚ) + 1 ≤ (b : ℚ) := by exact_mod_cast hab
        have hfa : f32 (g.tubesPos a).x = (g.tubesPos a).x := by
          rw [hxa, hk0]
          have e : (k0 : ℚ) / 2 + 280 * (a : ℚ) = ((k0 + 560 * (a : Int) : Int) : ℚ) / 2 := by
            push_cast
            ring
          rw [e]
          exact f32_half _ (by rw [abs_lt]; constructor <;> norm_num <;> omega)
        have hfa3 : f32 ((g.tubesPos a).x + 3) = (g.tubesPos a).x + 3 := by
          rw [hxa, hk0]
          have e : (k0 : ℚ) / 2 + 280 * (a : ℚ) + 3
              = ((k0 + 560 * (a : Int) + 6 : Int) : ℚ) / 2 := by
            push_cast
            ring
          rw [e]
          exact f32_half _ (by rw [abs_lt]; constructor <;> norm_num <;> omega)
        have hpx := Floppy_Update32_x_le g.floppy inp (g.tubesPos a).x hfa hfa3 ha2
        rw [hxb] at hb3
        rw [hxa] at hpx
        linarith
      intro a ha b hb
      rcases Nat.lt_trichotomy a b with hlt | heq | hgt
      · exact absurd (pair a b hlt ha hb) id
      · exact heq
      · exact absurd (pair b a hgt hb ha) id
    · have htubes : (g.Update32 coll inp).tubes = g.tubes := by
        by_cases hrun : g.gameOver = false ∧ g.gameStarted = true
        · cases hp : (if inp.keyP then !g.pause else g.pause) with
          | true => rw [Update32_paused coll g inp hrun.2 hrun.1 hp]
          | false => exact absurd ⟨hrun.2, hrun.1, hp⟩ hu
        · cases he : inp.keyEnter with
          | true => exact absurd ⟨hrun, he⟩ hn
          | false => rw [Update32_idle coll g inp hrun he]
      rw [htubes, newlyScored_self]
      simp
  refine ⟨hcard, ?_, ?_⟩
  · rw [hscore]
    have : (newlyScored g.tubes (g.Update32 coll inp).tubes).card = 0 ∨
        (newlyScored g.tubes (g.Update32 coll inp).tubes).card = 1 := by omega
    rcases this with h0 | h1
    · left
      rw [h0]
      simp
    · right
      rw [h1]
      simp
  · intro j hj
    rw [hexact.2.2 (j + 1) hj, hexact.2.2 j (by omega)]
    push_cast
    ring

/-! ### Scoring and colliding at the first pair in machine arithmetic -/

theorem approach32_64 : approach32 64 = fieldState 272 (fallY 64) (gapX 64) := by
  rw [approach32_eq 64 le_rfl]
  norm_num

theorem approach32_64_unpaused (inp : Input) (hp : inp.keyP = false) :
    unpausedPlaying (approach32 64) inp := by
  rw [approach32_64]
  exact fieldState_unpaused _ _ _ inp hp

theorem approach32_64_near : -4194304 ≤ ((approach32 64).tubesPos 0).x := by
  rw [approach32_64, fieldState_pos _ _ _ 0 (by omega)]
  unfold gapX
  norm_num

theorem approach32_64_score : (approach32 64).score = 0 := by
  rw [approach32_64]
  rfl

theorem fieldState_pause (px py : ℚ) (gx : Nat → ℚ) :
    ({ fieldState px py gx with pause := false } : Game) = fieldState px py gx := rfl

/-- The state with which the tick after `approach32 64`, D held, enters the check loop. -/
theorem approach32_scoring_before :
    ({ (approach32 64).beforeChecks32 rightKey with pause := false } : Game)
      = fieldState 275 (fallY 65) (gapX 65) := by
  rw [approach32_64, fieldState_before, fieldState_pause]
  have hf := Floppy_Update32_right 272 (by norm_num) 64 (by omega)
  norm_num at hf
  rw [hf, fieldState_congr _ _ _ (gapX 65) (fun j hj => gapX_step 64 j hj (by omega))]

theorem approach32_clear_65 (k : Nat) (hk : k < 200) :
    clampCollision (fieldState 275 (fallY 65) (gapX 65)).floppy.position
      (((fieldState 275 (fallY 65) (gapX 65)).floppy.radius : Int) : ℚ)
      ((fieldState 275 (fallY 65) (gapX 65)).tubes k).rect = false := by
  have h := approach32_clear 65 le_rfl k hk
  have e : (80 : ℚ) + 3 * ((65 : Nat) : ℚ) = 275 := by norm_num
  rw [e] at h
  exact h

theorem approach32_scoring_eq :
    (approach32 64).Update32 clampCollision rightKey
      = scored (fieldState 275 (fallY 65) (gapX 65)) 0 := by
  rw [Update32_tick clampCollision _ rightKey (approach32_64_unpaused rightKey rfl)
    (by rw [approach32_64_score]; norm_num) (by rw [approach32_64_score]; norm_num),
    approach32_scoring_before]
  apply fieldState_scoreFirst (conv32 clampCollision) _ _ _ _ _ _ 200 (by omega) le_rfl
  · unfold gapX
    norm_num
  · intro j h1 _
    have : (1 : ℚ) ≤ (j : ℚ) := by exact_mod_cast h1
    unfold gapX
    push_cast
    linarith
  · intro k hk
    rw [fieldState_check]
    exact approach32_clear_65 k hk

theorem approach32_scoring :
    ((approach32 64).tubes 0).active = true ∧
    (((approach32 64).Update32 clampCollision rightKey).tubes 0).active = false ∧
    ((approach32 64).Update32 clampCollision rightKey).score = 100 ∧
    ((approach32 64).hiScore = 0 ∧
      ((approach32 64).Update32 clampCollision rightKey).hiScore = 100) ∧
    (newlyScored (approach32 64).tubes
      ((approach32 64).Update32 clampCollision rightKey).tubes).card = 1 := by
  have hact : ∀ j, ((approach32 64).tubes j).active = true := by
    intro j
    rw [approach32_64]
    exact fieldState_active _ _ _ j
  have hsc : ∀ j, (((approach32 64).Update32 clampCollision rightKey).tubes j).active
      = if j = 0 then false else true := by
    intro j
    rw [approach32_scoring_eq, scored_active]
    by_cases hj : j = 0
    · simp [hj]
    · simp only [hj, if_false]
      exact fieldState_active _ _ _ j
  refine ⟨hact 0, by rw [hsc]; rfl, ?_, ⟨?_, ?_⟩, ?_⟩
  · rw [approach32_scoring_eq]
    rfl
  · rw [approach32_64]
    rfl
  · rw [approach32_scoring_eq]
    simp [scored, fieldState]
  · have : newlyScored (approach32 64).tubes
        ((approach32 64).Update32 clampCollision rightKey).tubes = {0} := by
      ext j
      simp only [newlyScored, Finset.mem_filter, Finset.mem_range, Finset.mem_singleton, hsc,
        hact, MAX_TUBES]
      by_cases hj : j = 0 <;> simp [hj]
    rw [this]
    rfl

theorem Floppy_Update32_upRight (x : Int) (hx : |x + 3| < 2 ^ 24) (n : Nat) (hn : n < 250) :
    ((Floppy.mk ⟨(x : ℚ), fallY n⟩ 20).Update32 upRightKey).position
      = ⟨((x + 3 : Int) : ℚ), fallY (n + 1) - 3⟩ := by
  have hg := gravity_step n hn
  have hx3 : f32 ((x : ℚ) + 3) = ((x + 3 : Int) : ℚ) := by
    have := f32_intCast (x + 3) hx
    push_cast at this ⊢
    exact this
  have hy3 : f32 (fallY (n + 1) - 3) = fallY (n + 1) - 3 := by
    unfold fallY
    have e : (((6717440 + 29491 * (n + 1) : Nat) : ℚ)) / 32768 - 3
        = ((6717440 + 29491 * ((n : Int) + 1) - 98304 : Int) : ℚ) / 32768 := by
      push_cast
      ring
    rw [e]
    exact f32_grid15 _ (by rw [abs_lt]; constructor <;> norm_num <;> omega)
  simp only [Floppy.Update32, upRightKey, Bool.false_eq_true, if_false, if_true, floor32_eq,
    hg.1, hx3, hy3]
  rw [if_neg (by rw [ge_iff_le, not_le]; linarith [hg.2])]

/-- The tick after `approach32 64` with W and D held finds the player on the top rectangle
of the first pair. -/
theorem approach32_hit :
    clampCollision ((approach32 64).floppy.Update32 upRightKey).position 20
      (((approach32 64).beforeChecks32 upRightKey).tubes 0).rect = true := by
  rw [approach32_64, fieldState_before, (fieldState_tube _ _ _ 0 (by omega)).1]
  have hf := Floppy_Update32_upRight 272 (by norm_num) 64 (by omega)
  have hfl : (fieldState 272 (fallY 64) (gapX 64)).floppy = ⟨⟨272, fallY 64⟩, 20⟩ := rfl
  norm_num at hf
  rw [hfl, hf, gapX_step 64 (0 / 2) (by omega) (by omega)]
  norm_num [clampCollision, distSq, closestPoint, max_def, min_def, fallY, gapX]

theorem C15_witness :
    ¬ callsInit (approach32 64) rightKey ∧ -2147483648 ≤ (approach32 64).score ∧
    (approach32 64).score ≤ 2147473547 ∧ Reachable32 clampCollision (approach32 64) ∧
    ((approach32 64).score = 0 ∧
      ((approach32 64).Update32 clampCollision rightKey).score = 100) ∧
    ((approach32 64).hiScore = 0 ∧
      ((approach32 64).Update32 clampCollision rightKey).hiScore = 100) ∧
    ((approach32 64).Update32 clampCollision rightKey).hiScore ≥ (approach32 64).hiScore ∧
    ((approach32 64).Update32 clampCollision rightKey).score ≥ (approach32 64).score ∧
    (0 ≤ (approach32 64).score ∧ (approach32 64).score ≤ 10000) :=
  have hn : ¬ callsInit (approach32 64) rightKey := fun h => absurd h.2 (by decide)
  have h1 : -2147483648 ≤ (approach32 64).score := by rw [approach32_64_score]; norm_num
  have h2 : (approach32 64).score ≤ 2147473547 := by rw [approach32_64_score]; norm_num
  ⟨hn, h1, h2, approach32_reachable 64, ⟨approach32_64_score, approach32_scoring.2.2.1⟩,
    approach32_scoring.2.2.2.1,
    (C15_scores_monotone_in_range clampCollision (approach32 64) rightKey).1,
    (C15_scores_monotone_in_range clampCollision (approach32 64) rightKey).2.1 hn h1 h2,
    (C15_scores_monotone_in_range clampCollision (approach32 64) rightKey).2.2
      (approach32_reachable 64)⟩

theorem C17_witness :
    Reachable32 clampCollision (approach32 64) ∧ unpausedPlaying (approach32 64) rightKey ∧
    -4194304 ≤ ((approach32 64).tubesPos 0).x ∧
    LayoutSync (approach32 64) ∧ Layout (approach32 64) ∧
    LayoutSync ((approach32 64).Update32 clampCollision rightKey) ∧
    (∀ j, j < 100 → (((approach32 64).Update32 clampCollision rightKey).tubesPos j).x
      = f32 (((approach32 64).tubesPos j).x - (approach32 64).tubesSpeedX)) ∧
    Layout ((approach32 64).Update32 clampCollision rightKey) ∧
    ∀ j, j < 100 → (((approach32 64).Update32 clampCollision rightKey).tubesPos j).x
      = ((approach32 64).tubesPos j).x - (approach32 64).tubesSpeedX :=
  have h := C17_field_layout_rounded clampCollision (approach32 64) (approach32_reachable 64)
  have hu := approach32_64_unpaused rightKey rfl
  ⟨approach32_reachable 64, hu, approach32_64_near, h.1, h.2.1 approach32_64_near,
    (h.2.2 rightKey hu).1, (h.2.2 rightKey hu).2.1,
    ((h.2.2 rightKey hu).2.2 approach32_64_near).1,
    ((h.2.2 rightKey hu).2.2 approach32_64_near).2⟩

theorem C8_witness :
    CollisionSound clampCollision ∧ Reachable32 clampCollision (approach32 64) ∧
    unpausedPlaying (approach32 64) upRightKey ∧
    (∃ i, i < 200 ∧ clampCollision ((approach32 64).floppy.Update32 upRightKey).position 20
      (((approach32 64).beforeChecks32 upRightKey).tubes i).rect = true) ∧
    -4194304 ≤ ((approach32 64).tubesPos 0).x ∧
    ((approach32 64).Update32 clampCollision upRightKey).gameOver = true ∧
    ((List.range (MAX_TUBES * 2)).foldl (Game.checkStepCounted32 clampCollision)
      (Game.beforeChecks32 { approach32 64 with pause := false } upRightKey, 0)).1
      = (approach32 64).Update32 clampCollision upRightKey ∧
    1 ≤ updateCalls32 clampCollision
      (Game.beforeChecks32 { approach32 64 with pause := false } upRightKey) ∧
    (∃ i, i < 200 ∧ ∀ k, k < 200 →
      (clampCollision ((approach32 64).floppy.Update32 upRightKey).position 20
        (((approach32 64).beforeChecks32 upRightKey).tubes k).rect = true ↔ k = i)) ∧
    updateCalls32 clampCollision
      (Game.beforeChecks32 { approach32 64 with pause := false } upRightKey) = 1 ∧
    ((approach32 64).Update32 clampCollision upRightKey).highScores
      = specRecord (approach32 64).highScores
        ((approach32 64).Update32 clampCollision upRightKey).score :=
  have hu := approach32_64_unpaused upRightKey rfl
  have hc : ∃ i, i < 200 ∧
      clampCollision ((approach32 64).floppy.Update32 upRightKey).position 20
        (((approach32 64).beforeChecks32 upRightKey).tubes i).rect = true :=
    ⟨0, by omega, approach32_hit⟩
  have h := C8_ledger_updates_rounded clampCollision clampCollision_sound (approach32 64)
    upRightKey (approach32_reachable 64) hu hc
  ⟨clampCollision_sound, approach32_reachable 64, hu, hc, approach32_64_near, h.1, h.2.1,
    h.2.2.2.1, (h.2.2.2.2 approach32_64_near).1, (h.2.2.2.2 approach32_64_near).2.1,
    (h.2.2.2.2 approach32_64_near).2.2⟩

theorem C20_witness :
    Reachable32 clampCollision (approach32 64) ∧ ¬ callsInit (approach32 64) rightKey ∧
    -4194304 ≤ ((approach32 64).tubesPos 0).x ∧
    ((approach32 64).score = 0 ∧
      ((approach32 64).Update32 clampCollision rightKey).score = 100) ∧
    (newlyScored (approach32 64).tubes
      ((approach32 64).Update32 clampCollision rightKey).tubes).card = 1 ∧
    ((approach32 64).Update32 clampCollision rightKey).score =
      (approach32 64).score + 100 * ((newlyScored (approach32 64).tubes
        ((approach32 64).Update32 clampCollision rightKey).tubes).card : Int) ∧
    (approach32 64).tubesSpeedX ≤ 4 ∧
    (newlyScored (approach32 64).tubes
      ((approach32 64).Update32 clampCollision rightKey).tubes).card ≤ 1 ∧
    (((approach32 64).Update32 clampCollision rightKey).score = (approach32 64).score ∨
      ((approach32 64).Update32 clampCollision rightKey).score = (approach32 64).score + 100) ∧
    (∀ j, j + 1 < 100 →
      ((approach32 64).tubesPos (j + 1)).x - ((approach32 64).tubesPos j).x = 280) :=
  have hn : ¬ callsInit (approach32 64) rightKey := fun h => absurd h.2 (by decide)
  have h := C20_pairs_per_tick_rounded clampCollision (approach32 64) rightKey
    (approach32_reachable 64) hn
  ⟨approach32_reachable 64, hn, approach32_64_near,
    ⟨approach32_64_score, approach32_scoring.2.2.1⟩, approach32_scoring.2.2.2.2, h.1, h.2.2.1,
    (h.2.2.2 approach32_64_near).1, (h.2.2.2 approach32_64_near).2.1,
    (h.2.2.2 approach32_64_near).2.2⟩

/-! ### Seventeen million ticks to the left -/

theorem retreat_zero : retreat 0 = game0.Update32 clampCollision enter13 := rfl

theorem retreat_succ (n : Nat) :
    retreat (n + 1) = (retreat n).Update32 clampCollision leftKey := rfl

theorem comeBack_zero : comeBack 0 = retreat 16800000 := rfl

theorem comeBack_succ (m : Nat) :
    comeBack (m + 1) = (comeBack m).Update32 clampCollision rightKey := rfl

theorem climb_zero : climb 0 = comeBack 7013194 := rfl

theorem climb_succ (k : Nat) :
    climb (k + 1) = (climb k).Update32 clampCollision upRightKey := rfl

attribute [irreducible] retreat comeBack climb

theorem retreat_reachable (n : Nat) : Reachable32 clampCollision (retreat n) := by
  induction n with
  | zero =>
    rw [retreat_zero]
    exact Reachable32.update enter13 (game0_reachable32 clampCollision)
  | succ k ih =>
    rw [retreat_succ]
    exact Reachable32.update leftKey ih

theorem comeBack_reachable (m : Nat) : Reachable32 clampCollision (comeBack m) := by
  induction m with
  | zero =>
    rw [comeBack_zero]
    exact retreat_reachable _
  | succ k ih =>
    rw [comeBack_succ]
    exact Reachable32.update rightKey ih

theorem climb_reachable (k : Nat) : Reachable32 clampCollision (climb k) := by
  induction k with
  | zero =>
    rw [climb_zero]
    exact comeBack_reachable _
  | succ k ih =>
    rw [climb_succ]
    exact Reachable32.update upRightKey ih

theorem f32_intCast_le (n : Int) (h : |n| ≤ 2 ^ 24) : f32 (n : ℚ) = n := by
  rcases lt_or_eq_of_le h with hlt | heq
  · exact f32_intCast n hlt
  · have hn : n = 16777216 ∨ n = -16777216 := by
      norm_num at heq
      rcases abs_eq (by norm_num : (0 : Int) ≤ 16777216) |>.mp heq with h1 | h1
      · exact Or.inl h1
      · exact Or.inr h1
    rcases hn with rfl | rfl
    · have := f32_exact 1 24 (by norm_num) (by norm_num)
      norm_num at this ⊢
      exact this
    · have := f32_exact (-1) 24 (by norm_num) (by norm_num)
      norm_num at this ⊢
      exact this

/-- The player's x under A: one step of the closed form. -/
theorem retreatX_step (n : Nat) (hn : n < 18175343) :
    f32 (((retreatX n : Int) : ℚ) - 3) = ((retreatX (n + 1) : Int) : ℚ) := by
  unfold retreatX
  by_cases h1 : n + 1 ≤ 5592432
  · have h2 : n ≤ 5592432 := by omega
    rw [if_pos h1, if_pos h2]
    have e : ((80 - 3 * (n : Int) : Int) : ℚ) - 3 = ((80 - 3 * ((n + 1 : Nat) : Int) : Int) : ℚ) := by
      push_cast
      ring
    rw [e]
    exact f32_intCast_le _ (by rw [abs_le]; constructor <;> norm_num <;> omega)
  · rw [if_neg h1]
    by_cases h2 : n ≤ 5592432
    · have hn2 : n = 5592432 := by omega
      subst hn2
      rw [if_pos (le_refl _)]
      have := f32_left_far (-4194304) (by norm_num) (by norm_num)
      norm_num at this ⊢
      exact this
    · rw [if_neg h2]
      have := f32_left_far (-4194304 - ((n : Int) - 5592432)) (by omega) (by omega)
      have e1 : ((4 * (-4194304 - ((n : Int) - 5592432)) : Int) : ℚ)
          = ((-16777216 - 4 * ((n : Int) - 5592432) : Int) : ℚ) := by
        push_cast
        ring
      have e2 : ((4 * (-4194304 - ((n : Int) - 5592432)) - 4 : Int) : ℚ)
          = ((-16777216 - 4 * (((n + 1 : Nat) : Int) - 5592432) : Int) : ℚ) := by
        push_cast
        ring
      rw [e1, e2] at this
      exact this

/-- The player's height under gravity alone: one step of the closed form, the floor
included. -/
theorem retreatY_step (n : Nat) :
    (if f32 (retreatY n + GRAVITY32) ≥ 430 then 430 else f32 (retreatY n + GRAVITY32))
      = retreatY (n + 1) := by
  unfold retreatY
  by_cases h1 : n + 1 ≤ 250
  · have h2 : n ≤ 250 := by omega
    have hg := gravity_step n (by omega)
    rw [if_pos h1, if_pos h2, hg.1, if_neg (by rw [ge_iff_le, not_le]; exact hg.2)]
  · rw [if_neg h1]
    by_cases h2 : n ≤ 250
    · have hn2 : n = 250 := by omega
      subst hn2
      rw [if_pos (le_refl _)]
      have hg : f32 (fallY 250 + GRAVITY32) = 14119681 / 32768 := by
        unfold fallY
        have := f32_gravity 14090190 (by norm_num) (by norm_num)
        norm_num at this ⊢
        exact this
      rw [hg, if_pos (by norm_num)]
    · rw [if_neg h2]
      have hg : f32 (430 + GRAVITY32) = 14119731 / 32768 := by
        have := f32_gravity 14090240 (by norm_num) (by norm_num)
        norm_num at this ⊢
        exact this
      rw [hg, if_pos (by norm_num)]

/-- A gap at speed 2: one step of the closed form, the stall at -2^25 included. -/
theorem stallX_step (n j : Nat) (hj : j < 100) :
    f32 (((stallX n j : Int) : ℚ) - 2) = ((stallX (n + 1) j : Int) : ℚ) := by
  unfold stallX
  by_cases h : -33554432 ≤ 400 + 280 * (j : Int) - 2 * (n : Int)
  · rw [max_eq_left h]
    have := f32_gap_step (200 + 140 * (j : Int) - (n : Int)) (by omega) (by omega)
    have e1 : ((2 * (200 + 140 * (j : Int) - (n : Int)) : Int) : ℚ)
        = ((400 + 280 * (j : Int) - 2 * (n : Int) : Int) : ℚ) := by
      push_cast
      ring
    have e2 : max (2 * (200 + 140 * (j : Int) - (n : Int)) - 2) (-33554432)
        = max (400 + 280 * (j : Int) - 2 * ((n + 1 : Nat) : Int)) (-33554432) := by
      congr 1
      push_cast
      ring
    rw [e1, e2] at this
    exact this
  · rw [max_eq_right (by omega), max_eq_right (by push_cast; omega)]
    have := f32_absorb
    norm_num at this ⊢
    exact this

theorem Floppy_Update32_left (n : Nat) (hn : n < 18175343) :
    ((Floppy.mk ⟨((retreatX n : Int) : ℚ), retreatY n⟩ 20).Update32 leftKey).position
      = ⟨((retreatX (n + 1) : Int) : ℚ), retreatY (n + 1)⟩ := by
  simp only [Floppy.Update32, leftKey, Bool.false_eq_true, if_false, if_true, floor32_eq,
    retreatX_step n hn, retreatY_step n]

theorem retreat_ahead (n j : Nat) : retreatX n + 20 ≤ stallX n j := by
  unfold retreatX stallX
  have h := le_max_left (400 + 280 * (j : Int) - 2 * (n : Int)) (-33554432)
  split <;> omega

/-- The run `retreat` in closed form, for the first 18175343 ticks. -/
theorem retreat_eq (n : Nat) (hn : n ≤ 18175343) :
    retreat n = fieldState ((retreatX n : Int) : ℚ) (retreatY n)
      (fun j => ((stallX n j : Int) : ℚ)) := by
  induction n with
  | zero =>
    rw [retreat_zero, enter32_eq]
    have h1 : ((retreatX 0 : Int) : ℚ) = 80 := by
      unfold retreatX
      norm_num
    have h2 : retreatY 0 = 205 := by
      unfold retreatY
      rw [if_pos (by omega), fallY_zero]
    rw [h1, h2]
    apply fieldState_congr
    intro j _
    unfold gapX stallX
    rw [max_eq_left (by omega)]
    push_cast
    ring
  | succ k ih =>
    rw [retreat_succ, ih (by omega)]
    apply fieldState_tick _ _ _ leftKey rfl
    · exact Floppy_Update32_left k (by omega)
    · intro j hj
      exact stallX_step k j hj
    · intro j _
      have := retreat_ahead (k + 1) j
      have h2 : retreatX (k + 1) ≤ stallX (k + 1) j := by omega
      exact_mod_cast h2
    · apply fieldState_noHit
      intro j _
      left
      have := retreat_ahead (k + 1) j
      exact_mod_cast this

/-! ### Back to the stalled field -/

theorem f32_floor_gravity :
    (if f32 (430 + GRAVITY32) ≥ 430 then (430 : ℚ) else f32 (430 + GRAVITY32)) = 430 := by
  have hg : f32 (430 + GRAVITY32) = 14119731 / 32768 := by
    have := f32_gravity 14090240 (by norm_num) (by norm_num)
    norm_num at this ⊢
    exact this
  rw [hg, if_pos (by norm_num)]

theorem f32_stalled : f32 ((-33554432 : ℚ) - 2) = -33554432 := f32_absorb

theorem retreat_end :
    retreat 16800000 = fieldState (-61607488) 430 (fun _ => -33554432) := by
  rw [retreat_eq 16800000 (by norm_num)]
  have h1 : ((retreatX 16800000 : Int) : ℚ) = -61607488 := by
    unfold retreatX
    norm_num
  have h2 : retreatY 16800000 = 430 := by
    unfold retreatY
    rw [if_neg (by norm_num)]
  rw [h1, h2]
  apply fieldState_congr
  intro j hj
  unfold stallX
  rw [max_eq_right (by omega)]
  norm_num

theorem comeBackX_step (m : Nat) (hm : m < 11207568) :
    f32 (((comeBackX m : Int) : ℚ) + 3) = ((comeBackX (m + 1) : Int) : ℚ) := by
  unfold comeBackX
  have := f32_right_far (-15401872 + (m : Int)) (by omega) (by omega)
  have e1 : ((4 * (-15401872 + (m : Int)) : Int) : ℚ) = ((-61607488 + 4 * (m : Int) : Int) : ℚ) := by
    push_cast
    ring
  have e2 : ((4 * (-15401872 + (m : Int)) + 4 : Int) : ℚ)
      = ((-61607488 + 4 * ((m + 1 : Nat) : Int) : Int) : ℚ) := by
    push_cast
    ring
  rw [e1, e2] at this
  exact this

theorem Floppy_Update32_back (m : Nat) (hm : m < 11207568) :
    ((Floppy.mk ⟨((comeBackX m : Int) : ℚ), 430⟩ 20).Update32 rightKey).position
      = ⟨((comeBackX (m + 1) : Int) : ℚ), 430⟩ := by
  simp only [Floppy.Update32, rightKey, Bool.false_eq_true, if_false, if_true, floor32_eq,
    comeBackX_step m hm, f32_floor_gravity]

/-- The run `comeBack` in closed form, as long as the player is 20 and more to the left of
the stalled field: the player on the floor, 4 to the right per tick, every gap at -2^25. -/
theorem comeBack_eq (m : Nat) (hm : m ≤ 7013259) :
    comeBack m = fieldState ((comeBackX m : Int) : ℚ) 430 (fun _ => -33554432) := by
  induction m with
  | zero =>
    rw [comeBack_zero, retreat_end]
    have : ((comeBackX 0 : Int) : ℚ) = -61607488 := by
      unfold comeBackX
      norm_num
    rw [this]
  | succ k ih =>
    rw [comeBack_succ, ih (by omega)]
    apply fieldState_tick _ _ _ rightKey rfl
    · exact Floppy_Update32_back k (by omega)
    · intro j _
      exact f32_stalled
    · intro j _
      have h : comeBackX (k + 1) ≤ -33554432 := by
        unfold comeBackX
        push_cast
        omega
      exact_mod_cast h
    · apply fieldState_noHit
      intro j _
      left
      have h : comeBackX (k + 1) + 20 ≤ -33554432 := by
        unfold comeBackX
        push_cast
        omega
      exact_mod_cast h

/-! ### One tick past a hundred gaps -/

theorem climbY_step (k : Nat) (hk : k ≤ 100) :
    f32 (climbY k + GRAVITY32) = climbY k + 29491 / 32768 ∧
    f32 (climbY k + 29491 / 32768 - 3) = climbY (k + 1) ∧ climbY (k + 1) < 430 := by
  unfold climbY
  refine ⟨?_, ?_, ?_⟩
  · rw [f32_gravity _ (by omega) (by omega)]
    push_cast
    ring
  · have e : ((14090240 - 68813 * (k : Int) : Int) : ℚ) / 32768 + 29491 / 32768 - 3
        = ((14090240 - 68813 * ((k + 1 : Nat) : Int) : Int) : ℚ) / 32768 := by
      push_cast
      ring
    rw [e]
    exact f32_grid15 _ (by rw [abs_lt]; constructor <;> norm_num <;> omega)
  · have : (0 : ℚ) ≤ (k : ℚ) := by positivity
    push_cast
    rw [div_lt_iff₀ (by norm_num)]
    linarith

theorem climbX_step (k : Nat) (hk : k ≤ 100) :
    f32 (((climbX k : Int) : ℚ) + 3) = ((climbX (k + 1) : Int) : ℚ) := by
  unfold climbX
  have := f32_right_far (-8388678 + (k : Int)) (by omega) (by omega)
  have e1 : ((4 * (-8388678 + (k : Int)) : Int) : ℚ) = ((-33554712 + 4 * (k : Int) : Int) : ℚ) := by
    push_cast
    ring
  have e2 : ((4 * (-8388678 + (k : Int)) + 4 : Int) : ℚ)
      = ((-33554712 + 4 * ((k + 1 : Nat) : Int) : Int) : ℚ) := by
    push_cast
    ring
  rw [e1, e2] at this
  exact this

theorem Floppy_Update32_climb (k : Nat) (hk : k ≤ 100) :
    ((Floppy.mk ⟨((climbX k : Int) : ℚ), climbY k⟩ 20).Update32 upRightKey).position
      = ⟨((climbX (k + 1) : Int) : ℚ), climbY (k + 1)⟩ := by
  have hy := climbY_step k hk
  simp only [Floppy.Update32, upRightKey, Bool.false_eq_true, if_false, if_true, floor32_eq,
    climbX_step k hk, hy.1, hy.2.1]
  rw [if_neg (by rw [ge_iff_le, not_le]; exact hy.2.2)]

theorem climbY_band (k : Nat) (h1 : 66 ≤ k) (h2 : k ≤ 71) : 262 ≤ climbY k ∧ climbY k ≤ 312 := by
  unfold climbY
  have c1 : (66 : ℚ) ≤ (k : ℚ) := by exact_mod_cast h1
  have c2 : (k : ℚ) ≤ 71 := by exact_mod_cast h2
  push_cast
  constructor
  · rw [le_div_iff₀ (by norm_num)]
    linarith
  · rw [div_le_iff₀ (by norm_num)]
    linarith

/-- The run `climb` in closed form: the player 4 to the right and 68813/32768 up per tick,
every gap at -2^25. -/
theorem climb_eq (k : Nat) (hk : k ≤ 70) :
    climb k = fieldState ((climbX k : Int) : ℚ) (climbY k) (fun _ => -33554432) := by
  induction k with
  | zero =>
    rw [climb_zero, comeBack_eq 7013194 (by norm_num)]
    have h1 : ((comeBackX 7013194 : Int) : ℚ) = ((climbX 0 : Int) : ℚ) := by
      unfold comeBackX climbX
      norm_num
    have h2 : climbY 0 = 430 := by
      unfold climbY
      norm_num
    rw [h1, h2]
  | succ i ih =>
    rw [climb_succ, ih (by omega)]
    apply fieldState_tick _ _ _ upRightKey rfl
    · exact Floppy_Update32_climb i (by omega)
    · intro j _
      exact f32_stalled
    · intro j _
      have h : climbX (i + 1) ≤ -33554432 := by
        unfold climbX
        push_cast
        omega
      exact_mod_cast h
    · apply fieldState_noHit
      intro j _
      by_cases hleft : i + 1 ≤ 65
      · left
        have h : climbX (i + 1) + 20 ≤ -33554432 := by
          unfold climbX
          push_cast
          omega
        exact_mod_cast h
      · right
        exact climbY_band (i + 1) (by omega) (by omega)

theorem climb_last : climb 70 = fieldState (-33554432) (climbY 70) (fun _ => -33554432) := by
  rw [climb_eq 70 le_rfl]
  have : ((climbX 70 : Int) : ℚ) = -33554432 := by
    unfold climbX
    norm_num
  rw [this]

theorem climb_last_unpaused : unpausedPlaying (climb 70) upRightKey := by
  rw [climb_last]
  exact fieldState_unpaused _ _ _ upRightKey rfl

theorem climb_last_before : (climb 70).beforeChecks32 upRightKey = passState := by
  rw [climb_eq 70 le_rfl, fieldState_before, Floppy_Update32_climb 70 (by omega)]
  have : ((climbX (70 + 1) : Int) : ℚ) = -33554428 := by
    unfold climbX
    norm_num
  rw [this]
  exact fieldState_congr _ _ _ _ (fun _ _ => f32_stalled)

/-- On `passState` the player touches no rectangle. -/
theorem passState_clear (k : Nat) (hk : k < 200) :
    conv32 clampCollision passState.floppy.position ((passState.floppy.radius : Int) : ℚ)
      (passState.tubes k).rect = false := by
  unfold passState
  rw [fieldState_check]
  exact fieldState_noHit _ _ _ (fun _ _ => Or.inr (climbY_band 71 (by omega) le_rfl)) k hk

/-- On `passState` the player is further than 38 from every rectangle. -/
theorem passState_far (k : Nat) (hk : k < 200) :
    passState.floppy.position = ⟨-33554428, 9204517 / 32768⟩ ∧
    distSq passState.floppy.position (passState.tubes k).rect > 38 ^ 2 := by
  unfold passState
  have hy : climbY 71 = 9204517 / 32768 := by
    unfold climbY
    norm_num
  have hpos : (fieldState (-33554428) (climbY 71) (fun _ => -33554432)).floppy.position
      = ⟨-33554428, 9204517 / 32768⟩ := by
    rw [← hy]
    rfl
  refine ⟨hpos, ?_⟩
  rw [hpos, (fieldState_tube _ _ _ k hk).1]
  by_cases hm : k % 2 = 0
  · rw [if_pos hm]
    norm_num [distSq, closestPoint, max_def, min_def]
  · rw [if_neg hm]
    norm_num [distSq, closestPoint, max_def, min_def]

/-- C20, counterexample: in machine arithmetic the gaps do not stay 280 apart. After ENTER,
16800000 ticks with A held, 7013194 ticks with D held and 70 ticks with W and D held, every
gap has stalled at -2^25 and the player is at x = -2^25 in the gap band, nothing scored. The
next tick with W and D held moves the player 4 to the right, past all 100 gaps at once, with
no collision (the player is further than 38 from every rectangle): 100 pairs are newly
scored and the score goes from 0 to 10000. -/
theorem C20_counterexample :
    Reachable32 clampCollision (climb 70) ∧ ¬ callsInit (climb 70) upRightKey ∧
    (climb 70).floppy.position = ⟨-33554432, 4636665 / 16384⟩ ∧
    ((climb 70).floppy.Update32 upRightKey).position = ⟨-33554428, 9204517 / 32768⟩ ∧
    (∀ k, k < 200 → (((climb 70).beforeChecks32 upRightKey).tubes k).rect.x = -33554432 ∧
      distSq ((climb 70).floppy.Update32 upRightKey).position
        (((climb 70).beforeChecks32 upRightKey).tubes k).rect > 38 ^ 2) ∧
    (climb 70).score = 0 ∧
    (newlyScored (climb 70).tubes
      ((climb 70).Update32 clampCollision upRightKey).tubes).card = 100 ∧
    ((climb 70).Update32 clampCollision upRightKey).score = 10000 ∧
    ¬ (((climb 70).Update32 clampCollision upRightKey).score = (climb 70).score ∨
      ((climb 70).Update32 clampCollision upRightKey).score = (climb 70).score + 100) := by
  have hn : ¬ callsInit (climb 70) upRightKey := fun h => absurd h.2 (by decide)
  have hscore0 : (climb 70).score = 0 := by
    rw [climb_last]
    rfl
  have hact : ∀ j, ((climb 70).tubes j).active = true := by
    intro j
    rw [climb_last]
    exact fieldState_active _ _ _ j
  have htick : (climb 70).Update32 clampCollision upRightKey
      = passState.checkUpTo (conv32 clampCollision) 200 := by
    rw [Update32_tick clampCollision _ upRightKey climb_last_unpaused
      (by rw [hscore0]; norm_num) (by rw [hscore0]; norm_num), climb_last_before]
    rfl
  have hflag : ∀ j, j < 100 →
      (((climb 70).Update32 clampCollision upRightKey).tubes j).active = false := by
    intro j hj
    rw [htick]
    apply checkUpTo_scores (conv32 clampCollision) passState 200 j (by omega) rfl
    · have hp : (passState.tubesPos j).x = -33554432 := by
        unfold passState
        exact fieldState_pos _ _ _ j hj
      have hq : passState.floppy.position.x = -33554428 := rfl
      rw [hp, hq]
      norm_num
    · intro i hi
      exact passState_clear i (by omega)
  have hcard : (newlyScored (climb 70).tubes
      ((climb 70).Update32 clampCollision upRightKey).tubes).card = 100 := by
    have : newlyScored (climb 70).tubes
        ((climb 70).Update32 clampCollision upRightKey).tubes = Finset.range 100 := by
      ext j
      simp only [newlyScored, Finset.mem_filter, Finset.mem_range, MAX_TUBES]
      constructor
      · intro h
        exact h.1
      · intro hj
        exact ⟨hj, hact j, hflag j hj⟩
    rw [this]
    simp
  have hs : ((climb 70).Update32 clampCollision upRightKey).score = 10000 := by
    rw [Update32_score clampCollision (climb 70) upRightKey hn
      (by rw [hscore0]; norm_num) (by rw [hscore0]; norm_num), hcard, hscore0]
    norm_num
  have hpos0 : (climb 70).floppy.position = ⟨-33554432, 4636665 / 16384⟩ := by
    rw [climb_last]
    have hy : climbY 70 = 4636665 / 16384 := by
      unfold climbY
      norm_num
    rw [← hy]
    rfl
  have hpos : ((climb 70).floppy.Update32 upRightKey).position = passState.floppy.position := by
    rw [← (beforeChecks32_fields (climb 70) upRightKey).1, climb_last_before]
  refine ⟨climb_reachable 70, hn, hpos0, hpos.trans (passState_far 0 (by omega)).1, ?_,
    hscore0, hcard, hs, ?_⟩
  · intro k hk
    rw [hpos, climb_last_before]
    refine ⟨?_, (passState_far k hk).2⟩
    unfold passState
    rw [(fieldState_tube _ _ _ k hk).1]
  · rw [hs, hscore0]
    norm_num

/-! ### A field that is no longer 280 apart -/

theorem Layout_first (g : Game) (h : Layout g) :
    (g.tubesPos 1).x - (g.tubesPos 0).x = 280 :=
  h.2 0 (by omega)

theorem retreat_stalled :
    retreat 16777417 = fieldState ((retreatX 16777417 : Int) : ℚ) (retreatY 16777417)
      (fun j => ((stallX 16777417 j : Int) : ℚ)) :=
  retreat_eq 16777417 (by norm_num)

/-- C17, counterexample: in machine arithmetic the gaps do not stay 280 apart and a tick
does not always lower them by the speed. After ENTER and 16777417 ticks with A held (the
player well to the left of every gap, nothing scored, the speed still 2) the first gap is at
-2^25 and the second only 278 to its right; the next tick leaves the first gap where it
is. -/
theorem C17_counterexample :
    Reachable32 clampCollision (retreat 16777417) ∧
    unpausedPlaying (retreat 16777417) leftKey ∧
    (retreat 16777417).tubesSpeedX = 2 ∧
    ((retreat 16777417).tubesPos 0).x = -33554432 ∧
    ((retreat 16777417).tubesPos 1).x - ((retreat 16777417).tubesPos 0).x = 278 ∧
    ¬ Layout (retreat 16777417) ∧
    (((retreat 16777417).Update32 clampCollision leftKey).tubesPos 0).x = -33554432 ∧
    (((retreat 16777417).Update32 clampCollision leftKey).tubesPos 0).x
      ≠ ((retreat 16777417).tubesPos 0).x - (retreat 16777417).tubesSpeedX := by
  have h0 : ((retreat 16777417).tubesPos 0).x = -33554432 := by
    rw [retreat_stalled, fieldState_pos _ _ _ 0 (by omega)]
    unfold stallX
    norm_num
  have h1 : ((retreat 16777417).tubesPos 1).x = -33554154 := by
    rw [retreat_stalled, fieldState_pos _ _ _ 1 (by omega)]
    unfold stallX
    norm_num
  have hsp : (retreat 16777417).tubesSpeedX = 2 := by
    rw [retreat_stalled]
    rfl
  have hnext : (((retreat 16777417).Update32 clampCollision leftKey).tubesPos 0).x
      = -33554432 := by
    rw [← retreat_succ, retreat_eq (16777417 + 1) (by norm_num),
      fieldState_pos _ _ _ 0 (by omega)]
    unfold stallX
    norm_num
  refine ⟨retreat_reachable _, ?_, hsp, h0, ?_, ?_, hnext, ?_⟩
  · rw [retreat_stalled]
    exact fieldState_unpaused _ _ _ leftKey rfl
  · rw [h0, h1]
    norm_num
  · intro hl
    have := Layout_first _ hl
    rw [h0, h1] at this
    norm_num at this
  · rw [hnext, h0, hsp]
    norm_num

/-! ### One tick onto a hundred rectangles -/

theorem glide_zero : glide 0 = climb 55 := rfl

theorem glide_succ (j : Nat) :
    glide (j + 1) = (glide j).Update32 clampCollision rightKey := rfl

attribute [irreducible] glide

theorem glide_reachable (j : Nat) : Reachable32 clampCollision (glide j) := by
  induction j with
  | zero =>
    rw [glide_zero]
    exact climb_reachable _
  | succ j ih =>
    rw [glide_succ]
    exact Reachable32.update rightKey ih

theorem glideY_step (j : Nat) (hj : j ≤ 100) :
    f32 (glideY j + GRAVITY32) = glideY (j + 1) ∧ glideY (j + 1) < 430 := by
  unfold glideY
  refine ⟨?_, ?_⟩
  · have h := f32_gravity ((10305525 + 29491 * j : Nat) : Int) (by omega) (by omega)
    have e1 : ((((10305525 + 29491 * j : Nat) : Int)) : ℚ) = ((10305525 + 29491 * j : Nat) : ℚ) :=
      Int.cast_natCast _
    have e2 : (((((10305525 + 29491 * j : Nat) : Int)) + 29491 : Int) : ℚ)
        = ((10305525 + 29491 * (j + 1) : Nat) : ℚ) := by
      push_cast
      ring
    rw [e1, e2] at h
    exact h
  · have : (j : ℚ) ≤ 100 := by exact_mod_cast hj
    push_cast
    rw [div_lt_iff₀ (by norm_num)]
    linarith

theorem glideX_step (j : Nat) (hj : j ≤ 100) :
    f32 (((glideX j : Int) : ℚ) + 3) = ((glideX (j + 1) : Int) : ℚ) := by
  unfold glideX
  have := f32_right_far (-8388623 + (j : Int)) (by omega) (by omega)
  have e1 : ((4 * (-8388623 + (j : Int)) : Int) : ℚ) = ((-33554492 + 4 * (j : Int) : Int) : ℚ) := by
    push_cast
    ring
  have e2 : ((4 * (-8388623 + (j : Int)) + 4 : Int) : ℚ)
      = ((-33554492 + 4 * ((j + 1 : Nat) : Int) : Int) : ℚ) := by
    push_cast
    ring
  rw [e1, e2] at this
  exact this

theorem Floppy_Update32_glide (j : Nat) (hj : j ≤ 100) :
    ((Floppy.mk ⟨((glideX j : Int) : ℚ), glideY j⟩ 20).Update32 rightKey).position
      = ⟨((glideX (j + 1) : Int) : ℚ), glideY (j + 1)⟩ := by
  have hy := glideY_step j hj
  simp only [Floppy.Update32, rightKey, Bool.false_eq_true, if_false, if_true, floor32_eq,
    glideX_step j hj, hy.1]
  rw [if_neg (by rw [ge_iff_le, not_le]; exact hy.2)]

/-- The run `glide` in closed form: the player 4 to the right and 29491/32768 down per tick,
every gap at -2^25; the player stays 20 and more to the left of the rectangles. -/
theorem glide_eq (j : Nat) (hj : j ≤ 10) :
    glide j = fieldState ((glideX j : Int) : ℚ) (glideY j) (fun _ => -33554432) := by
  induction j with
  | zero =>
    rw [glide_zero, climb_eq 55 (by norm_num)]
    have h1 : ((climbX 55 : Int) : ℚ) = ((glideX 0 : Int) : ℚ) := by
      unfold climbX glideX
      norm_num
    have h2 : climbY 55 = glideY 0 := by
      unfold climbY glideY
      norm_num
    rw [h1, h2]
  | succ i ih =>
    rw [glide_succ, ih (by omega)]
    apply fieldState_tick _ _ _ rightKey rfl
    · exact Floppy_Update32_glide i (by omega)
    · intro j _
      exact f32_stalled
    · intro j _
      have h : glideX (i + 1) ≤ -33554432 := by
        unfold glideX
        push_cast
        omega
      exact_mod_cast h
    · apply fieldState_noHit
      intro j _
      left
      have h : glideX (i + 1) + 20 ≤ -33554432 := by
        unfold glideX
        push_cast
        omega
      exact_mod_cast h

theorem glide_last :
    glide 10 = fieldState (-33554452) (glideY 10) (fun _ => -33554432) := by
  rw [glide_eq 10 le_rfl]
  have : ((glideX 10 : Int) : ℚ) = -33554452 := by
    unfold glideX
    norm_num
  rw [this]

theorem glide_last_unpaused : unpausedPlaying (glide 10) rightKey := by
  rw [glide_last]
  exact fieldState_unpaused _ _ _ rightKey rfl

theorem glide_last_before : (glide 10).beforeChecks32 rightKey = hitState := by
  rw [glide_eq 10 le_rfl, fieldState_before, Floppy_Update32_glide 10 (by omega)]
  have : ((glideX (10 + 1) : Int) : ℚ) = -33554448 := by
    unfold glideX
    norm_num
  rw [this]
  exact fieldState_congr _ _ _ _ (fun _ _ => f32_stalled)

/-- In `glide 10` the player is 20 to the left of the rectangles and above the top edge of
the bottom ones, at a distance of more than 20 from each of them. -/
theorem glide_last_far (k : Nat) (hk : k < 200) :
    (glide 10).floppy.position = ⟨-33554452, 10600435 / 32768⟩ ∧
    distSq (glide 10).floppy.position ((glide 10).tubes k).rect > 20 ^ 2 := by
  rw [glide_last]
  have hy : glideY 10 = 10600435 / 32768 := by
    unfold glideY
    norm_num
  have hpos : (fieldState (-33554452) (glideY 10) (fun _ => -33554432)).floppy.position
      = ⟨-33554452, 10600435 / 32768⟩ := by
    rw [← hy]
    rfl
  refine ⟨hpos, ?_⟩
  rw [hpos, (fieldState_tube _ _ _ k hk).1]
  by_cases hm : k % 2 = 0
  · rw [if_pos hm]
    norm_num [distSq, closestPoint, max_def, min_def]
  · rw [if_neg hm]
    norm_num [distSq, closestPoint, max_def, min_def]

/-- On `hitState` the player is on the upper left corner of the bottom rectangle of every
pair, at a distance of less than 18 from it, and on no top rectangle. -/
theorem hitState_coll (k : Nat) (hk : k < 200) :
    clampCollision hitState.floppy.position 20 (hitState.tubes k).rect = decide (k % 2 = 1) ∧
    (k % 2 = 1 → distSq hitState.floppy.position (hitState.tubes k).rect < 18 ^ 2) := by
  unfold hitState
  rw [(fieldState_tube _ _ _ k hk).1]
  have hy : glideY 11 = 5314963 / 16384 := by
    unfold glideY
    norm_num
  have hpos : (fieldState (-33554448) (glideY 11) (fun _ => -33554432)).floppy.position
      = ⟨-33554448, 5314963 / 16384⟩ := by
    rw [← hy]
    rfl
  rw [hpos]
  by_cases hm : k % 2 = 0
  · have h1 : ¬ k % 2 = 1 := by omega
    rw [if_pos hm, decide_eq_false h1]
    refine ⟨?_, fun h => absurd h h1⟩
    norm_num [clampCollision, distSq, closestPoint, max_def, min_def]
  · have h1 : k % 2 = 1 := by omega
    rw [if_neg hm, decide_eq_true h1]
    refine ⟨?_, fun _ => ?_⟩
    · norm_num [clampCollision, distSq, closestPoint, max_def, min_def]
    · norm_num [distSq, closestPoint, max_def, min_def]

theorem hitState_conv (k : Nat) (hk : k < 200) :
    conv32 clampCollision hitState.floppy.position ((hitState.floppy.radius : Int) : ℚ)
      (hitState.tubes k).rect = decide (k % 2 = 1) := by
  have hrad : ((hitState.floppy.radius : Int) : ℚ) = 20 := by
    simp [hitState, fieldState]
  rw [hrad, conv32_twenty]
  exact (hitState_coll k hk).1

/-- The check loop on `hitState`: every odd iteration calls `UpdateHighScores`, and the
ledger takes the score 0 twice before it is full. -/
theorem hitState_loop (n : Nat) (hn : n ≤ 200) :
    (hitState.checkUpTo (conv32 clampCollision) n).score = 0 ∧
    (hitState.checkUpTo (conv32 clampCollision) n).hiScore = 0 ∧
    (hitState.checkUpTo (conv32 clampCollision) n).highScores = hitLedger n := by
  induction n with
  | zero =>
    rw [checkUpTo_zero]
    exact ⟨rfl, rfl, rfl⟩
  | succ i ih =>
    obtain ⟨h1, h2, h3⟩ := ih (by omega)
    have hsf := checkUpTo_sameField (conv32 clampCollision) hitState i
    have hcond : conv32 clampCollision
        (hitState.checkUpTo (conv32 clampCollision) i).floppy.position
        (((hitState.checkUpTo (conv32 clampCollision) i).floppy.radius : Int) : ℚ)
        ((hitState.checkUpTo (conv32 clampCollision) i).tubes i).rect = decide (i % 2 = 1) := by
      rw [hsf.1, hsf.2.2.1 i]
      exact hitState_conv i (by omega)
    rw [checkUpTo_succ]
    rcases checkStep_cases (conv32 clampCollision)
      (hitState.checkUpTo (conv32 clampCollision) i) i with ⟨hc, h⟩ | ⟨-, hc, -⟩ | ⟨hc, -, h⟩
    · rw [hcond] at hc
      have hodd : i % 2 = 1 := of_decide_eq_true hc
      rw [h]
      refine ⟨?_, ?_, ?_⟩
      · rw [(UpdateHighScores_frame _).2.2.1]
        exact h1
      · rw [UpdateHighScores_hiScore]
        show (if (hitState.checkUpTo (conv32 clampCollision) i).score
            > (hitState.checkUpTo (conv32 clampCollision) i).hiScore
          then (hitState.checkUpTo (conv32 clampCollision) i).score
          else (hitState.checkUpTo (conv32 clampCollision) i).hiScore) = 0
        rw [h1, h2]
        rfl
      · rw [UpdateHighScores_recorded]
        show recorded (hitState.checkUpTo (conv32 clampCollision) i).highScores
          (hitState.checkUpTo (conv32 clampCollision) i).score = _
        rw [h1, h3]
        unfold hitLedger
        by_cases c1 : i < 2
        · have : i = 1 := by omega
          subst this
          decide
        · by_cases c2 : i < 4
          · have : i = 3 := by omega
            subst this
            decide
          · rw [if_neg c1, if_neg c2, if_neg (by omega), if_neg (by omega)]
            decide
    · exfalso
      have hx := hc.1
      rw [hsf.1, hsf.2.1] at hx
      have hp : (hitState.tubesPos (i / 2)).x = -33554432 := by
        unfold hitState
        exact fieldState_pos _ _ _ (i / 2) (by omega)
      have hq : hitState.floppy.position.x = -33554448 := rfl
      rw [hp, hq] at hx
      norm_num at hx
    · rw [hcond] at hc
      have heven : ¬ i % 2 = 1 := of_decide_eq_false hc
      rw [h]
      refine ⟨h1, h2, ?_⟩
      rw [h3]
      unfold hitLedger
      by_cases c1 : i < 2
      · have : i = 0 := by omega
        subst this
        rfl
      · by_cases c2 : i < 4
        · have : i = 2 := by omega
          subst this
          rfl
        · rw [if_neg c1, if_neg c2, if_neg (by omega), if_neg (by omega)]

/-- C8, counterexample: in machine arithmetic the gaps do not stay 280 apart. After ENTER,
16800000 ticks with A held, 7013194 ticks with D held, 55 ticks with W and D held and 10 ticks
with D held, every gap has stalled at -2^25 (where a step of 2 is absorbed) and the player is
20 to the left of the rectangles, above the top edge of the bottom ones and further than 20
from every rectangle. The next tick with D held puts the player on the upper left corner of
the bottom rectangle of all 100 pairs, less than 18 from each: `UpdateHighScores` runs 100
times and the ledger 3000, 2500, 1800 takes the final score 0 twice, where a single insertion
gives 3000, 2500, 1800, 0. -/
theorem C8_counterexample :
    CollisionSound clampCollision ∧ Reachable32 clampCollision (glide 10) ∧
    unpausedPlaying (glide 10) rightKey ∧
    (glide 10).floppy.position = ⟨-33554452, 10600435 / 32768⟩ ∧
    (∀ k, k < 200 → distSq (glide 10).floppy.position ((glide 10).tubes k).rect > 20 ^ 2) ∧
    ((glide 10).floppy.Update32 rightKey).position = ⟨-33554448, 5314963 / 16384⟩ ∧
    (∀ k, k < 200 → k % 2 = 1 →
      distSq ((glide 10).floppy.Update32 rightKey).position
        (((glide 10).beforeChecks32 rightKey).tubes k).rect < 18 ^ 2) ∧
    clampCollision ((glide 10).floppy.Update32 rightKey).position 20
      (((glide 10).beforeChecks32 rightKey).tubes 1).rect = true ∧
    clampCollision ((glide 10).floppy.Update32 rightKey).position 20
      (((glide 10).beforeChecks32 rightKey).tubes 3).rect = true ∧
    updateCalls32 clampCollision
      (Game.beforeChecks32 { glide 10 with pause := false } rightKey) = 100 ∧
    (glide 10).highScores = [3000, 2500, 1800] ∧
    ((glide 10).Update32 clampCollision rightKey).score = 0 ∧
    ((glide 10).Update32 clampCollision rightKey).highScores = [3000, 2500, 1800, 0, 0] ∧
    specRecord (glide 10).highScores
      ((glide 10).Update32 clampCollision rightKey).score = [3000, 2500, 1800, 0] := by
  have hpos : ((glide 10).floppy.Update32 rightKey).position = hitState.floppy.position := by
    rw [← (beforeChecks32_fields (glide 10) rightKey).1, glide_last_before]
  have hposv : hitState.floppy.position = ⟨-33554448, 5314963 / 16384⟩ := by
    have hy : glideY 11 = 5314963 / 16384 := by
      unfold glideY
      norm_num
    unfold hitState
    rw [← hy]
    rfl
  have hscore0 : (glide 10).score = 0 := by
    rw [glide_last]
    rfl
  have hled : (glide 10).highScores = [3000, 2500, 1800] := by
    rw [glide_last]
    rfl
  have htick : (glide 10).Update32 clampCollision rightKey
      = hitState.checkUpTo (conv32 clampCollision) 200 := by
    rw [Update32_tick clampCollision _ rightKey glide_last_unpaused
      (by rw [hscore0]; norm_num) (by rw [hscore0]; norm_num), glide_last_before]
    rfl
  have hloop := hitState_loop 200 le_rfl
  have hs : ((glide 10).Update32 clampCollision rightKey).score = 0 := by
    rw [htick]
    exact hloop.1
  refine ⟨clampCollision_sound, glide_reachable _, glide_last_unpaused,
    (glide_last_far 0 (by omega)).1, fun k hk => (glide_last_far k hk).2,
    hpos.trans hposv, ?_, ?_, ?_, ?_, hled, hs, ?_, ?_⟩
  · intro k hk hodd
    rw [hpos, glide_last_before]
    exact (hitState_coll k hk).2 hodd
  · rw [hpos, glide_last_before, (hitState_coll 1 (by omega)).1]
    rfl
  · rw [hpos, glide_last_before, (hitState_coll 3 (by omega)).1]
    rfl
  · rw [updateCalls32_eq, beforeChecks32_pause, glide_last_before]
    have h20 : f32 (((20 : Int) : ℚ)) = 20 := by
      have := f32_intCast 20 (by norm_num)
      exact_mod_cast this
    have hfil : (Finset.range 200).filter (fun i =>
        clampCollision ({ hitState with pause := false } : Game).floppy.position
          (f32 ((({ hitState with pause := false } : Game).floppy.radius : Int) : ℚ))
          (({ hitState with pause := false } : Game).tubes i).rect = true)
        = (Finset.range 200).filter (fun i => i % 2 = 1) := by
      apply Finset.filter_congr
      intro k hk
      rw [Finset.mem_range] at hk
      have hrad : (({ hitState with pause := false } : Game).floppy.radius : Int) = 20 := rfl
      rw [hrad, h20]
      show clampCollision hitState.floppy.position 20 (hitState.tubes k).rect = true ↔ _
      rw [(hitState_coll k hk).1]
      simp
    rw [hfil]
    decide
  · rw [htick, hloop.2.2]
    rfl
  · rw [hs, hled, ← recorded_eq_specRecord _ _ (by decide)]
    decide

end Tugas
